import Mathlib

/-!
# MultiHeadAttn TensorRT plugin (wenet) : shallow embedding and verified properties

Embedding of `src/fastertransformer/tensorrt_plugin/wenet/MHAPlugin.cpp` and
`MHAPlugin.h`.

* C++ `int` values are mathematical integers reduced to the 32-bit signed range
  after every operation (`wrapInt32`); `size_t` values are naturals below `2^64`.
* Device memory is a map from symbolic pointers (`Loc`) to buffer contents; the
  CUDA kernels and cuBLAS wrappers called by `mha_forward` live in other files of
  the repository and are taken as parameters (`Kernels`).
* `mha_forward` is embedded as the sequence of kernel launches it enqueues on the
  stream, each with the pointer and integer arguments the source passes.
* Where a property is about what the kernels compute, their arithmetic is
  modelled from the specification (`specKernels`), on exact rational numbers,
  with the exponential and the reciprocal square root as parameters.
* The eight workspace regions are parts of one flat array: the element ranges
  the launches read and write in it (`Access`) are compared as intervals of
  workspace offsets, so a launch that writes past the end of its region is seen
  to overwrite the regions that follow.
* A failed `assert`, and a read or a write outside an array, ends a host-side
  method without a result (`none`, or a `Failure`). Plugin objects live on a heap
  in which a pointer is an index; serialization buffers are lists of bytes.
-/

namespace fastertransformer

/-! ## Machine integers -/

/-- Reduction of an integer to the range of a 32-bit two's-complement `int`. -/
def wrapInt32 (x : Int) : Int := (x + 2147483648) % 4294967296 - 2147483648

/-- The C++ `int * int` product. -/
def imul (a b : Int) : Int := wrapInt32 (a * b)

/-- The C++ `int + int` sum. -/
def iadd (a b : Int) : Int := wrapInt32 (a + b)

/-- The number of values of a 64-bit `size_t`. -/
def sizeTModulus : Nat := 18446744073709551616

/-- Conversion of an `int` to the 64-bit unsigned `size_t`. -/
def toSizeT (x : Int) : Nat := (x % (sizeTModulus : Int)).toNat

/-- The `size_t * size_t` product. -/
def sizeMul (a b : Nat) : Nat := (a * b) % sizeTModulus

/-! ## TensorRT interface types (from NvInfer.h) -/

/-- The element types `nvinfer1::DataType`. -/
inductive DataType
  | kFLOAT
  | kHALF
  | kINT8
  | kINT32
  | kBOOL
  deriving DecidableEq, Repr

/-- The tensor formats `nvinfer1::TensorFormat`. -/
inductive TensorFormat
  | kLINEAR
  | kCHW2
  | kHWC8
  | kCHW4
  | kCHW16
  | kCHW32
  deriving DecidableEq, Repr

/-- The C++ `sizeof(T)` of the two element types `mha_forward` is instantiated at
(`float` and `half`), and of the other TensorRT element types. -/
def sizeofT : DataType → Nat
  | .kFLOAT => 4
  | .kHALF => 2
  | .kINT8 => 1
  | .kINT32 => 4
  | .kBOOL => 1

/-- The struct `nvinfer1::Dims`: `d` is the fixed array `d[MAX_DIMS]`. -/
structure Dims where
  nbDims : Int
  d : List Int
  deriving DecidableEq, Repr

/-- The array read `dims.d[i]`; the entries of `d[MAX_DIMS]` that the list does
not give read as 0. -/
def Dims.get (dims : Dims) (i : Nat) : Int := dims.d.getD i 0

/-- The struct `nvinfer1::PluginTensorDesc`. -/
structure PluginTensorDesc where
  dims : Dims
  type : DataType
  format : TensorFormat
  scale : Rat
  deriving DecidableEq, Repr

/-- A handle `IDimensionExpr const*` of a symbolic dimension. -/
structure IDimensionExpr where
  handle : Nat
  deriving DecidableEq, Repr

/-- The struct `nvinfer1::DimsExprs`. -/
structure DimsExprs where
  nbDims : Int
  d : List IDimensionExpr
  deriving DecidableEq, Repr

/-! ## The plugin object -/

/-- The data members of `class MHAPlugin` that the embedded methods read.
`int8_model` and `scale_list` are set by no constructor: they hold whatever
value the object was created with. -/
structure MHAPlugin where
  mLayerName : String
  mNamespace : String
  isCrossAtten : Bool
  int8_model : Int
  scale_list : List Rat
  deriving DecidableEq, Repr

/-- `MHAPlugin::getWorkspaceSize`. `inputDesc` is the array of `nbInputs`
descriptors; a read past its end gives `none`. `inputDesc[1]` is read only
when the plugin is cross-attention. -/
def MHAPlugin.getWorkspaceSize (p : MHAPlugin) (inputDesc : List PluginTensorDesc)
    (_nbInputs : Int) (_outputs : List PluginTensorDesc) (_nbOutputs : Int) : Option Nat :=
  match inputDesc[0]? with
  | none => none
  | some desc0 =>
    let batch_size := desc0.dims.get 0
    let seq_len0 := desc0.dims.get 1
    let d_model := desc0.dims.get 2
    let seq_len1? : Option Int :=
      if p.isCrossAtten then (inputDesc[1]?).map (fun desc1 => desc1.dims.get 1)
      else some seq_len0
    match seq_len1? with
    | none => none
    | some seq_len1 =>
      let dataNum := imul d_model
        (iadd (iadd (imul seq_len0 4) (imul seq_len1 4)) (imul (imul seq_len0 seq_len1) 8))
      let workspaceSize := sizeMul (toSizeT (imul batch_size dataNum)) 4
      some workspaceSize

/-! ## Symbolic device pointers and kernel launches -/

/-- A device pointer: one of the plugin's input or output tensors, or the
workspace pointer advanced by a number of elements of type `T`. -/
inductive Loc
  | null
  | input (i : Nat)
  | output (i : Nat)
  | workspace (ws_offset : Int)
  deriving DecidableEq, Repr

/-- The cuBLAS transpose flags. -/
inductive CublasOp
  | CUBLAS_OP_N
  | CUBLAS_OP_T
  deriving DecidableEq, Repr

/-- The float expression `1 / sqrtf(size_per_head * 1.0f)`, kept symbolic. -/
inductive ScalarExpr
  | oneOverSqrtf (size_per_head : Int)
  deriving DecidableEq, Repr

/-- One kernel launch or cuBLAS call of `mha_forward`, with the arguments of the
source in the source's order (the stream argument is left out). -/
inductive KernelCall
  | invokeGeneralLayerNorm (out input gamma beta : Loc) (m n : Int) (opt_version : Int)
  | Gemm (transa transb : CublasOp) (m n k : Int) (A : Loc) (lda : Int) (B : Loc) (ldb : Int)
      (C : Loc) (ldc : Int)
  | invokeAddQKVBiasTranspose (q_buf k_buf v_buf Q bias_Q K bias_K V bias_V : Loc)
      (batch_size seq_len head_num size_per_head : Int)
  | stridedBatchedGemm (transa transb : CublasOp) (m n k : Int) (A : Loc) (lda strideA : Int)
      (B : Loc) (ldb strideB : Int) (C : Loc) (ldc strideC : Int) (batchCount : Int)
      (alpha beta : Rat)
  | invokeMaskedSoftMax (buffer buffer_src attr_mask : Loc)
      (batch_size seq_len0 seq_len1 head_num : Int) (scalar : ScalarExpr)
  | invokeTransposeQKV (dst src : Loc) (batch_size seq_len head_num size_per_head : Int)
  | invokeAddBiasResidual (output input bias : Loc) (m n : Int)
  deriving DecidableEq, Repr

/-- The eight workspace pointers of `mha_forward` and the final `ws_offset`. -/
structure WorkspaceLayout where
  q_buf : Int
  q_share : Int
  qk_buf : Int
  out_buf : Int
  k_buf : Int
  k_bias : Int
  v_buf : Int
  v_bias : Int
  ws_offset : Int
  deriving DecidableEq, Repr

/-- The workspace carving of `mha_forward` (source lines 613-621): each pointer is
`workspace + ws_offset`, after which `ws_offset` is advanced by the region's
element count, all in `int` arithmetic. -/
def workspaceLayout (batch_size seq_len0 d_model seq_len1 head_num : Int) : WorkspaceLayout :=
  let ws_offset : Int := 0
  let q_buf := ws_offset
  let ws_offset := iadd ws_offset (imul (imul batch_size seq_len0) d_model)
  let q_share := ws_offset
  let ws_offset := iadd ws_offset (imul (imul batch_size seq_len0) d_model)
  let qk_buf := ws_offset
  let ws_offset := iadd ws_offset (imul (imul (imul batch_size head_num) seq_len0) seq_len1)
  let out_buf := ws_offset
  let ws_offset := iadd ws_offset (imul (imul batch_size seq_len0) d_model)
  let k_buf := ws_offset
  let ws_offset := iadd ws_offset (imul (imul batch_size seq_len1) d_model)
  let k_bias := ws_offset
  let ws_offset := iadd ws_offset (imul (imul batch_size seq_len1) d_model)
  let v_buf := ws_offset
  let ws_offset := iadd ws_offset (imul (imul batch_size seq_len1) d_model)
  let v_bias := ws_offset
  let ws_offset := iadd ws_offset (imul (imul batch_size seq_len1) d_model)
  { q_buf := q_buf, q_share := q_share, qk_buf := qk_buf, out_buf := out_buf,
    k_buf := k_buf, k_bias := k_bias, v_buf := v_buf, v_bias := v_bias,
    ws_offset := ws_offset }

/-- The number of bytes of the workspace that the carving of `mha_forward<T>`
spans: `sizeof(T)` times the final `ws_offset`. -/
def workspaceExtentBytes (T : DataType) (batch_size seq_len0 d_model seq_len1 head_num : Int) :
    Int :=
  (sizeofT T : Int) * (workspaceLayout batch_size seq_len0 d_model seq_len1 head_num).ws_offset

/-! ## The float pipeline `mha_forward` -/

/-- The template `mha_forward<T>` (source lines 582-837): the status it returns
and the kernel launches it enqueues, in order. `inputs[i]` is `Loc.input i`,
`outputs[0]` is `Loc.output 0`. The launch sequence does not depend on `T`. -/
def mha_forward (batch_size seq_len0 d_model seq_len1 head_num size_per_head : Int)
    (isCrossAtten : Bool) : Int × List KernelCall :=
  let query_in := Loc.input 0
  let enc_in := Loc.input 1
  let enc_mask := Loc.input 2
  let query_weight_kernel := Loc.input 3
  let query_weight_bias := Loc.input 4
  let key_weight_kernel := Loc.input 5
  let key_weight_bias := Loc.input 6
  let value_weight_kernel := Loc.input 7
  let value_weight_bias := Loc.input 8
  let output_weight_kernel := Loc.input 9
  let output_weight_bias := Loc.input 10
  let layer_norm_gamma := Loc.input 11
  let layer_norm_beta := Loc.input 12
  let ws := workspaceLayout batch_size seq_len0 d_model seq_len1 head_num
  let q_buf := Loc.workspace ws.q_buf
  let q_share := Loc.workspace ws.q_share
  let qk_buf := Loc.workspace ws.qk_buf
  let out_buf := Loc.workspace ws.out_buf
  let k_buf := Loc.workspace ws.k_buf
  let k_bias := Loc.workspace ws.k_bias
  let v_buf := Loc.workspace ws.v_buf
  let v_bias := Loc.workspace ws.v_bias
  let enc_in := if !isCrossAtten then q_share else enc_in
  let scalar := ScalarExpr.oneOverSqrtf size_per_head
  (0,
   [ KernelCall.invokeGeneralLayerNorm q_share query_in layer_norm_gamma layer_norm_beta
       (imul batch_size seq_len0) d_model 0,
     KernelCall.Gemm .CUBLAS_OP_N .CUBLAS_OP_N d_model (imul batch_size seq_len0) d_model
       query_weight_kernel d_model q_share d_model q_buf d_model,
     KernelCall.Gemm .CUBLAS_OP_N .CUBLAS_OP_N d_model (imul batch_size seq_len1) d_model
       key_weight_kernel d_model enc_in d_model k_buf d_model,
     KernelCall.Gemm .CUBLAS_OP_N .CUBLAS_OP_N d_model (imul batch_size seq_len1) d_model
       value_weight_kernel d_model enc_in d_model v_buf d_model,
     KernelCall.invokeAddQKVBiasTranspose q_share .null .null q_buf query_weight_bias
       .null .null .null .null batch_size seq_len0 head_num size_per_head,
     KernelCall.invokeAddQKVBiasTranspose k_bias .null .null k_buf key_weight_bias
       .null .null .null .null batch_size seq_len1 head_num size_per_head,
     KernelCall.invokeAddQKVBiasTranspose v_bias .null .null v_buf value_weight_bias
       .null .null .null .null batch_size seq_len1 head_num size_per_head,
     KernelCall.stridedBatchedGemm .CUBLAS_OP_T .CUBLAS_OP_N seq_len1 seq_len0 size_per_head
       k_bias size_per_head (imul seq_len1 size_per_head)
       q_share size_per_head (imul seq_len0 size_per_head)
       qk_buf seq_len1 (imul seq_len0 seq_len1) (imul batch_size head_num) 1 0,
     KernelCall.invokeMaskedSoftMax qk_buf qk_buf enc_mask batch_size seq_len0 seq_len1
       head_num scalar,
     KernelCall.stridedBatchedGemm .CUBLAS_OP_N .CUBLAS_OP_N size_per_head seq_len0 seq_len1
       v_bias size_per_head (imul seq_len1 size_per_head)
       qk_buf seq_len1 (imul seq_len0 seq_len1)
       q_buf size_per_head (imul seq_len0 size_per_head) (imul batch_size head_num) 1 0,
     KernelCall.invokeTransposeQKV out_buf q_buf batch_size seq_len0 head_num size_per_head,
     KernelCall.Gemm .CUBLAS_OP_N .CUBLAS_OP_N d_model (imul batch_size seq_len0) d_model
       output_weight_kernel d_model out_buf d_model (Loc.output 0) d_model,
     KernelCall.invokeAddBiasResidual (Loc.output 0) query_in output_weight_bias
       (imul batch_size seq_len0) d_model ])

/-! ## Device memory and the effect of a launch sequence -/

/-- The contents of device memory, one buffer per pointer value: a launch reads
and writes the buffers at the pointers it is passed, and two different
pointers name two different buffers. This describes launches that stay inside
the region they are passed; which elements of the flat workspace a launch reads
and writes, past the end of its region included, is described by `Access` . -/
abbrev Mem (α : Type) := Loc → α

/-- The store of a buffer through a pointer. -/
def Mem.write {α : Type} (mem : Mem α) (dst : Loc) (v : α) : Mem α :=
  fun l => if l = dst then v else mem l

/-- The kernels and cuBLAS wrappers that `mha_forward` calls
(`layernorm_kernels`, `cublasMMWrapper`, `unfused_attention_kernels`,
`add_residual_kernels`) are defined outside the embedded files: each is a
parameter, a function from the buffers it reads, its integer arguments and the
previous contents of its destination to the new contents of its destination. -/
structure Kernels (α : Type) where
  generalLayerNorm : (input gamma beta : α) → (m n opt_version : Int) → (out : α) → α
  gemm : (transa transb : CublasOp) → (m n k : Int) → (A : α) → (lda : Int) → (B : α) →
    (ldb : Int) → (C : α) → (ldc : Int) → α
  addQKVBiasTranspose : (src bias : α) → (batch_size seq_len head_num size_per_head : Int) →
    (dst : α) → α
  stridedBatchedGemm : (transa transb : CublasOp) → (m n k : Int) → (A : α) →
    (lda strideA : Int) → (B : α) → (ldb strideB : Int) → (C : α) → (ldc strideC : Int) →
    (batchCount : Int) → (alpha beta : Rat) → α
  maskedSoftMax : (buffer_src attr_mask : α) → (batch_size seq_len0 seq_len1 head_num : Int) →
    (scalar : ScalarExpr) → (buffer : α) → α
  transposeQKV : (src : α) → (batch_size seq_len head_num size_per_head : Int) → (dst : α) → α
  addBiasResidual : (output input bias : α) → (m n : Int) → α

/-- The part of `invokeAddQKVBiasTranspose` for one of its three tensors: a null
destination is skipped. -/
def execAddBiasTranspose {α : Type} (K : Kernels α) (dst src bias : Loc)
    (batch_size seq_len head_num size_per_head : Int) (mem : Mem α) : Mem α :=
  if dst = Loc.null then mem
  else mem.write dst
    (K.addQKVBiasTranspose (mem src) (mem bias) batch_size seq_len head_num size_per_head
      (mem dst))

/-- The effect of one launch on device memory. -/
def KernelCall.exec {α : Type} (K : Kernels α) (mem : Mem α) : KernelCall → Mem α
  | .invokeGeneralLayerNorm out input gamma beta m n opt_version =>
    mem.write out (K.generalLayerNorm (mem input) (mem gamma) (mem beta) m n opt_version (mem out))
  | .Gemm transa transb m n k A lda B ldb C ldc =>
    mem.write C (K.gemm transa transb m n k (mem A) lda (mem B) ldb (mem C) ldc)
  | .invokeAddQKVBiasTranspose q_buf k_buf v_buf Q bias_Q Kin bias_K V bias_V
      batch_size seq_len head_num size_per_head =>
    let mem := execAddBiasTranspose K q_buf Q bias_Q batch_size seq_len head_num size_per_head mem
    let mem := execAddBiasTranspose K k_buf Kin bias_K batch_size seq_len head_num size_per_head mem
    execAddBiasTranspose K v_buf V bias_V batch_size seq_len head_num size_per_head mem
  | .stridedBatchedGemm transa transb m n k A lda strideA B ldb strideB C ldc strideC
      batchCount alpha beta =>
    mem.write C (K.stridedBatchedGemm transa transb m n k (mem A) lda strideA (mem B) ldb strideB
      (mem C) ldc strideC batchCount alpha beta)
  | .invokeMaskedSoftMax buffer buffer_src attr_mask batch_size seq_len0 seq_len1 head_num
      scalar =>
    mem.write buffer (K.maskedSoftMax (mem buffer_src) (mem attr_mask) batch_size seq_len0
      seq_len1 head_num scalar (mem buffer))
  | .invokeTransposeQKV dst src batch_size seq_len head_num size_per_head =>
    mem.write dst (K.transposeQKV (mem src) batch_size seq_len head_num size_per_head (mem dst))
  | .invokeAddBiasResidual output input bias m n =>
    mem.write output (K.addBiasResidual (mem output) (mem input) (mem bias) m n)

/-- The effect of a launch sequence: launches on one stream run in order. -/
def runKernels {α : Type} (K : Kernels α) (calls : List KernelCall) (mem : Mem α) : Mem α :=
  calls.foldl (fun m c => c.exec K m) mem

/-- The pointers a launch reads through. -/
def KernelCall.reads : KernelCall → List Loc
  | .invokeGeneralLayerNorm out input gamma beta _ _ _ => [input, gamma, beta, out]
  | .Gemm _ _ _ _ _ A _ B _ C _ => [A, B, C]
  | .invokeAddQKVBiasTranspose q_buf k_buf v_buf Q bias_Q Kin bias_K V bias_V _ _ _ _ =>
    (if q_buf = Loc.null then [] else [Q, bias_Q, q_buf]) ++
    (if k_buf = Loc.null then [] else [Kin, bias_K, k_buf]) ++
    (if v_buf = Loc.null then [] else [V, bias_V, v_buf])
  | .stridedBatchedGemm _ _ _ _ _ A _ _ B _ _ C _ _ _ _ _ => [A, B, C]
  | .invokeMaskedSoftMax buffer buffer_src attr_mask _ _ _ _ _ => [buffer_src, attr_mask, buffer]
  | .invokeTransposeQKV dst src _ _ _ _ => [src, dst]
  | .invokeAddBiasResidual output input bias _ _ => [output, input, bias]

/-- The pointers a launch writes through. -/
def KernelCall.writes : KernelCall → List Loc
  | .invokeGeneralLayerNorm out _ _ _ _ _ _ => [out]
  | .Gemm _ _ _ _ _ _ _ _ _ C _ => [C]
  | .invokeAddQKVBiasTranspose q_buf k_buf v_buf _ _ _ _ _ _ _ _ _ _ => [q_buf, k_buf, v_buf]
  | .stridedBatchedGemm _ _ _ _ _ _ _ _ _ _ _ C _ _ _ _ _ => [C]
  | .invokeMaskedSoftMax buffer _ _ _ _ _ _ _ => [buffer]
  | .invokeTransposeQKV dst _ _ _ _ _ => [dst]
  | .invokeAddBiasResidual output _ _ _ _ => [output]

/-! ## Host-side methods of the plugin -/

/-- What `MHAPlugin::enqueue` does on the host, in order. The two forward
templates are recorded with the template argument and the arguments passed. -/
inductive HostCall
  | cudaStreamSynchronize
  | cublasSetStream
  | setStream
  | setFP32GemmConfig
  | setFP16GemmConfig
  | mha_forward (T : DataType)
      (batch_size seq_len0 d_model seq_len1 head_num size_per_head : Int) (isCrossAtten : Bool)
      (mLayerName : String)
  | mha_forward_int8 (T : DataType)
      (batch_size q_len d_model kv_len head_num size_per_head : Int) (isCrossAtten : Bool)
      (scale_list : List Rat) (mLayerName : String)
  deriving DecidableEq, Repr

/-- The template `mha_forward_int8<T>` (source lines 222-579): everything after the
four local constants is inside a block comment, so it launches nothing and
returns 0. -/
def mha_forward_int8 (_batch_size _q_len _d_model _kv_len _head_num _size_per_head : Int)
    (_isCrossAtten : Bool) (_scale_list : List Rat) : Int × List KernelCall :=
  (0, [])

/-- The kernel launches behind a host call. -/
def HostCall.launches : HostCall → List KernelCall
  | .mha_forward _ batch_size seq_len0 d_model seq_len1 head_num size_per_head isCrossAtten _ =>
    (fastertransformer.mha_forward batch_size seq_len0 d_model seq_len1 head_num size_per_head
      isCrossAtten).2
  | .mha_forward_int8 _ batch_size q_len d_model kv_len head_num size_per_head isCrossAtten
      scale_list _ =>
    (fastertransformer.mha_forward_int8 batch_size q_len d_model kv_len head_num size_per_head
      isCrossAtten scale_list).2
  | _ => []

/-- Whether a host call is the start of one of the two attention pipelines. -/
def HostCall.isPipeline : HostCall → Bool
  | .mha_forward .. => true
  | .mha_forward_int8 .. => true
  | _ => false

/-- `MHAPlugin::enqueue` (source lines 839-943): the status it returns and the
host calls it makes. `inputDesc[1]` is read only when the plugin is
cross-attention; a read past the end of `inputDesc` gives `none`. -/
def MHAPlugin.enqueue (p : MHAPlugin) (inputDesc : List PluginTensorDesc)
    (_outputDesc : List PluginTensorDesc) : Option (Int × List HostCall) :=
  match inputDesc[0]? with
  | none => none
  | some desc0 =>
    let status : Int := 0
    let batch_size := desc0.dims.get 0
    let seq_len0 := desc0.dims.get 1
    let d_model := desc0.dims.get 2
    let seq_len1? : Option Int :=
      if p.isCrossAtten then (inputDesc[1]?).map (fun desc1 => desc1.dims.get 1)
      else some seq_len0
    match seq_len1? with
    | none => none
    | some seq_len1 =>
      let head_num : Int := 4
      let size_per_head : Int := 64
      let pre := [HostCall.cudaStreamSynchronize, HostCall.cublasSetStream, HostCall.setStream]
      if desc0.type = DataType.kFLOAT then
        if p.int8_model ≠ -1 then
          some (status, pre ++ [HostCall.mha_forward_int8 .kFLOAT batch_size seq_len0 d_model
            seq_len1 head_num size_per_head p.isCrossAtten p.scale_list p.mLayerName])
        else
          some (status, pre ++ [HostCall.setFP32GemmConfig,
            HostCall.mha_forward .kFLOAT batch_size seq_len0 d_model seq_len1 head_num
              size_per_head p.isCrossAtten p.mLayerName])
      else if desc0.type = DataType.kHALF then
        if p.int8_model ≠ -1 then
          some (status, pre ++ [HostCall.mha_forward_int8 .kHALF batch_size seq_len0 d_model
            seq_len1 head_num size_per_head p.isCrossAtten p.scale_list p.mLayerName])
        else
          some (status, pre ++ [HostCall.setFP16GemmConfig,
            HostCall.mha_forward .kHALF batch_size seq_len0 d_model seq_len1 head_num
              size_per_head p.isCrossAtten p.mLayerName])
      else
        some (status, pre)

/-- `MHAPlugin::getOutputDimensions` (source lines 103-115); a failed `assert`
gives `none`, as does a read past the end of `inputs`. -/
def MHAPlugin.getOutputDimensions (_p : MHAPlugin) (outputIndex : Int) (inputs : List DimsExprs)
    (nbInputs : Int) : Option DimsExprs :=
  if nbInputs ≠ 13 then none
  else if outputIndex ≠ 0 then none
  else inputs[0]?

/-- `MHAPlugin::getOutputDataType` (MHAPlugin.h lines 102-108); a read past the
end of `inputTypes` gives `none`. -/
def MHAPlugin.getOutputDataType (_p : MHAPlugin) (_index : Int) (inputTypes : List DataType)
    (_nbInputs : Int) : Option DataType :=
  inputTypes[0]?

/-- `MHAPlugin::supportsFormatCombination` (source lines 965-985); a read outside
`inOut` gives `none`. -/
def MHAPlugin.supportsFormatCombination (_p : MHAPlugin) (pos : Int) (inOut : List PluginTensorDesc)
    (_nbInputs _nbOutputs : Int) : Option Bool :=
  if pos < 0 then none
  else (inOut[pos.toNat]?).map
    (fun desc => decide (desc.format = TensorFormat.kLINEAR) && decide (desc.type = DataType.kFLOAT))

/-! ## Statement vocabulary -/

/-- A workspace region: the element offset it starts at and its element count. -/
structure Region where
  name : String
  start : Int
  count : Int
  deriving DecidableEq, Repr

/-- Two element ranges share no element. -/
def Region.disjoint (r s : Region) : Prop :=
  r.start + r.count ≤ s.start ∨ s.start + s.count ≤ r.start

instance (r s : Region) : Decidable (r.disjoint s) := by
  unfold Region.disjoint; infer_instance

/-- The eight regions of `mha_forward`, in the order they are carved: the start
is the pointer the code computes, the count is the element count the source
advances `ws_offset` by, taken as a mathematical product. -/
def workspaceRegions (batch_size seq_len0 d_model seq_len1 head_num : Int) : List Region :=
  let ws := workspaceLayout batch_size seq_len0 d_model seq_len1 head_num
  [ ⟨"q_buf", ws.q_buf, batch_size * seq_len0 * d_model⟩,
    ⟨"q_share", ws.q_share, batch_size * seq_len0 * d_model⟩,
    ⟨"qk_buf", ws.qk_buf, batch_size * head_num * seq_len0 * seq_len1⟩,
    ⟨"out_buf", ws.out_buf, batch_size * seq_len0 * d_model⟩,
    ⟨"k_buf", ws.k_buf, batch_size * seq_len1 * d_model⟩,
    ⟨"k_bias", ws.k_bias, batch_size * seq_len1 * d_model⟩,
    ⟨"v_buf", ws.v_buf, batch_size * seq_len1 * d_model⟩,
    ⟨"v_bias", ws.v_bias, batch_size * seq_len1 * d_model⟩ ]

/-- Every region of the list starts where the one before it ends, the first
one at `start`. -/
def consecutiveFrom : Int → List Region → Prop
  | _, [] => True
  | start, r :: rs => r.start = start ∧ consecutiveFrom (start + r.count) rs

instance decConsecutiveFrom : (start : Int) → (rs : List Region) →
    Decidable (consecutiveFrom start rs)
  | _, [] => isTrue trivial
  | start, r :: rs =>
    have := decConsecutiveFrom (start + r.count) rs
    by unfold consecutiveFrom; infer_instance

/-- Two memories hold the same buffer at every pointer other than `l`. -/
def Mem.agreeOff {α : Type} (l : Loc) (mem₁ mem₂ : Mem α) : Prop :=
  ∀ l', l' ≠ l → mem₁ l' = mem₂ l'


/-- The query and key/value lengths `(seq_len0, seq_len1)` a host call passes to
a forward template. -/
def HostCall.seqLens : HostCall → Option (Int × Int)
  | .mha_forward _ _ seq_len0 _ seq_len1 _ _ _ _ => some (seq_len0, seq_len1)
  | .mha_forward_int8 _ _ q_len _ kv_len _ _ _ _ _ => some (q_len, kv_len)
  | _ => none

/-- The thirteen input descriptors of the plugin for the shape
`(B, S0, S1, D)` and element type `T`, in the order `mha_forward` reads its
inputs: query, key/value source, mask, the four weight/bias pairs, layer-norm
gamma and beta; all linear, scale 0. -/
def inputDesc13 (T : DataType) (B S0 S1 D : Int) : List PluginTensorDesc :=
  [ ⟨⟨3, [B, S0, D]⟩, T, .kLINEAR, 0⟩, ⟨⟨3, [B, S1, D]⟩, T, .kLINEAR, 0⟩,
    ⟨⟨3, [B, S0, S1]⟩, T, .kLINEAR, 0⟩,
    ⟨⟨2, [D, D]⟩, T, .kLINEAR, 0⟩, ⟨⟨1, [D]⟩, T, .kLINEAR, 0⟩,
    ⟨⟨2, [D, D]⟩, T, .kLINEAR, 0⟩, ⟨⟨1, [D]⟩, T, .kLINEAR, 0⟩,
    ⟨⟨2, [D, D]⟩, T, .kLINEAR, 0⟩, ⟨⟨1, [D]⟩, T, .kLINEAR, 0⟩,
    ⟨⟨2, [D, D]⟩, T, .kLINEAR, 0⟩, ⟨⟨1, [D]⟩, T, .kLINEAR, 0⟩,
    ⟨⟨1, [D]⟩, T, .kLINEAR, 0⟩, ⟨⟨1, [D]⟩, T, .kLINEAR, 0⟩ ]

/-- A sample family of kernels on natural numbers, for evaluating launch
sequences on concrete memories: every kernel adds up the buffers it reads. -/
def sumKernels : Kernels Nat where
  generalLayerNorm := fun input gamma beta _ _ _ _ => input + gamma + beta
  gemm := fun _ _ _ _ _ A _ B _ _ _ => A + B
  addQKVBiasTranspose := fun src bias _ _ _ _ _ => src + bias
  stridedBatchedGemm := fun _ _ _ _ _ A _ _ B _ _ _ _ _ _ _ _ => A + B
  maskedSoftMax := fun buffer_src attr_mask _ _ _ _ _ _ => buffer_src + attr_mask
  transposeQKV := fun src _ _ _ _ _ => src
  addBiasResidual := fun output input bias _ _ => output + input + bias

/-- The stages of the float pipeline, named as the specification names them. -/
inductive Stage
  | layerNorm
  | queryProjection
  | keyProjection
  | valueProjection
  | querySplit
  | keySplit
  | valueSplit
  | scoreGemm
  | maskedSoftmax
  | contextGemm
  | headMerge
  | outputProjection
  | biasResidual
  deriving DecidableEq, Repr

/-- The stage a launch of `mha_forward` carries out, read off its kernel and its
weight or bias operand: a GEMM is the projection whose weight (`inputs[3]`,
`inputs[5]`, `inputs[7]`, `inputs[9]`) it multiplies by, a bias-add transpose is
the head split whose bias (`inputs[4]`, `inputs[6]`, `inputs[8]`) it adds, a
strided batched GEMM is the score product when its first operand is transposed
and the context product otherwise. -/
def KernelCall.stage? : KernelCall → Option Stage
  | .invokeGeneralLayerNorm .. => some .layerNorm
  | .Gemm _ _ _ _ _ A _ _ _ _ _ =>
    if A = Loc.input 3 then some .queryProjection
    else if A = Loc.input 5 then some .keyProjection
    else if A = Loc.input 7 then some .valueProjection
    else if A = Loc.input 9 then some .outputProjection
    else none
  | .invokeAddQKVBiasTranspose _ _ _ _ bias_Q _ _ _ _ _ _ _ _ =>
    if bias_Q = Loc.input 4 then some .querySplit
    else if bias_Q = Loc.input 6 then some .keySplit
    else if bias_Q = Loc.input 8 then some .valueSplit
    else none
  | .stridedBatchedGemm transa _ _ _ _ _ _ _ _ _ _ _ _ _ _ _ _ =>
    if transa = CublasOp.CUBLAS_OP_T then some .scoreGemm else some .contextGemm
  | .invokeMaskedSoftMax .. => some .maskedSoftmax
  | .invokeTransposeQKV .. => some .headMerge
  | .invokeAddBiasResidual .. => some .biasResidual

/-- Whether a host call is a call of the float template `mha_forward`. -/
def HostCall.isFloatForward : HostCall → Bool
  | .mha_forward .. => true
  | _ => false

/-- Whether a host call is a call of the quantized template `mha_forward_int8`. -/
def HostCall.isInt8Forward : HostCall → Bool
  | .mha_forward_int8 .. => true
  | _ => false

/-! ## The plugin creator -/

/-- The enumeration `nvinfer1::PluginFieldType`. -/
inductive PluginFieldType
  | kFLOAT16
  | kFLOAT32
  | kFLOAT64
  | kINT8
  | kINT16
  | kINT32
  | kCHAR
  | kDIMS
  | kUNKNOWN
  deriving DecidableEq, Repr

/-- What the `data` pointer of a plugin field points to: a C string, an array of
floats, or something else. -/
inductive FieldData
  | chars (s : String)
  | floats (xs : List Rat)
  | other
  deriving DecidableEq, Repr

/-- The struct `nvinfer1::PluginField`. -/
structure PluginField where
  name : String
  data : FieldData
  type : PluginFieldType
  length : Int
  deriving DecidableEq, Repr

/-- The struct `nvinfer1::PluginFieldCollection`. -/
structure PluginFieldCollection where
  nbFields : Int
  fields : List PluginField
  deriving DecidableEq, Repr

/-- The values found in the data members that no constructor of `MHAPlugin`
sets. -/
structure Uninitialized where
  int8_model : Int
  scale_list : List Rat
  deriving DecidableEq, Repr

/-- The constructor `MHAPlugin::MHAPlugin(name, isCrossAtten)` (source lines
63-68): it sets `mLayerName` and `isCrossAtten`; `mNamespace` is an empty string,
`int8_model` and `scale_list` keep the values `u` of the raw storage. -/
def MHAPlugin.new (name : String) (isCrossAtten : Bool) (u : Uninitialized) : MHAPlugin :=
  { mLayerName := name, mNamespace := "", isCrossAtten := isCrossAtten,
    int8_model := u.int8_model, scale_list := u.scale_list }

/-- The loop of `MHAPluginCreator::createPlugin` (source lines 1059-1075) over the
indices that remain: the value of the local `isCrossAtten` after the loop. A
failed `assert`, a read past the end of `fields` and a `strcmp` on data that is
not a C string give `none`. The local array `scale_list` of the source is never
written or read. -/
def MHAPluginCreator.parseFields (fields : List PluginField) :
    Bool → List Nat → Option Bool
  | isCrossAtten, [] => some isCrossAtten
  | isCrossAtten, i :: rest =>
    match fields[i]? with
    | none => none
    | some f =>
      if f.name = "AttentionType" then
        if f.type ≠ PluginFieldType.kCHAR then none
        else
          match f.data with
          | .chars s =>
            MHAPluginCreator.parseFields fields (if s = "cross" then true else isCrossAtten) rest
          | _ => none
      else if f.name = "ScaleList" then
        if f.type ≠ PluginFieldType.kFLOAT32 then none
        else MHAPluginCreator.parseFields fields isCrossAtten rest
      else MHAPluginCreator.parseFields fields isCrossAtten rest

/-- `MHAPluginCreator::createPlugin` (source lines 1050-1077). -/
def MHAPluginCreator.createPlugin (name : String) (fc : PluginFieldCollection)
    (u : Uninitialized) : Option MHAPlugin :=
  (MHAPluginCreator.parseFields fc.fields false (List.range fc.nbFields.toNat)).map
    (fun isCrossAtten => MHAPlugin.new name isCrossAtten u)

/-! ## Kernel arithmetic

The kernels and the cuBLAS wrapper that `mha_forward` launches are defined in
files of the repository that are not embedded here. Their arithmetic is modelled
from the specification, on exact rational numbers; the two elementary functions
of the float pipeline, the exponential and the reciprocal square root, are
parameters. -/

/-- A device buffer of numbers: the element at each offset from its pointer. -/
abbrev Buf := Int → ℚ

/-- The sum `f 0 + ... + f (n-1)` for an `int` count `n` . -/
def sumTo (n : Int) (f : Int → ℚ) : ℚ :=
  Finset.sum (Finset.range n.toNat) (fun t => f (t : Int))

/-- Modelled from the spec: the element in row `row` and column `col` of `op(M)`
under the cuBLAS column-major convention, for a matrix stored at `M` with leading
dimension `ld`: `M[row + col*ld]` when `op` is `CUBLAS_OP_N` and `M[col + row*ld]`
when it is `CUBLAS_OP_T` . The cuBLAS library is what
`cublasMMWrapper::stridedBatchedGemm` and `cublasMMWrapper::Gemm` forward to. -/
def opElem (op : CublasOp) (M : Buf) (ld : Int) (row col : Int) : ℚ :=
  match op with
  | .CUBLAS_OP_N => M (row + col * ld)
  | .CUBLAS_OP_T => M (col + row * ld)

/-- Modelled from the spec: the cuBLAS strided batched GEMM that
`cublasMMWrapper::stridedBatchedGemm` forwards to. For every batch `b <
batchCount`, row `i < m` and column `j < n`,
`C[b*strideC + i + j*ldc] = alpha * sum over l < k of op(A_b)(i,l) * op(B_b)(l,j)
+ beta * C[b*strideC + i + j*ldc]`, where `A_b` starts at `A + b*strideA` and
`B_b` at `B + b*strideB`; every other element of `C` is left as it was. The
offset is decoded by division, which names the element when `m <= ldc` and
`n*ldc <= strideC` (a stride of 0 stands for a single batch). -/
def gemmStridedBatched (transa transb : CublasOp) (m n k : Int) (alpha : ℚ) (A : Buf)
    (lda strideA : Int) (B : Buf) (ldb strideB : Int) (beta : ℚ) (C : Buf) (ldc strideC : Int)
    (batchCount : Int) : Buf :=
  fun idx =>
    let b := idx / strideC
    let i := (idx % strideC) % ldc
    let j := (idx % strideC) / ldc
    if 0 ≤ idx ∧ 0 ≤ b ∧ b < batchCount ∧ i < m ∧ j < n then
      alpha * sumTo k (fun l =>
        opElem transa (fun t => A (b * strideA + t)) lda i l *
        opElem transb (fun t => B (b * strideB + t)) ldb l j)
      + beta * C idx
    else C idx

/-- Modelled from the spec: `cublasMMWrapper::Gemm` with the eleven arguments
`mha_forward` passes, a single cuBLAS GEMM `C = op(A) * op(B)` with `alpha = 1`
and `beta = 0` . -/
def gemm (transa transb : CublasOp) (m n k : Int) (A : Buf) (lda : Int) (B : Buf) (ldb : Int)
    (C : Buf) (ldc : Int) : Buf :=
  gemmStridedBatched transa transb m n k 1 A lda 0 B ldb 0 0 C ldc 0 1

/-- The mean of row `r` of a row-major buffer with `n` columns. -/
def rowMean (x : Buf) (n r : Int) : ℚ :=
  sumTo n (fun c => x (r * n + c)) / n

/-- The population variance of row `r` of a row-major buffer with `n` columns. -/
def rowVar (x : Buf) (n r : Int) : ℚ :=
  sumTo n (fun c => (x (r * n + c) - rowMean x n r) ^ 2) / n

/-- Modelled from the spec: `invokeGeneralLayerNorm` (specification 4.1). For each
of the `m` token rows of `n` elements: the mean and the population variance over
the hidden axis, the normalized value `(x - mean) * rsqrt(variance + eps)` and
then `gamma * normalized + beta` . `rsqrt` is the reciprocal square root and
`eps` the small constant added before it. -/
def generalLayerNorm (rsqrt : ℚ → ℚ) (eps : ℚ) (input gamma beta : Buf) (m n : Int)
    (out : Buf) : Buf :=
  fun idx =>
    let r := idx / n
    let c := idx % n
    if 0 ≤ idx ∧ 0 ≤ r ∧ r < m then
      gamma c * ((input idx - rowMean input n r) * rsqrt (rowVar input n r + eps)) + beta c
    else out idx

/-- Modelled from the spec: one tensor of `invokeAddQKVBiasTranspose`
(specification 4.3). The bias is added and the flat layout `[B, S, head_num,
head_dim]` is transposed to the per-head layout `[B, head_num, S, head_dim]` . -/
def addQKVBiasTranspose (src bias : Buf) (batch_size seq_len head_num size_per_head : Int)
    (dst : Buf) : Buf :=
  fun idx =>
    let d := idx % size_per_head
    let s := (idx / size_per_head) % seq_len
    let h := (idx / size_per_head / seq_len) % head_num
    let b := idx / size_per_head / seq_len / head_num
    if 0 ≤ idx ∧ 0 ≤ b ∧ b < batch_size then
      src (((b * seq_len + s) * head_num + h) * size_per_head + d) + bias (h * size_per_head + d)
    else dst idx

/-- The largest of `f 0, ..., f (n-1)` (and `f 0` when `n <= 1`). -/
def rowMax (n : Int) (f : Int → ℚ) : ℚ :=
  (List.range n.toNat).foldl (fun acc j => max acc (f (j : Int))) (f 0)

/-- Modelled from the spec: the scaled and masked logit of `invokeMaskedSoftMax`
(specification 4.5) at key position `j` of the row `row` (the row index runs
over batch, head and query position):
`scalar * logits + mask`, with the mask of shape `[B, S_q, S_kv]` shared by the
heads. -/
def maskedLogit (src mask : Buf) (seq_len0 seq_len1 head_num : Int) (scalar : ℚ)
    (row j : Int) : ℚ :=
  scalar * src (row * seq_len1 + j)
    + mask (((row / seq_len0 / head_num) * seq_len0 + row % seq_len0) * seq_len1 + j)

/-- Modelled from the spec: `invokeMaskedSoftMax` (specification 4.5). For each row
(fixed batch, head and query position) the softmax of `scalar * logits + mask`
over the key axis in the max-subtraction form: `exp(t_j - max) / sum over j' of
exp(t_j' - max)` . `expf` is the exponential. -/
def maskedSoftMax (expf : ℚ → ℚ) (src mask : Buf) (batch_size seq_len0 seq_len1 head_num : Int)
    (scalar : ℚ) (buffer : Buf) : Buf :=
  fun idx =>
    let row := idx / seq_len1
    let j := idx % seq_len1
    if 0 ≤ idx ∧ 0 ≤ row ∧ row < batch_size * head_num * seq_len0 then
      let t := maskedLogit src mask seq_len0 seq_len1 head_num scalar row
      expf (t j - rowMax seq_len1 t) / sumTo seq_len1 (fun j' => expf (t j' - rowMax seq_len1 t))
    else buffer idx

/-- Modelled from the spec: `invokeTransposeQKV` (specification 4.7), the head
merge: the per-head layout `[B, head_num, S, head_dim]` is transposed back to the
flat layout `[B, S, head_num, head_dim]` . -/
def transposeQKV (src : Buf) (batch_size seq_len head_num size_per_head : Int)
    (dst : Buf) : Buf :=
  fun idx =>
    let d := idx % size_per_head
    let h := (idx / size_per_head) % head_num
    let s := (idx / size_per_head / head_num) % seq_len
    let b := idx / size_per_head / head_num / seq_len
    if 0 ≤ idx ∧ 0 ≤ b ∧ b < batch_size then
      src (((b * head_num + h) * seq_len + s) * size_per_head + d)
    else dst idx

/-- Modelled from the spec: `invokeAddBiasResidual` (specification 4.8): for each
of the `m` rows of `n` elements, `output = output + bias + input`, the bias
indexed by the column. -/
def addBiasResidual (output input bias : Buf) (m n : Int) : Buf :=
  fun idx =>
    if 0 ≤ idx ∧ 0 ≤ idx / n ∧ idx / n < m then output idx + bias (idx % n) + input idx
    else output idx

/-- The value of the float expression `1 / sqrtf(size_per_head * 1.0f)` for a
reciprocal square root `rsqrt` . -/
def ScalarExpr.value (rsqrt : ℚ → ℚ) : ScalarExpr → ℚ
  | .oneOverSqrtf size_per_head => rsqrt size_per_head

/-- Modelled from the spec: the kernels and cuBLAS wrappers that `mha_forward`
launches, none of them under the embedded files, with the arithmetic the
specification describes, for an exponential `expf`, a reciprocal square root
`rsqrt` and the layer-norm constant `eps` . -/
def specKernels (expf rsqrt : ℚ → ℚ) (eps : ℚ) : Kernels Buf where
  generalLayerNorm := fun input gamma beta m n _ out =>
    generalLayerNorm rsqrt eps input gamma beta m n out
  gemm := gemm
  addQKVBiasTranspose := addQKVBiasTranspose
  stridedBatchedGemm := fun transa transb m n k A lda strideA B ldb strideB C ldc strideC
      batchCount alpha beta =>
    gemmStridedBatched transa transb m n k alpha A lda strideA B ldb strideB beta C ldc strideC
      batchCount
  maskedSoftMax := fun src mask batch_size seq_len0 seq_len1 head_num scalar buffer =>
    maskedSoftMax expf src mask batch_size seq_len0 seq_len1 head_num (scalar.value rsqrt) buffer
  transposeQKV := transposeQKV
  addBiasResidual := addBiasResidual

/-- The masked-softmax launch of `mha_forward` (source lines 771-780), launch 8 of
its sequence. -/
def softmaxLaunch (B S0 D S1 H sph : Int) : KernelCall :=
  KernelCall.invokeMaskedSoftMax
    (Loc.workspace (workspaceLayout B S0 D S1 H).qk_buf)
    (Loc.workspace (workspaceLayout B S0 D S1 H).qk_buf) (Loc.input 2) B S0 S1 H
    (ScalarExpr.oneOverSqrtf sph)

/-- The buffer at `qk_buf` after the masked-softmax launch has run on the memory
`mem`, with the kernel arithmetic of the specification. -/
def softmaxOutput (expf rsqrt : ℚ → ℚ) (eps : ℚ) (B S0 D S1 H sph : Int) (mem : Mem Buf) : Buf :=
  ((softmaxLaunch B S0 D S1 H sph).exec (specKernels expf rsqrt eps) mem)
    (Loc.workspace (workspaceLayout B S0 D S1 H).qk_buf)

/-- The layer-normalization launch of `mha_forward` (source lines 626-634), launch
0 of its sequence: `m = batch_size*seq_len0` rows of `n = d_model` elements. -/
def layerNormLaunch (B S0 D S1 H : Int) : KernelCall :=
  KernelCall.invokeGeneralLayerNorm (Loc.workspace (workspaceLayout B S0 D S1 H).q_share)
    (Loc.input 0) (Loc.input 11) (Loc.input 12) (imul B S0) D 0

/-- The buffer at `q_share` after the layer-normalization launch has run on the
memory `mem`, with the kernel arithmetic of the specification. -/
def layerNormOutput (expf rsqrt : ℚ → ℚ) (eps : ℚ) (B S0 D S1 H : Int) (mem : Mem Buf) : Buf :=
  ((layerNormLaunch B S0 D S1 H).exec (specKernels expf rsqrt eps) mem)
    (Loc.workspace (workspaceLayout B S0 D S1 H).q_share)

/-- The row-major `n` by `n` identity matrix: 1 at offset `t*n + t`, 0 elsewhere. -/
def identityMatrix (n : Int) : Buf :=
  fun idx => if idx / n = idx % n then 1 else 0

/-! ## The end-to-end scenario of the specification

`batch = 1`, `seq_q = seq_kv = 2`, `hidden = 4`, one head of dimension 4, identity
weight matrices, zero biases, `gamma = 1`, `beta = 0`, all-zero mask. -/

/-- The device memory of the scenario: the query activation `X` at `inputs[0]`,
the zero mask at `inputs[2]`, the identity matrix at the four weights, zero at
the four biases, `gamma = 1` at `inputs[11]`, `beta = 0` at `inputs[12]`, and
the buffers of `init` everywhere else (`inputs[1]`, the outputs, the
workspace). -/
def scenarioMem (X : Buf) (init : Mem Buf) : Mem Buf :=
  fun l =>
    match l with
    | .input 0 => X
    | .input 2 => fun _ => 0
    | .input 3 => identityMatrix 4
    | .input 4 => fun _ => 0
    | .input 5 => identityMatrix 4
    | .input 6 => fun _ => 0
    | .input 7 => identityMatrix 4
    | .input 8 => fun _ => 0
    | .input 9 => identityMatrix 4
    | .input 10 => fun _ => 0
    | .input 11 => fun _ => 1
    | .input 12 => fun _ => 0
    | l => init l

/-- The buffer at the pointer `l` after the first `k` launches of
`mha_forward(batch_size = 1, seq_len0 = 2, d_model = 4, seq_len1 = 2, head_num = 1,
size_per_head = 4, isCrossAtten = false)` have run on the scenario memory, with
the kernel arithmetic of the specification. -/
def scenarioStage (expf rsqrt : ℚ → ℚ) (eps : ℚ) (X : Buf) (init : Mem Buf) (k : Nat)
    (l : Loc) : Buf :=
  runKernels (specKernels expf rsqrt eps) ((mha_forward 1 2 4 2 1 4 false).2.take k)
    (scenarioMem X init) l

/-- The per-row standardized input: element `c` of row `r` of `X` minus the row
mean, times the reciprocal square root of the row variance plus `eps` . -/
def standardized (rsqrt : ℚ → ℚ) (eps : ℚ) (X : Buf) (n r c : Int) : ℚ :=
  (X (r * n + c) - rowMean X n r) * rsqrt (rowVar X n r + eps)

/-! ## Sample data for evaluating the kernel arithmetic -/

/-- A sample exponential: 1 at 0 and 1/2 elsewhere. -/
def sampleExpf : ℚ → ℚ := fun x => if x = 0 then 1 else 1 / 2

/-- A sample reciprocal square root: exact at 4 and at 64, and 1 elsewhere. -/
def sampleRsqrt : ℚ → ℚ := fun y => if y = 4 then 1 / 2 else if y = 64 then 1 / 8 else 1

/-- A sample memory: `gamma = 3` at `inputs[11]`, `beta = 5` at `inputs[12]`, the
mask -10000 at `inputs[2]`, and the values `0, 2, 0, 2, ...` in every other
buffer. -/
def sampleMem : Mem Buf :=
  fun l t =>
    if l = Loc.input 11 then 3
    else if l = Loc.input 12 then 5
    else if l = Loc.input 2 then -10000
    else if t % 2 = 0 then 0 else 2

/-! ## Scale factors of the launches -/

/-- The `alpha` and `beta` a cuBLAS call is passed as arguments: only the strided
batched GEMM takes them (its last two arguments). -/
def KernelCall.alphaBeta? : KernelCall → Option (Rat × Rat)
  | .stridedBatchedGemm _ _ _ _ _ _ _ _ _ _ _ _ _ _ _ alpha beta => some (alpha, beta)
  | _ => none

/-- The scalar a launch is passed to multiply the logits by: only the masked
softmax takes one. -/
def KernelCall.scalar? : KernelCall → Option ScalarExpr
  | .invokeMaskedSoftMax _ _ _ _ _ _ _ scalar => some scalar
  | _ => none

/-- The `size_per_head` a host call passes to a forward template. -/
def HostCall.sizePerHead? : HostCall → Option Int
  | .mha_forward _ _ _ _ _ _ size_per_head _ _ => some size_per_head
  | .mha_forward_int8 _ _ _ _ _ _ size_per_head _ _ _ => some size_per_head
  | _ => none

/-! ## Write extents of the launches -/

/-- Modelled from the spec: the number of elements a launch writes through its
destination pointer, from the shapes the specification gives the stages (the
kernels themselves are not under the embedded files). Layer normalization and
bias-plus-residual write `m` rows of `n` elements; a GEMM writes its `m` by `n`
result; a strided batched GEMM writes `batchCount` results of `m` by `n` ; the head
split and the head merge write `batch_size * seq_len * head_num * size_per_head`
elements; the masked softmax writes `batch_size * head_num * seq_len0 * seq_len1`
elements. -/
def KernelCall.writeCount : KernelCall → Int
  | .invokeGeneralLayerNorm _ _ _ _ m n _ => m * n
  | .Gemm _ _ m n _ _ _ _ _ _ _ => m * n
  | .invokeAddQKVBiasTranspose _ _ _ _ _ _ _ _ _ batch_size seq_len head_num size_per_head =>
    batch_size * seq_len * head_num * size_per_head
  | .stridedBatchedGemm _ _ m n _ _ _ _ _ _ _ _ _ _ batchCount _ _ => batchCount * (m * n)
  | .invokeMaskedSoftMax _ _ _ batch_size seq_len0 seq_len1 head_num _ =>
    batch_size * head_num * seq_len0 * seq_len1
  | .invokeTransposeQKV _ _ batch_size seq_len head_num size_per_head =>
    batch_size * seq_len * head_num * size_per_head
  | .invokeAddBiasResidual _ _ _ m n => m * n

/-- The destination pointer of a launch of `mha_forward` (for the bias-add
transpose, the first of its three destinations, the only one that is not null
there). -/
def KernelCall.destination : KernelCall → Loc
  | .invokeGeneralLayerNorm out _ _ _ _ _ _ => out
  | .Gemm _ _ _ _ _ _ _ _ _ C _ => C
  | .invokeAddQKVBiasTranspose q_buf _ _ _ _ _ _ _ _ _ _ _ _ => q_buf
  | .stridedBatchedGemm _ _ _ _ _ _ _ _ _ _ _ C _ _ _ _ _ => C
  | .invokeMaskedSoftMax buffer _ _ _ _ _ _ _ => buffer
  | .invokeTransposeQKV dst _ _ _ _ _ => dst
  | .invokeAddBiasResidual output _ _ _ _ => output

/-- The workspace pointer variable that each of the thirteen launches of
`mha_forward` is passed as its destination, in launch order (source lines
626-833); the last two launches write `outputs[0]`, which is not part of the
workspace. -/
def destinationNames : List (Option String) :=
  [ some "q_share", some "q_buf", some "k_buf", some "v_buf",
    some "q_share", some "k_bias", some "v_bias",
    some "qk_buf", some "qk_buf", some "q_buf", some "out_buf", none, none ]

/-- The region with the given name in a list of regions. -/
def regionNamed? (regions : List Region) (name : String) : Option Region :=
  regions.find? (fun r => r.name = name)

/-- For each of the thirteen launches of `mha_forward`, the room left in its
destination region: the element count of the region minus the number of
elements the launch writes (negative when the launch writes past the end of the
region); `none` for the launches that write `outputs[0]` . -/
def writeSlack (batch_size seq_len0 d_model seq_len1 head_num size_per_head : Int)
    (isCrossAtten : Bool) : List (Option Int) :=
  ((mha_forward batch_size seq_len0 d_model seq_len1 head_num size_per_head
      isCrossAtten).2.zip destinationNames).map
    (fun p => p.2.bind (fun name =>
      (regionNamed? (workspaceRegions batch_size seq_len0 d_model seq_len1 head_num) name).map
        (fun r => r.count - p.1.writeCount)))

/-- Every launch of `mha_forward` that writes a workspace region writes no more
elements than the region holds. -/
def writesFit (batch_size seq_len0 d_model seq_len1 head_num size_per_head : Int)
    (isCrossAtten : Bool) : Prop :=
  ∀ s ∈ writeSlack batch_size seq_len0 d_model seq_len1 head_num size_per_head isCrossAtten,
    0 ≤ s.getD 0

instance (batch_size seq_len0 d_model seq_len1 head_num size_per_head : Int)
    (isCrossAtten : Bool) :
    Decidable (writesFit batch_size seq_len0 d_model seq_len1 head_num size_per_head
      isCrossAtten) := by
  unfold writesFit; infer_instance

/-- The `head_num` and `size_per_head` a host call passes to a forward template. -/
def HostCall.headShape? : HostCall → Option (Int × Int)
  | .mha_forward _ _ _ _ _ head_num size_per_head _ _ => some (head_num, size_per_head)
  | .mha_forward_int8 _ _ _ _ _ head_num size_per_head _ _ _ => some (head_num, size_per_head)
  | _ => none

/-! ## Element ranges read and written by the launches

The eight workspace pointers address one flat array: an access through a
workspace pointer covers the elements from its offset on, into the regions that
follow when it is longer than its own region. -/

/-- A run of `count` consecutive elements starting at a pointer. -/
structure Access where
  loc : Loc
  count : Int
  deriving DecidableEq, Repr

/-- Two accesses have an element in common. Two workspace pointers address the
same flat array (source lines 613-621), so their runs are compared as intervals
of workspace offsets; every other pointer is the start of a tensor of its own,
which shares elements only with accesses through the same pointer. -/
def Access.overlaps (a b : Access) : Bool :=
  match a.loc, b.loc with
  | .workspace o₁, .workspace o₂ =>
    decide (0 < a.count ∧ 0 < b.count ∧ o₁ < o₂ + b.count ∧ o₂ < o₁ + a.count)
  | l₁, l₂ => decide (l₁ = l₂ ∧ 0 < a.count ∧ 0 < b.count)

/-- Every element of the access `r` is an element of the access `w` . -/
def Access.covers (w r : Access) : Bool :=
  match w.loc, r.loc with
  | .workspace o₁, .workspace o₂ => decide (o₁ ≤ o₂ ∧ o₂ + r.count ≤ o₁ + w.count)
  | l₁, l₂ => decide (l₁ = l₂ ∧ r.count ≤ w.count)

/-- The elements a launch writes: `writeCount` elements from its destination
pointer on. -/
def KernelCall.writeAccess (c : KernelCall) : Access :=
  { loc := c.destination, count := c.writeCount }

/-- Modelled from the spec: the elements a launch reads, one access per input
operand, from the shapes the specification gives the stages (the kernels
themselves are not under the embedded files). Layer normalization reads `m` rows
of `n` elements and `n` elements of `gamma` and of `beta` ; a GEMM reads its `m` by
`k` and `k` by `n` operands, a strided batched GEMM `batchCount` of each (and its
`C` only when `beta` is not 0); the bias-add transpose reads `batch_size * seq_len
* head_num * size_per_head` elements and a bias of `head_num * size_per_head`
for each destination that is not null; the masked softmax reads `batch_size *
head_num * seq_len0 * seq_len1` logits and a mask of `batch_size * seq_len0 *
seq_len1` ; the head merge reads `batch_size * seq_len * head_num * size_per_head`
elements; bias-plus-residual reads `m` rows of `n` elements of `output` and of
`input` and `n` elements of bias. -/
def KernelCall.readAccesses : KernelCall → List Access
  | .invokeGeneralLayerNorm _ input gamma beta m n _ =>
    [⟨input, m * n⟩, ⟨gamma, n⟩, ⟨beta, n⟩]
  | .Gemm _ _ m n k A _ B _ _ _ => [⟨A, m * k⟩, ⟨B, k * n⟩]
  | .invokeAddQKVBiasTranspose q_buf k_buf v_buf Q bias_Q Kin bias_K V bias_V
      batch_size seq_len head_num size_per_head =>
    (if q_buf = Loc.null then []
      else [⟨Q, batch_size * seq_len * head_num * size_per_head⟩,
            ⟨bias_Q, head_num * size_per_head⟩]) ++
    (if k_buf = Loc.null then []
      else [⟨Kin, batch_size * seq_len * head_num * size_per_head⟩,
            ⟨bias_K, head_num * size_per_head⟩]) ++
    (if v_buf = Loc.null then []
      else [⟨V, batch_size * seq_len * head_num * size_per_head⟩,
            ⟨bias_V, head_num * size_per_head⟩])
  | .stridedBatchedGemm _ _ m n k A _ _ B _ _ C _ _ batchCount _ beta =>
    [⟨A, batchCount * (m * k)⟩, ⟨B, batchCount * (k * n)⟩] ++
    (if beta = 0 then [] else [⟨C, batchCount * (m * n)⟩])
  | .invokeMaskedSoftMax _ buffer_src attr_mask batch_size seq_len0 seq_len1 head_num _ =>
    [⟨buffer_src, batch_size * head_num * seq_len0 * seq_len1⟩,
     ⟨attr_mask, batch_size * seq_len0 * seq_len1⟩]
  | .invokeTransposeQKV _ src batch_size seq_len head_num size_per_head =>
    [⟨src, batch_size * seq_len * head_num * size_per_head⟩]
  | .invokeAddBiasResidual output input bias m n =>
    [⟨output, m * n⟩, ⟨input, m * n⟩, ⟨bias, n⟩]

/-- What the data-flow analysis keeps of a launch: its stage, the elements it
writes and the elements it reads. -/
structure LaunchAccess where
  stage : Option Stage
  write : Access
  reads : List Access
  deriving DecidableEq, Repr

/-- The stage and the accesses of a launch. -/
def KernelCall.access (c : KernelCall) : LaunchAccess :=
  { stage := c.stage?, write := c.writeAccess, reads := c.readAccesses }

/-- Whether launch `j` of a launch sequence writes an element of the access `r` . -/
def overwritesAt (launches : List LaunchAccess) (r : Access) (j : Nat) : Bool :=
  match launches[j]? with
  | some la => la.write.overlaps r
  | none => false

/-- The index of the last launch before launch `k` that writes an element of the
access `r` ; `none` when no earlier launch writes any of its elements. -/
def lastOverwriter? (launches : List LaunchAccess) (k : Nat) (r : Access) : Option Nat :=
  (List.range k).reverse.find? (overwritesAt launches r)

/-- Where the elements that a launch reads come from: `initial` when no earlier
launch has written any of them, `stage s` when the last launch that wrote any of
them is the stage `s` and wrote all of them, and `mixed` otherwise (only some of
the elements are from that last launch). -/
inductive Origin
  | initial
  | stage (s : Stage)
  | mixed
  deriving DecidableEq, Repr

/-- The origin of the elements of the access `r` when launch `k` starts. -/
def origin (launches : List LaunchAccess) (k : Nat) (r : Access) : Origin :=
  match lastOverwriter? launches k r with
  | none => .initial
  | some j =>
    match launches[j]? with
    | some la =>
      match la.stage with
      | some s => if la.write.covers r then .stage s else .mixed
      | none => .mixed
    | none => .mixed

/-- For every launch of a sequence, in order: its stage, and for each of its input
operands the origin of the elements it reads. -/
def flow (launches : List LaunchAccess) : List (Option Stage × List Origin) :=
  (List.range launches.length).filterMap (fun k =>
    (launches[k]?).map (fun la => (la.stage, la.reads.map (origin launches k))))

/-- The element-level data flow of a sequence of kernel launches. -/
def elementFlow (calls : List KernelCall) : List (Option Stage × List Origin) :=
  flow (calls.map KernelCall.access)

/-- The data flow the pipeline is meant to have: each stage with, for each of its
input operands, the stage whose result it reads (`initial` for the plugin
inputs). The key and the value projection read the layer-norm output in
self-attention and the plugin input `inputs[1]` in cross-attention. -/
def intendedFlow (isCrossAtten : Bool) : List (Option Stage × List Origin) :=
  [ (some .layerNorm, [.initial, .initial, .initial]),
    (some .queryProjection, [.initial, .stage .layerNorm]),
    (some .keyProjection, [.initial, if isCrossAtten then .initial else .stage .layerNorm]),
    (some .valueProjection, [.initial, if isCrossAtten then .initial else .stage .layerNorm]),
    (some .querySplit, [.stage .queryProjection, .initial]),
    (some .keySplit, [.stage .keyProjection, .initial]),
    (some .valueSplit, [.stage .valueProjection, .initial]),
    (some .scoreGemm, [.stage .keySplit, .stage .querySplit]),
    (some .maskedSoftmax, [.stage .scoreGemm, .initial]),
    (some .contextGemm, [.stage .valueSplit, .stage .maskedSoftmax]),
    (some .headMerge, [.stage .contextGemm]),
    (some .outputProjection, [.initial, .stage .headMerge]),
    (some .biasResidual, [.stage .outputProjection, .initial, .initial]) ]

/-- The accesses of thirteen launches that read and write whole regions of a
workspace carved into regions of `a`, `a`, `c`, `a`, `e`, `e`, `e` and `e` elements
(`q_buf`, `q_share`, `qk_buf`, `out_buf`, `k_buf`, `k_bias`, `v_buf`, `v_bias`), in the
order of `mha_forward` ; `enc` is the source of the key and value projections, `w`,
`b` and `m` are the element counts of a weight, of a bias and of the mask. -/
def wholeRegionAccesses (enc : Loc) (a c e w b m : Int) : List LaunchAccess :=
  let q_buf := Loc.workspace 0
  let q_share := Loc.workspace a
  let qk_buf := Loc.workspace (2 * a)
  let out_buf := Loc.workspace (2 * a + c)
  let k_buf := Loc.workspace (3 * a + c)
  let k_bias := Loc.workspace (3 * a + c + e)
  let v_buf := Loc.workspace (3 * a + c + 2 * e)
  let v_bias := Loc.workspace (3 * a + c + 3 * e)
  [ ⟨some .layerNorm, ⟨q_share, a⟩, [⟨.input 0, a⟩, ⟨.input 11, b⟩, ⟨.input 12, b⟩]⟩,
    ⟨some .queryProjection, ⟨q_buf, a⟩, [⟨.input 3, w⟩, ⟨q_share, a⟩]⟩,
    ⟨some .keyProjection, ⟨k_buf, e⟩, [⟨.input 5, w⟩, ⟨enc, e⟩]⟩,
    ⟨some .valueProjection, ⟨v_buf, e⟩, [⟨.input 7, w⟩, ⟨enc, e⟩]⟩,
    ⟨some .querySplit, ⟨q_share, a⟩, [⟨q_buf, a⟩, ⟨.input 4, b⟩]⟩,
    ⟨some .keySplit, ⟨k_bias, e⟩, [⟨k_buf, e⟩, ⟨.input 6, b⟩]⟩,
    ⟨some .valueSplit, ⟨v_bias, e⟩, [⟨v_buf, e⟩, ⟨.input 8, b⟩]⟩,
    ⟨some .scoreGemm, ⟨qk_buf, c⟩, [⟨k_bias, e⟩, ⟨q_share, a⟩]⟩,
    ⟨some .maskedSoftmax, ⟨qk_buf, c⟩, [⟨qk_buf, c⟩, ⟨.input 2, m⟩]⟩,
    ⟨some .contextGemm, ⟨q_buf, a⟩, [⟨v_bias, e⟩, ⟨qk_buf, c⟩]⟩,
    ⟨some .headMerge, ⟨out_buf, a⟩, [⟨q_buf, a⟩]⟩,
    ⟨some .outputProjection, ⟨.output 0, a⟩, [⟨.input 9, w⟩, ⟨out_buf, a⟩]⟩,
    ⟨some .biasResidual, ⟨.output 0, a⟩, [⟨.output 0, a⟩, ⟨.input 0, a⟩, ⟨.input 10, b⟩]⟩ ]

/-! ## Serialization, cloning and format negotiation -/

/-- The C++ `sizeof(bool)` : one byte on the platforms the plugin is built for. -/
def sizeofBool : Nat := 1

/-- How a host-side call can stop without a result. -/
inductive Failure
  | assertionFailed
  | invalidAccess
  deriving DecidableEq, Repr

/-- A `char*` that walks a byte buffer: the bytes of the buffer it points into
and its offset from the start of the buffer. -/
structure Cursor where
  bytes : List Nat
  pos : Nat
  deriving DecidableEq, Repr

/-- The byte that stores a `bool` : 1 for `true`, 0 for `false` . -/
def boolByte (val : Bool) : Nat := if val then 1 else 0

/-- The helper `writeToBuffer<bool>` (source lines 47-52): it stores the value at
the cursor and advances the cursor by `sizeof(bool)` . A store outside the
buffer is an invalid access. -/
def writeToBuffer (buffer : Cursor) (val : Bool) : Except Failure Cursor :=
  if buffer.pos + sizeofBool ≤ buffer.bytes.length then
    .ok { bytes := buffer.bytes.set buffer.pos (boolByte val), pos := buffer.pos + sizeofBool }
  else .error .invalidAccess

/-- The helper `readFromBuffer<bool>` (source lines 55-61): it loads the value at
the cursor and advances the cursor by `sizeof(bool)` . A load outside the buffer,
or of a byte that is neither 0 nor 1, is an invalid access. -/
def readFromBuffer (buffer : Cursor) : Except Failure (Bool × Cursor) :=
  match buffer.bytes[buffer.pos]? with
  | some 0 => .ok (false, { buffer with pos := buffer.pos + sizeofBool })
  | some 1 => .ok (true, { buffer with pos := buffer.pos + sizeofBool })
  | _ => .error .invalidAccess

/-- `MHAPlugin::getSerializationSize` (source lines 945-951). -/
def MHAPlugin.getSerializationSize (_p : MHAPlugin) : Nat :=
  let ssize : Nat := 0
  let ssize := ssize + sizeofBool
  ssize

/-- `MHAPlugin::serialize` (source lines 953-963) on a buffer holding `buffer` :
the cursor `d` starts at `a`, the start of the buffer; the result is the
cursor after the write (the bytes of the buffer and `d - a`), or a failure when
the closing `assert` does not hold. -/
def MHAPlugin.serialize (p : MHAPlugin) (buffer : List Nat) : Except Failure Cursor :=
  let d : Cursor := { bytes := buffer, pos := 0 }
  let a : Nat := d.pos
  match writeToBuffer d p.isCrossAtten with
  | .error e => .error e
  | .ok d =>
    if d.pos = a + p.getSerializationSize then .ok d else .error .assertionFailed

/-- The deserializing constructor `MHAPlugin::MHAPlugin(name, data, length)`
(source lines 70-83): `mLayerName` is `name`, `isCrossAtten` is read from `data`,
`mNamespace` is an empty string, `int8_model` and `scale_list` keep the values `u`
of the raw storage; the closing `assert(d == a + length)` fails unless exactly
`length` bytes were read. -/
def MHAPlugin.newDeserialized (name : String) (data : List Nat) (length : Nat)
    (u : Uninitialized) : Except Failure MHAPlugin :=
  let d : Cursor := { bytes := data, pos := 0 }
  let a : Nat := d.pos
  match readFromBuffer d with
  | .error e => .error e
  | .ok (isCrossAtten, d) =>
    if d.pos = a + length then
      .ok { mLayerName := name, mNamespace := "", isCrossAtten := isCrossAtten,
            int8_model := u.int8_model, scale_list := u.scale_list }
    else .error .assertionFailed

/-- `MHAPluginCreator::deserializePlugin` (source lines 1079-1084). -/
def MHAPluginCreator.deserializePlugin (name : String) (serialData : List Nat)
    (serialLength : Nat) (u : Uninitialized) : Except Failure MHAPlugin :=
  MHAPlugin.newDeserialized name serialData serialLength u

/-- `MHAPlugin::setPluginNamespace` (source lines 1009-1013). C strings are Lean
strings. -/
def MHAPlugin.setPluginNamespace (p : MHAPlugin) (libNamespace : String) : MHAPlugin :=
  { p with mNamespace := libNamespace }

/-- `MHAPlugin::getPluginNamespace` (source lines 1015-1019). -/
def MHAPlugin.getPluginNamespace (p : MHAPlugin) : String := p.mNamespace

/-- `MHAPlugin::clone` (source lines 1000-1007) on a heap of plugin objects, a
pointer being an index into the heap: `new MHAPlugin(mLayerName, isCrossAtten)`
allocates the next object, `setPluginNamespace(mNamespace.c_str())` is called
on it, and its pointer is returned together with the heap. `this` pointing at no
object gives `none` . -/
def MHAPlugin.clone (heap : List MHAPlugin) (this : Nat) (u : Uninitialized) :
    Option (List MHAPlugin × Nat) :=
  match heap[this]? with
  | none => none
  | some self =>
    let plugin : Nat := heap.length
    let heap := heap ++ [MHAPlugin.new self.mLayerName self.isCrossAtten u]
    let heap := heap.modify (fun obj => obj.setPluginNamespace self.mNamespace) plugin
    some (heap, plugin)

/-- Whether the data of a plugin field is a C string. -/
def FieldData.isChars : FieldData → Bool
  | .chars _ => true
  | _ => false

/-- Whether a plugin field is an `AttentionType` field whose data is the string
`"cross"` . -/
def PluginField.isCrossAttention (f : PluginField) : Bool :=
  decide (f.name = "AttentionType" ∧ f.data = FieldData.chars "cross")

/-- The fields the loop of `createPlugin` visits: the first `nbFields` entries of
the array. -/
def PluginFieldCollection.visited (fc : PluginFieldCollection) : List PluginField :=
  fc.fields.take fc.nbFields.toNat

/-! ## Theorems -/

/-! ### Wrap-around arithmetic -/

theorem wrapInt32_of_range (x : Int) (h1 : -2147483648 ≤ x) (h2 : x < 2147483648) :
    wrapInt32 x = x := by
  unfold wrapInt32; omega

theorem wrapInt32_shift (x k : Int) : wrapInt32 (x + 4294967296 * k) = wrapInt32 x := by
  unfold wrapInt32
  have h : x + 4294967296 * k + 2147483648 = (x + 2147483648) + 4294967296 * k := by ring
  rw [h, Int.add_mul_emod_self_left]

theorem wrapInt32_repr (x : Int) : ∃ k : Int, wrapInt32 x = x + 4294967296 * k := by
  refine ⟨-((x + 2147483648) / 4294967296), ?_⟩
  unfold wrapInt32
  omega

theorem wrapInt32_mul_left (a b : Int) : wrapInt32 (wrapInt32 a * b) = wrapInt32 (a * b) := by
  obtain ⟨k, hk⟩ := wrapInt32_repr a
  rw [hk]
  have h : (a + 4294967296 * k) * b = a * b + 4294967296 * (k * b) := by ring
  rw [h, wrapInt32_shift]

theorem wrapInt32_mul_right (a b : Int) : wrapInt32 (a * wrapInt32 b) = wrapInt32 (a * b) := by
  rw [mul_comm, wrapInt32_mul_left, mul_comm]

theorem wrapInt32_add_left (a b : Int) : wrapInt32 (wrapInt32 a + b) = wrapInt32 (a + b) := by
  obtain ⟨k, hk⟩ := wrapInt32_repr a
  rw [hk]
  have h : a + 4294967296 * k + b = a + b + 4294967296 * k := by ring
  rw [h, wrapInt32_shift]

theorem wrapInt32_add_right (a b : Int) : wrapInt32 (a + wrapInt32 b) = wrapInt32 (a + b) := by
  rw [add_comm, wrapInt32_add_left, add_comm]

/-- The `int` value `batch_size*dataNum` of `getWorkspaceSize` is the wrapped
mathematical product. -/
theorem batch_dataNum_eq (batch_size seq_len0 d_model seq_len1 : Int) :
    imul batch_size (imul d_model
        (iadd (iadd (imul seq_len0 4) (imul seq_len1 4)) (imul (imul seq_len0 seq_len1) 8)))
      = wrapInt32
          (batch_size * d_model * (4 * seq_len0 + 4 * seq_len1 + 8 * seq_len0 * seq_len1)) := by
  simp only [imul, iadd, wrapInt32_mul_left, wrapInt32_mul_right, wrapInt32_add_left,
    wrapInt32_add_right]
  congr 1
  ring

/-- The value `getWorkspaceSize` returns when `batch_size*dataNum` does not
overflow. -/
theorem sizeMul_toSizeT_of_fits (x : Int) (h0 : 0 ≤ x) (h1 : x ≤ 2147483647) :
    sizeMul (toSizeT (wrapInt32 x)) 4 = (4 * x).toNat := by
  rw [wrapInt32_of_range x (by omega) (by omega)]
  unfold sizeMul toSizeT sizeTModulus
  omega

/-- The workspace pointers when no element count overflows: the running sums of
the region sizes. -/
theorem workspaceLayout_of_fits (batch_size seq_len0 d_model seq_len1 head_num : Int)
    (ha : 0 ≤ batch_size * seq_len0 * d_model)
    (hc : 0 ≤ batch_size * head_num * seq_len0 * seq_len1)
    (he : 0 ≤ batch_size * seq_len1 * d_model)
    (hfit : 3 * (batch_size * seq_len0 * d_model) + batch_size * head_num * seq_len0 * seq_len1
      + 4 * (batch_size * seq_len1 * d_model) ≤ 2147483647) :
    workspaceLayout batch_size seq_len0 d_model seq_len1 head_num =
      { q_buf := 0,
        q_share := batch_size * seq_len0 * d_model,
        qk_buf := 2 * (batch_size * seq_len0 * d_model),
        out_buf := 2 * (batch_size * seq_len0 * d_model)
          + batch_size * head_num * seq_len0 * seq_len1,
        k_buf := 3 * (batch_size * seq_len0 * d_model)
          + batch_size * head_num * seq_len0 * seq_len1,
        k_bias := 3 * (batch_size * seq_len0 * d_model)
          + batch_size * head_num * seq_len0 * seq_len1 + batch_size * seq_len1 * d_model,
        v_buf := 3 * (batch_size * seq_len0 * d_model)
          + batch_size * head_num * seq_len0 * seq_len1 + 2 * (batch_size * seq_len1 * d_model),
        v_bias := 3 * (batch_size * seq_len0 * d_model)
          + batch_size * head_num * seq_len0 * seq_len1 + 3 * (batch_size * seq_len1 * d_model),
        ws_offset := 3 * (batch_size * seq_len0 * d_model)
          + batch_size * head_num * seq_len0 * seq_len1
          + 4 * (batch_size * seq_len1 * d_model) } := by
  simp only [workspaceLayout, imul, iadd, wrapInt32_mul_left, wrapInt32_mul_right,
    wrapInt32_add_left, wrapInt32_add_right]
  generalize batch_size * seq_len0 * d_model = a at *
  generalize batch_size * head_num * seq_len0 * seq_len1 = c at *
  generalize batch_size * seq_len1 * d_model = e at *
  simp only [WorkspaceLayout.mk.injEq, wrapInt32]
  refine ⟨trivial, ?_, ?_, ?_, ?_, ?_, ?_, ?_, ?_⟩ <;> omega

/-! ### Workspace size and layout (C1, C2, C3) -/

/-- The key/value length `seq_len1` that `getWorkspaceSize` and `enqueue` use. -/
theorem getWorkspaceSize_eq (p : MHAPlugin) (q kv : PluginTensorDesc)
    (rest outputs : List PluginTensorDesc) (nbInputs nbOutputs : Int) (S1 : Int)
    (hS1 : (if p.isCrossAtten then kv.dims.get 1 else q.dims.get 1) = S1) :
    p.getWorkspaceSize (q :: kv :: rest) nbInputs outputs nbOutputs
      = some (sizeMul (toSizeT (wrapInt32 (q.dims.get 0 * q.dims.get 2
          * (4 * q.dims.get 1 + 4 * S1 + 8 * q.dims.get 1 * S1)))) 4) := by
  subst hS1
  cases hc : p.isCrossAtten <;>
    simp [MHAPlugin.getWorkspaceSize, hc, batch_dataNum_eq]

/-- The code's final `ws_offset` is at most `batch_size*dataNum` when neither
overflows and `d_model` is positive. -/
theorem layout_le_dataNum (B S0 S1 D : Int) (hB : 0 ≤ B) (hS0 : 0 ≤ S0) (hS1 : 0 ≤ S1)
    (hD : 1 ≤ D) :
    3 * (B * S0 * D) + B * 4 * S0 * S1 + 4 * (B * S1 * D)
      ≤ B * D * (4 * S0 + 4 * S1 + 8 * S0 * S1) := by
  have h1 : 0 ≤ B * S0 * D := by positivity
  have h2 : 0 ≤ B * S0 * S1 := by positivity
  have h3 : 0 ≤ B * S0 * S1 * (D - 1) := mul_nonneg h2 (by omega)
  nlinarith [h1, h2, h3]

/-- When `batch_size*dataNum` does not overflow, the size `getWorkspaceSize`
returns covers the bytes that the carving of `mha_forward<T>` spans with
`head_num = 4`, for `T` float or half. -/
theorem getWorkspaceSize_covers_layout_of_fits (p : MHAPlugin) (q kv : PluginTensorDesc)
    (rest outputs : List PluginTensorDesc) (nbInputs nbOutputs : Int) (T : DataType)
    (B S0 S1 D : Int)
    (hT : T = DataType.kFLOAT ∨ T = DataType.kHALF)
    (hqB : q.dims.get 0 = B) (hqS : q.dims.get 1 = S0) (hqD : q.dims.get 2 = D)
    (hkv : (if p.isCrossAtten then kv.dims.get 1 else q.dims.get 1) = S1)
    (hB : 1 ≤ B) (hS0 : 1 ≤ S0) (hS1 : 1 ≤ S1) (hD : 1 ≤ D)
    (hfit : B * D * (4 * S0 + 4 * S1 + 8 * S0 * S1) ≤ 2147483647) :
    ∃ n : Nat, p.getWorkspaceSize (q :: kv :: rest) nbInputs outputs nbOutputs = some n ∧
      workspaceExtentBytes T B S0 D S1 4 ≤ (n : Int) := by
  have hle := layout_le_dataNum B S0 S1 D (by omega) (by omega) (by omega) hD
  have ha : 0 ≤ B * S0 * D := by positivity
  have hc : 0 ≤ B * 4 * S0 * S1 := by positivity
  have he : 0 ≤ B * S1 * D := by positivity
  have hG : 0 ≤ B * D * (4 * S0 + 4 * S1 + 8 * S0 * S1) := by positivity
  refine ⟨_, getWorkspaceSize_eq p q kv rest outputs nbInputs nbOutputs S1 hkv, ?_⟩
  rw [hqB, hqS, hqD, sizeMul_toSizeT_of_fits _ hG hfit]
  unfold workspaceExtentBytes
  rw [workspaceLayout_of_fits B S0 D S1 4 ha hc he (by omega)]
  have hsz : (sizeofT T : Int) ≤ 4 := by
    rcases hT with h | h <;> subst h <;> decide
  simp only
  have hE : 0 ≤ 3 * (B * S0 * D) + B * 4 * S0 * S1 + 4 * (B * S1 * D) := by omega
  generalize 3 * (B * S0 * D) + B * 4 * S0 * S1 + 4 * (B * S1 * D) = E at *
  generalize B * D * (4 * S0 + 4 * S1 + 8 * S0 * S1) = G at *
  rw [Int.toNat_of_nonneg (by omega)]
  calc (sizeofT T : Int) * E ≤ 4 * E := mul_le_mul_of_nonneg_right hsz hE
    _ ≤ 4 * G := by omega

/-- C1 (the code at the failing input): for the cross-attention float shape
`batch = 1, seq_q = 1, seq_kv = 1398101, hidden = 256`, whose element counts all
fit an `int`, the `int` product `d_model*(...)` of `getWorkspaceSize` is `2^32`
and wraps to 0, so the returned workspace size is 0 bytes, while the eight
regions `mha_forward<float>` carves with `head_num = 4` span
`4 * 1 * (3*1*256 + 4*1*1398101 + 4*1398101*256) = 5748994384` bytes. -/
theorem C1_getWorkspaceSize_wraps_below_layout :
    MHAPlugin.getWorkspaceSize ⟨"mha", "", true, -1, []⟩
        (inputDesc13 .kFLOAT 1 1 1398101 256) 13 [⟨⟨3, [1, 1, 256]⟩, .kFLOAT, .kLINEAR, 0⟩] 1
      = some 0
    ∧ imul 256 (iadd (iadd (imul 1 4) (imul 1398101 4)) (imul (imul 1 1398101) 8)) = 0
    ∧ (256 : Int) * (1 * 4 + 1398101 * 4 + 1 * 1398101 * 8) = 4294967296
    ∧ workspaceExtentBytes .kFLOAT 1 1 256 1398101 4
        = 4 * (1 * (3 * 1 * 256 + 4 * 1 * 1398101 + 4 * 1398101 * 256))
    ∧ workspaceExtentBytes .kFLOAT 1 1 256 1398101 4 = 5748994384
    ∧ (workspaceLayout 1 1 256 1398101 4).ws_offset = 1437248596 := by
  decide

/-- C2: `getWorkspaceSize` is a function of `(B, S0, S1, D)` alone, where `S1` is
`inputDesc[1].dims.d[1]` for a cross-attention plugin and `S0` otherwise: two
calls that agree on these four values return the same size, whatever the plugin
names, the remaining descriptor fields, the other descriptors and the counts
are; and when `B*D*(4*S0 + 4*S1 + 8*S0*S1)` is non-negative (as it is for
non-negative dimensions) and fits a signed 32-bit int, the size returned is
exactly `4 * B * D * (4*S0 + 4*S1 + 8*S0*S1)` bytes. -/
theorem C2_getWorkspaceSize_pure_function_of_shape
    (p p' : MHAPlugin) (q kv q' kv' : PluginTensorDesc)
    (rest rest' outputs outputs' : List PluginTensorDesc)
    (nbInputs nbOutputs nbInputs' nbOutputs' : Int) (B S0 S1 D : Int)
    (hq : q.dims.get 0 = B ∧ q.dims.get 1 = S0 ∧ q.dims.get 2 = D)
    (hkv : (if p.isCrossAtten then kv.dims.get 1 else q.dims.get 1) = S1)
    (hq' : q'.dims.get 0 = B ∧ q'.dims.get 1 = S0 ∧ q'.dims.get 2 = D)
    (hkv' : (if p'.isCrossAtten then kv'.dims.get 1 else q'.dims.get 1) = S1) :
    p'.getWorkspaceSize (q' :: kv' :: rest') nbInputs' outputs' nbOutputs'
        = p.getWorkspaceSize (q :: kv :: rest) nbInputs outputs nbOutputs
    ∧ (0 ≤ B * D * (4 * S0 + 4 * S1 + 8 * S0 * S1) →
        B * D * (4 * S0 + 4 * S1 + 8 * S0 * S1) ≤ 2147483647 →
        ∃ n : Nat, p.getWorkspaceSize (q :: kv :: rest) nbInputs outputs nbOutputs = some n ∧
          (n : Int) = 4 * B * D * (4 * S0 + 4 * S1 + 8 * S0 * S1)) := by
  obtain ⟨hB, hS, hD⟩ := hq
  obtain ⟨hB', hS', hD'⟩ := hq'
  rw [getWorkspaceSize_eq p q kv rest outputs nbInputs nbOutputs S1 hkv,
    getWorkspaceSize_eq p' q' kv' rest' outputs' nbInputs' nbOutputs' S1 hkv',
    hB, hS, hD, hB', hS', hD']
  refine ⟨rfl, fun hG hfit => ⟨_, rfl, ?_⟩⟩
  rw [sizeMul_toSizeT_of_fits _ hG hfit, Int.toNat_of_nonneg (by omega)]
  ring

/-- C2 (witness): a self-attention and a cross-attention call on the shape
`B = 2, S0 = 3, S1 = 3, D = 256`, with different names, element types, formats,
scales and remaining descriptors. -/
theorem C2_getWorkspaceSize_pure_function_of_shape_witness :
    MHAPlugin.getWorkspaceSize ⟨"dec", "ns", true, 0, [1]⟩
        [⟨⟨3, [2, 3, 256]⟩, .kHALF, .kCHW32, 1⟩, ⟨⟨3, [2, 3, 512]⟩, .kINT8, .kLINEAR, 2⟩] 13
        [⟨⟨3, [2, 3, 256]⟩, .kHALF, .kLINEAR, 0⟩] 1
      = MHAPlugin.getWorkspaceSize ⟨"enc", "", false, -1, []⟩
        [⟨⟨3, [2, 3, 256]⟩, .kFLOAT, .kLINEAR, 0⟩, ⟨⟨3, [2, 77, 256]⟩, .kFLOAT, .kLINEAR, 0⟩,
         ⟨⟨3, [2, 3, 3]⟩, .kFLOAT, .kLINEAR, 0⟩] 13 [] 1
    ∧ ∃ n : Nat, MHAPlugin.getWorkspaceSize ⟨"enc", "", false, -1, []⟩
        [⟨⟨3, [2, 3, 256]⟩, .kFLOAT, .kLINEAR, 0⟩, ⟨⟨3, [2, 77, 256]⟩, .kFLOAT, .kLINEAR, 0⟩,
         ⟨⟨3, [2, 3, 3]⟩, .kFLOAT, .kLINEAR, 0⟩] 13 [] 1 = some n ∧
        (n : Int) = 4 * 2 * 256 * (4 * 3 + 4 * 3 + 8 * 3 * 3) :=
  have h := C2_getWorkspaceSize_pure_function_of_shape
    ⟨"enc", "", false, -1, []⟩ ⟨"dec", "ns", true, 0, [1]⟩
    ⟨⟨3, [2, 3, 256]⟩, .kFLOAT, .kLINEAR, 0⟩ ⟨⟨3, [2, 77, 256]⟩, .kFLOAT, .kLINEAR, 0⟩
    ⟨⟨3, [2, 3, 256]⟩, .kHALF, .kCHW32, 1⟩ ⟨⟨3, [2, 3, 512]⟩, .kINT8, .kLINEAR, 2⟩
    [⟨⟨3, [2, 3, 3]⟩, .kFLOAT, .kLINEAR, 0⟩] [] [] [⟨⟨3, [2, 3, 256]⟩, .kHALF, .kLINEAR, 0⟩]
    13 1 13 1 2 3 3 256 (by decide) (by decide) (by decide) (by decide)
  ⟨h.1, h.2 (by decide) (by decide)⟩

/-- C3 (counterexample): for the non-negative shape `B = 1, S0 = 8388608,
D = 256, S1 = 1, head_num = 4` the element count `B*S0*D = 2^31` of `q_buf`
wraps in `int`, so `q_share` does not start where `q_buf` ends and `qk_buf`
starts at offset 0, inside `q_buf`: the regions are neither consecutive nor
pairwise disjoint. -/
theorem C3_regions_overlap_when_count_wraps :
    ¬ consecutiveFrom 0 (workspaceRegions 1 8388608 256 1 4)
    ∧ ¬ List.Pairwise Region.disjoint (workspaceRegions 1 8388608 256 1 4)
    ∧ (workspaceLayout 1 8388608 256 1 4).q_share = -2147483648
    ∧ (workspaceLayout 1 8388608 256 1 4).qk_buf = 0 := by
  decide

/-- C3 (amended): for non-negative `(B, S0, S1, D, head_num)` whose total element
count `B*(3*S0*D + head_num*S0*S1 + 4*S1*D)` fits a signed 32-bit int, the eight
regions of `mha_forward` are consecutive from offset 0 (each starts where the
previous one ends), pairwise disjoint, and end at the total element count; the
offsets are computed from the shape parameters alone. -/
theorem C3_regions_consecutive_disjoint_of_fits (B S0 S1 D head_num : Int)
    (hB : 0 ≤ B) (hS0 : 0 ≤ S0) (hS1 : 0 ≤ S1) (hD : 0 ≤ D) (hH : 0 ≤ head_num)
    (hfit : B * (3 * S0 * D + head_num * S0 * S1 + 4 * S1 * D) ≤ 2147483647) :
    consecutiveFrom 0 (workspaceRegions B S0 D S1 head_num)
    ∧ List.Pairwise Region.disjoint (workspaceRegions B S0 D S1 head_num)
    ∧ (workspaceLayout B S0 D S1 head_num).ws_offset
        = B * (3 * S0 * D + head_num * S0 * S1 + 4 * S1 * D) := by
  have ha : 0 ≤ B * S0 * D := by positivity
  have hc : 0 ≤ B * head_num * S0 * S1 := by positivity
  have he : 0 ≤ B * S1 * D := by positivity
  have hsum : B * (3 * S0 * D + head_num * S0 * S1 + 4 * S1 * D)
      = 3 * (B * S0 * D) + B * head_num * S0 * S1 + 4 * (B * S1 * D) := by ring
  rw [hsum] at hfit ⊢
  unfold workspaceRegions
  rw [workspaceLayout_of_fits B S0 D S1 head_num ha hc he hfit]
  generalize B * S0 * D = a at *
  generalize B * head_num * S0 * S1 = c at *
  generalize B * S1 * D = e at *
  simp only [consecutiveFrom, List.pairwise_cons, List.mem_cons, List.mem_singleton,
    Region.disjoint, forall_eq_or_imp, forall_eq, List.not_mem_nil, List.Pairwise.nil,
    IsEmpty.forall_iff, implies_true, and_true, true_and]
  constructor <;> omega

/-- C3 (witness): the shape `B = 2, S0 = 3, S1 = 5, D = 256, head_num = 4`. -/
theorem C3_regions_consecutive_disjoint_of_fits_witness :
    consecutiveFrom 0 (workspaceRegions 2 3 256 5 4)
    ∧ List.Pairwise Region.disjoint (workspaceRegions 2 3 256 5 4)
    ∧ (workspaceLayout 2 3 256 5 4).ws_offset
        = 2 * (3 * 3 * 256 + 4 * 3 * 5 + 4 * 5 * 256) :=
  C3_regions_consecutive_disjoint_of_fits 2 3 5 256 4 (by decide) (by decide) (by decide)
    (by decide) (by decide) (by decide)

/-! ### Error handling, output shape and type (C4, C5, C6, C7) -/

/-- What `enqueue` does for a float32 or 16-bit float query tensor: status 0 and
one call of a forward template, with `head_num = 4` and `size_per_head = 64`. -/
theorem enqueue_float_or_half (p : MHAPlugin) (q kv : PluginTensorDesc)
    (rest outputDesc : List PluginTensorDesc)
    (hT : q.type = DataType.kFLOAT ∨ q.type = DataType.kHALF) :
    p.enqueue (q :: kv :: rest) outputDesc = some (0,
      [HostCall.cudaStreamSynchronize, HostCall.cublasSetStream, HostCall.setStream] ++
      (if p.int8_model ≠ -1 then
        [HostCall.mha_forward_int8 q.type (q.dims.get 0) (q.dims.get 1) (q.dims.get 2)
          (if p.isCrossAtten then kv.dims.get 1 else q.dims.get 1) 4 64 p.isCrossAtten
          p.scale_list p.mLayerName]
       else
        [if q.type = DataType.kFLOAT then HostCall.setFP32GemmConfig
          else HostCall.setFP16GemmConfig,
         HostCall.mha_forward q.type (q.dims.get 0) (q.dims.get 1) (q.dims.get 2)
          (if p.isCrossAtten then kv.dims.get 1 else q.dims.get 1) 4 64 p.isCrossAtten
          p.mLayerName])) := by
  rcases hT with h | h <;> cases hc : p.isCrossAtten <;> by_cases h8 : p.int8_model = -1 <;>
    simp [MHAPlugin.enqueue, h, hc, h8]

/-- C4 (counterexample): a self-attention float invocation with hidden size
`d_model = 128`, which differs from `head_num * size_per_head = 256`: `enqueue`
returns status 0 and calls `mha_forward<float>` with `d_model = 128`,
`head_num = 4`, `size_per_head = 64`, whose launch list is not empty. -/
theorem C4_enqueue_accepts_hidden_mismatch :
    (128 : Int) ≠ 4 * 64
    ∧ MHAPlugin.enqueue ⟨"mha", "", false, -1, []⟩
        [⟨⟨3, [1, 2, 128]⟩, .kFLOAT, .kLINEAR, 0⟩, ⟨⟨3, [1, 2, 128]⟩, .kFLOAT, .kLINEAR, 0⟩,
         ⟨⟨3, [1, 2, 2]⟩, .kFLOAT, .kLINEAR, 0⟩]
        [⟨⟨3, [1, 2, 128]⟩, .kFLOAT, .kLINEAR, 0⟩]
      = some (0, [HostCall.cudaStreamSynchronize, HostCall.cublasSetStream, HostCall.setStream,
          HostCall.setFP32GemmConfig, HostCall.mha_forward .kFLOAT 1 2 128 2 4 64 false "mha"])
    ∧ (HostCall.mha_forward .kFLOAT 1 2 128 2 4 64 false "mha").launches.length = 13 := by
  decide

/-- C4 (amended): `enqueue` makes no check of the hidden size against
`head_num * head_dim`. For every float32 or 16-bit float query activation,
whatever its hidden size `d_model` is, it returns status 0 and calls exactly one
forward template, passing that `d_model` together with `head_num = 4` and
`size_per_head = 64`. -/
theorem C4_enqueue_no_hidden_size_check (p : MHAPlugin) (q kv : PluginTensorDesc)
    (rest outputDesc : List PluginTensorDesc)
    (hT : q.type = DataType.kFLOAT ∨ q.type = DataType.kHALF) :
    ∃ calls : List HostCall, p.enqueue (q :: kv :: rest) outputDesc = some (0, calls) ∧
      calls.filter HostCall.isPipeline =
        [if p.int8_model ≠ -1 then
            HostCall.mha_forward_int8 q.type (q.dims.get 0) (q.dims.get 1) (q.dims.get 2)
              (if p.isCrossAtten then kv.dims.get 1 else q.dims.get 1) 4 64 p.isCrossAtten
              p.scale_list p.mLayerName
          else
            HostCall.mha_forward q.type (q.dims.get 0) (q.dims.get 1) (q.dims.get 2)
              (if p.isCrossAtten then kv.dims.get 1 else q.dims.get 1) 4 64 p.isCrossAtten
              p.mLayerName] := by
  refine ⟨_, enqueue_float_or_half p q kv rest outputDesc hT, ?_⟩
  by_cases h8 : p.int8_model = -1
  · rcases hT with h | h <;> simp [h8, h, HostCall.isPipeline, List.filter]
  · simp [h8, HostCall.isPipeline, List.filter]

/-- C4 (witness): a 16-bit float cross-attention invocation with hidden size 80. -/
theorem C4_enqueue_no_hidden_size_check_witness :
    ∃ calls : List HostCall,
      MHAPlugin.enqueue ⟨"dec", "", true, -1, []⟩
        [⟨⟨3, [2, 3, 80]⟩, .kHALF, .kLINEAR, 0⟩, ⟨⟨3, [2, 7, 80]⟩, .kHALF, .kLINEAR, 0⟩] []
        = some (0, calls) ∧
      calls.filter HostCall.isPipeline = [HostCall.mha_forward .kHALF 2 3 80 7 4 64 true "dec"] :=
  C4_enqueue_no_hidden_size_check ⟨"dec", "", true, -1, []⟩
    ⟨⟨3, [2, 3, 80]⟩, .kHALF, .kLINEAR, 0⟩ ⟨⟨3, [2, 7, 80]⟩, .kHALF, .kLINEAR, 0⟩ [] []
    (Or.inr rfl)

/-- C5 (counterexample): for a query activation of element type int8, `enqueue`
calls neither forward template and returns the success status 0. -/
theorem C5_enqueue_int8_query_returns_success :
    MHAPlugin.enqueue ⟨"mha", "", false, -1, []⟩
        [⟨⟨3, [1, 2, 256]⟩, .kINT8, .kLINEAR, 0⟩, ⟨⟨3, [1, 2, 256]⟩, .kINT8, .kLINEAR, 0⟩] []
      = some (0, [HostCall.cudaStreamSynchronize, HostCall.cublasSetStream,
          HostCall.setStream]) := by
  decide

/-- C5 (amended): for every invocation whose query activation element type is
neither float32 nor 16-bit float, `enqueue` reports no error: it calls neither
forward template and returns the success status 0. Such a tensor is refused
beforehand, at format negotiation: `supportsFormatCombination` returns false for
it. -/
theorem C5_enqueue_unsupported_dtype_is_silent (p : MHAPlugin) (q kv : PluginTensorDesc)
    (rest outputDesc : List PluginTensorDesc) (nbInputs nbOutputs : Int)
    (hF : q.type ≠ DataType.kFLOAT) (hH : q.type ≠ DataType.kHALF) :
    p.enqueue (q :: kv :: rest) outputDesc
        = some (0, [HostCall.cudaStreamSynchronize, HostCall.cublasSetStream,
            HostCall.setStream])
    ∧ ([HostCall.cudaStreamSynchronize, HostCall.cublasSetStream,
          HostCall.setStream].filter HostCall.isPipeline = [])
    ∧ p.supportsFormatCombination 0 (q :: kv :: rest) nbInputs nbOutputs = some false := by
  refine ⟨?_, by decide, ?_⟩
  · cases hc : p.isCrossAtten <;> simp [MHAPlugin.enqueue, hF, hH, hc]
  · simp [MHAPlugin.supportsFormatCombination, hF]

/-- C5 (witness): an int32 query activation. -/
theorem C5_enqueue_unsupported_dtype_is_silent_witness :
    MHAPlugin.enqueue ⟨"mha", "", true, 3, []⟩
        [⟨⟨3, [1, 2, 256]⟩, .kINT32, .kLINEAR, 0⟩, ⟨⟨3, [1, 5, 256]⟩, .kFLOAT, .kLINEAR, 0⟩] []
        = some (0, [HostCall.cudaStreamSynchronize, HostCall.cublasSetStream,
            HostCall.setStream])
    ∧ ([HostCall.cudaStreamSynchronize, HostCall.cublasSetStream,
          HostCall.setStream].filter HostCall.isPipeline = [])
    ∧ MHAPlugin.supportsFormatCombination ⟨"mha", "", true, 3, []⟩ 0
        [⟨⟨3, [1, 2, 256]⟩, .kINT32, .kLINEAR, 0⟩, ⟨⟨3, [1, 5, 256]⟩, .kFLOAT, .kLINEAR, 0⟩]
        13 1 = some false :=
  C5_enqueue_unsupported_dtype_is_silent ⟨"mha", "", true, 3, []⟩
    ⟨⟨3, [1, 2, 256]⟩, .kINT32, .kLINEAR, 0⟩ ⟨⟨3, [1, 5, 256]⟩, .kFLOAT, .kLINEAR, 0⟩ [] [] 13 1
    (by decide) (by decide)

/-- C6: with `nbInputs = 13` and `outputIndex = 0`, `getOutputDimensions` returns
the dimensions of input 0 unchanged, whatever the plugin (self- or
cross-attention) and the other twelve input shapes are. -/
theorem C6_getOutputDimensions_is_input0 (p : MHAPlugin) (query : DimsExprs)
    (others : List DimsExprs) :
    p.getOutputDimensions 0 (query :: others) 13 = some query := by
  simp [MHAPlugin.getOutputDimensions]

/-- C7: `getOutputDataType` returns the element type of input 0, whatever the
output index, the other input types and the input count are. -/
theorem C7_getOutputDataType_is_input0 (p : MHAPlugin) (index nbInputs : Int)
    (queryType : DataType) (others : List DataType) :
    p.getOutputDataType index (queryType :: others) nbInputs = some queryType := by
  simp [MHAPlugin.getOutputDataType]

/-! ### Data flow of `mha_forward` (C8, C9, C10) -/

theorem runKernels_nil {α : Type} (K : Kernels α) (mem : Mem α) : runKernels K [] mem = mem := rfl

theorem runKernels_cons {α : Type} (K : Kernels α) (c : KernelCall) (cs : List KernelCall)
    (mem : Mem α) : runKernels K (c :: cs) mem = runKernels K cs (c.exec K mem) := rfl

theorem runKernels_append {α : Type} (K : Kernels α) (xs ys : List KernelCall) (mem : Mem α) :
    runKernels K (xs ++ ys) mem = runKernels K ys (runKernels K xs mem) := by
  simp [runKernels, List.foldl_append]

theorem Mem.write_same {α : Type} (mem : Mem α) (dst : Loc) (v : α) :
    (mem.write dst v) dst = v := by
  simp [Mem.write]

theorem Mem.write_other {α : Type} (mem : Mem α) (dst l : Loc) (v : α) (h : l ≠ dst) :
    (mem.write dst v) l = mem l := by
  simp [Mem.write, h]

/-- A launch leaves every buffer it does not write through unchanged. -/
theorem KernelCall.exec_frame {α : Type} (K : Kernels α) (c : KernelCall) (mem : Mem α)
    (l : Loc) (h : l ∉ c.writes) : (c.exec K mem) l = mem l := by
  cases c <;>
    simp only [KernelCall.writes, List.mem_cons, List.mem_singleton, List.not_mem_nil,
      not_or, or_false] at h <;>
    simp only [KernelCall.exec, execAddBiasTranspose]
  case invokeAddQKVBiasTranspose q_buf k_buf v_buf Q bias_Q Kin bias_K V bias_V b s hn sp =>
    obtain ⟨h1, h2, h3⟩ := h
    split_ifs <;> simp [Mem.write, h1, h2, h3]
  all_goals simp [Mem.write, h]

/-- A launch sequence leaves every buffer that none of its launches writes
through unchanged. -/
theorem runKernels_frame {α : Type} (K : Kernels α) (calls : List KernelCall) (mem : Mem α)
    (l : Loc) (h : ∀ c ∈ calls, l ∉ c.writes) : runKernels K calls mem l = mem l := by
  induction calls generalizing mem with
  | nil => rfl
  | cons c cs ih =>
    rw [runKernels_cons, ih _ (fun c' hc' => h c' (List.mem_cons_of_mem _ hc')),
      KernelCall.exec_frame K c mem l (h c (List.mem_cons_self _ _))]

theorem Mem.agreeOff_write {α : Type} (l dst : Loc) (mem₁ mem₂ : Mem α) (v₁ v₂ : α)
    (h : Mem.agreeOff l mem₁ mem₂) (hv : dst ≠ l → v₁ = v₂) :
    Mem.agreeOff l (mem₁.write dst v₁) (mem₂.write dst v₂) := by
  intro l' hl'
  by_cases hd : l' = dst
  · subst hd; simp [Mem.write, hv hl']
  · simp [Mem.write, hd, h l' hl']

theorem execAddBiasTranspose_agreeOff {α : Type} (K : Kernels α) (l dst src bias : Loc)
    (b s hn sp : Int) (mem₁ mem₂ : Mem α) (h : Mem.agreeOff l mem₁ mem₂)
    (hr : dst ≠ Loc.null → src ≠ l ∧ bias ≠ l) :
    Mem.agreeOff l (execAddBiasTranspose K dst src bias b s hn sp mem₁)
      (execAddBiasTranspose K dst src bias b s hn sp mem₂) := by
  unfold execAddBiasTranspose
  by_cases hd : dst = Loc.null
  · simp [hd, h]
  · simp only [hd, if_false]
    obtain ⟨h1, h2⟩ := hr hd
    exact Mem.agreeOff_write l dst _ _ _ _ h (fun hdl => by rw [h src h1, h bias h2, h dst hdl])

/-- Two memories that differ only at `l` still differ only at `l` after a launch
that does not read through `l`. -/
theorem KernelCall.exec_agreeOff {α : Type} (K : Kernels α) (c : KernelCall) (l : Loc)
    (mem₁ mem₂ : Mem α) (h : Mem.agreeOff l mem₁ mem₂) (hr : l ∉ c.reads) :
    Mem.agreeOff l (c.exec K mem₁) (c.exec K mem₂) := by
  cases c
  case invokeAddQKVBiasTranspose q_buf k_buf v_buf Q bias_Q Kin bias_K V bias_V b s hn sp =>
    simp only [KernelCall.reads, List.mem_append, not_or] at hr
    obtain ⟨⟨hq, hk⟩, hv⟩ := hr
    simp only [KernelCall.exec]
    refine execAddBiasTranspose_agreeOff K l _ _ _ _ _ _ _ _ _
      (execAddBiasTranspose_agreeOff K l _ _ _ _ _ _ _ _ _
        (execAddBiasTranspose_agreeOff K l _ _ _ _ _ _ _ _ _ h ?_) ?_) ?_
    · intro hd
      simp only [hd, if_false, List.mem_cons, List.mem_singleton, List.not_mem_nil, not_or,
        or_false] at hq
      exact ⟨fun e => hq.1 e.symm, fun e => hq.2.1 e.symm⟩
    · intro hd
      simp only [hd, if_false, List.mem_cons, List.mem_singleton, List.not_mem_nil, not_or,
        or_false] at hk
      exact ⟨fun e => hk.1 e.symm, fun e => hk.2.1 e.symm⟩
    · intro hd
      simp only [hd, if_false, List.mem_cons, List.mem_singleton, List.not_mem_nil, not_or,
        or_false] at hv
      exact ⟨fun e => hv.1 e.symm, fun e => hv.2.1 e.symm⟩
  all_goals
    simp only [KernelCall.reads, List.mem_cons, List.mem_singleton, List.not_mem_nil, not_or,
      or_false] at hr
    simp only [KernelCall.exec]
    refine Mem.agreeOff_write l _ _ _ _ _ h (fun _ => ?_)
    congr 1 <;> first | rfl | (apply h; intro e; simp [e] at hr)

/-- Two memories that differ only at `l` still differ only at `l` after a launch
sequence none of whose launches reads through `l`. -/
theorem runKernels_agreeOff {α : Type} (K : Kernels α) (calls : List KernelCall) (l : Loc)
    (mem₁ mem₂ : Mem α) (h : Mem.agreeOff l mem₁ mem₂) (hr : ∀ c ∈ calls, l ∉ c.reads) :
    Mem.agreeOff l (runKernels K calls mem₁) (runKernels K calls mem₂) := by
  induction calls generalizing mem₁ mem₂ with
  | nil => exact h
  | cons c cs ih =>
    rw [runKernels_cons, runKernels_cons]
    exact ih _ _ (KernelCall.exec_agreeOff K c l mem₁ mem₂ h (hr c (List.mem_cons_self _ _)))
      (fun c' hc' => hr c' (List.mem_cons_of_mem _ hc'))

/-- In self-attention mode no launch of `mha_forward` reads through `inputs[1]`. -/
theorem mha_forward_self_reads (batch_size seq_len0 d_model seq_len1 head_num size_per_head : Int) :
    ∀ c ∈ (mha_forward batch_size seq_len0 d_model seq_len1 head_num size_per_head false).2,
      Loc.input 1 ∉ c.reads := by
  intro c hc
  simp only [mha_forward, List.mem_cons, List.mem_singleton, List.not_mem_nil, or_false] at hc
  rcases hc with h | h | h | h | h | h | h | h | h | h | h | h | h <;> subst h <;>
    simp [KernelCall.reads]

/-- The first eleven launches of `mha_forward` write through workspace pointers
only. -/
theorem mha_forward_take11_writes (batch_size seq_len0 d_model seq_len1 head_num
    size_per_head : Int) (isCrossAtten : Bool) (l : Loc) (hl : ∀ off, l ≠ Loc.workspace off)
    (hn : l ≠ Loc.null) :
    ∀ c ∈ (mha_forward batch_size seq_len0 d_model seq_len1 head_num size_per_head
      isCrossAtten).2.take 11, l ∉ c.writes := by
  intro c hc
  simp only [mha_forward, List.take_succ_cons, List.take_zero, List.mem_cons,
    List.mem_singleton, List.not_mem_nil, or_false] at hc
  rcases hc with h | h | h | h | h | h | h | h | h | h | h <;> subst h <;>
    simp [KernelCall.writes, hl, hn]

/-- The value of `enqueue` on a descriptor array with at least two entries. -/
theorem enqueue_eq (p : MHAPlugin) (q kv : PluginTensorDesc)
    (rest outputDesc : List PluginTensorDesc) :
    p.enqueue (q :: kv :: rest) outputDesc = some (0,
      [HostCall.cudaStreamSynchronize, HostCall.cublasSetStream, HostCall.setStream] ++
      (if q.type = DataType.kFLOAT ∨ q.type = DataType.kHALF then
        (if p.int8_model ≠ -1 then
          [HostCall.mha_forward_int8 q.type (q.dims.get 0) (q.dims.get 1) (q.dims.get 2)
            (if p.isCrossAtten then kv.dims.get 1 else q.dims.get 1) 4 64 p.isCrossAtten
            p.scale_list p.mLayerName]
         else
          [if q.type = DataType.kFLOAT then HostCall.setFP32GemmConfig
            else HostCall.setFP16GemmConfig,
           HostCall.mha_forward q.type (q.dims.get 0) (q.dims.get 1) (q.dims.get 2)
            (if p.isCrossAtten then kv.dims.get 1 else q.dims.get 1) 4 64 p.isCrossAtten
            p.mLayerName])
       else [])) := by
  by_cases hT : q.type = DataType.kFLOAT ∨ q.type = DataType.kHALF
  · rw [enqueue_float_or_half p q kv rest outputDesc hT, if_pos hT]
  · rw [if_neg hT]
    rw [not_or] at hT
    cases hc : p.isCrossAtten <;> simp [MHAPlugin.enqueue, hT.1, hT.2, hc]

/-- C8: for a plugin that is not cross-attention, (1) `getWorkspaceSize` computes
`dataNum` with `seq_len1 = seq_len0`, whatever `inputDesc[1]` is; (2) every
forward template that `enqueue` calls receives `seq_len1 = seq_len0`, the query
length of `inputDesc[0]`; (3) in `mha_forward` the layer normalization writes
`q_share` from `inputs[0]`, and the query, key and value projections all read
their activation operand through that same pointer `q_share`. -/
theorem C8_self_attention_key_value_source_is_query (p : MHAPlugin)
    (hp : p.isCrossAtten = false) (q kv : PluginTensorDesc)
    (rest outputs outputDesc : List PluginTensorDesc) (nbInputs nbOutputs : Int)
    (batch_size seq_len0 d_model seq_len1 head_num size_per_head : Int) :
    p.getWorkspaceSize (q :: kv :: rest) nbInputs outputs nbOutputs
        = some (sizeMul (toSizeT (imul (q.dims.get 0) (imul (q.dims.get 2)
            (iadd (iadd (imul (q.dims.get 1) 4) (imul (q.dims.get 1) 4))
              (imul (imul (q.dims.get 1) (q.dims.get 1)) 8))))) 4)
    ∧ (∃ status calls, p.enqueue (q :: kv :: rest) outputDesc = some (status, calls) ∧
        (∀ c ∈ calls, ∀ s0 s1, c.seqLens = some (s0, s1) → s0 = q.dims.get 1 ∧ s1 = s0) ∧
        (q.type = DataType.kFLOAT ∨ q.type = DataType.kHALF →
          ∃ c ∈ calls, c.seqLens = some (q.dims.get 1, q.dims.get 1)))
    ∧ (mha_forward batch_size seq_len0 d_model seq_len1 head_num size_per_head p.isCrossAtten).2.take 4
        = [ KernelCall.invokeGeneralLayerNorm
              (Loc.workspace (workspaceLayout batch_size seq_len0 d_model seq_len1 head_num).q_share)
              (Loc.input 0) (Loc.input 11) (Loc.input 12) (imul batch_size seq_len0) d_model 0,
            KernelCall.Gemm .CUBLAS_OP_N .CUBLAS_OP_N d_model (imul batch_size seq_len0) d_model
              (Loc.input 3) d_model
              (Loc.workspace (workspaceLayout batch_size seq_len0 d_model seq_len1 head_num).q_share)
              d_model
              (Loc.workspace (workspaceLayout batch_size seq_len0 d_model seq_len1 head_num).q_buf)
              d_model,
            KernelCall.Gemm .CUBLAS_OP_N .CUBLAS_OP_N d_model (imul batch_size seq_len1) d_model
              (Loc.input 5) d_model
              (Loc.workspace (workspaceLayout batch_size seq_len0 d_model seq_len1 head_num).q_share)
              d_model
              (Loc.workspace (workspaceLayout batch_size seq_len0 d_model seq_len1 head_num).k_buf)
              d_model,
            KernelCall.Gemm .CUBLAS_OP_N .CUBLAS_OP_N d_model (imul batch_size seq_len1) d_model
              (Loc.input 7) d_model
              (Loc.workspace (workspaceLayout batch_size seq_len0 d_model seq_len1 head_num).q_share)
              d_model
              (Loc.workspace (workspaceLayout batch_size seq_len0 d_model seq_len1 head_num).v_buf)
              d_model ] := by
  refine ⟨?_, ?_, ?_⟩
  · simp [MHAPlugin.getWorkspaceSize, hp]
  · refine ⟨_, _, enqueue_eq p q kv rest outputDesc, ?_, ?_⟩
    swap
    · intro hT
      by_cases h8 : p.int8_model = -1
      · exact ⟨HostCall.mha_forward q.type (q.dims.get 0) (q.dims.get 1) (q.dims.get 2)
          (q.dims.get 1) 4 64 false p.mLayerName, by simp [hT, h8, hp], rfl⟩
      · exact ⟨HostCall.mha_forward_int8 q.type (q.dims.get 0) (q.dims.get 1) (q.dims.get 2)
          (q.dims.get 1) 4 64 false p.scale_list p.mLayerName, by simp [hT, h8, hp], rfl⟩
    intro c hc s0 s1 hs
    simp only [hp, Bool.false_eq_true, if_false, List.mem_append, List.mem_cons,
      List.mem_singleton, List.not_mem_nil, or_false] at hc
    rcases hc with (h | h | h) | hc
    · subst h; simp [HostCall.seqLens] at hs
    · subst h; simp [HostCall.seqLens] at hs
    · subst h; simp [HostCall.seqLens] at hs
    · split_ifs at hc
      all_goals
        simp only [List.mem_cons, List.mem_singleton, List.not_mem_nil, or_false] at hc
      all_goals
        first
        | (subst hc; simp only [HostCall.seqLens, Option.some.injEq, Prod.mk.injEq] at hs
           exact ⟨hs.1.symm, by rw [← hs.1, ← hs.2]⟩)
        | (rcases hc with h | h <;> subst h <;>
            simp only [HostCall.seqLens, Option.some.injEq, Prod.mk.injEq, Bool.false_eq_true,
              if_false, reduceCtorEq] at hs
           exact ⟨hs.1.symm, by rw [← hs.1, ← hs.2]⟩)
  · rw [hp]; simp [mha_forward]

/-- C8 (witness): a self-attention plugin called with a second descriptor of
key/value length 77, on the shape `B = 2, S0 = 3, D = 256`. -/
theorem C8_self_attention_key_value_source_is_query_witness :
    MHAPlugin.getWorkspaceSize ⟨"enc", "", false, -1, []⟩
        [⟨⟨3, [2, 3, 256]⟩, .kFLOAT, .kLINEAR, 0⟩, ⟨⟨3, [2, 77, 256]⟩, .kFLOAT, .kLINEAR, 0⟩]
        13 [] 1
        = some (sizeMul (toSizeT (imul 2 (imul 256
            (iadd (iadd (imul 3 4) (imul 3 4)) (imul (imul 3 3) 8))))) 4)
    ∧ (∃ status calls, MHAPlugin.enqueue ⟨"enc", "", false, -1, []⟩
          [⟨⟨3, [2, 3, 256]⟩, .kFLOAT, .kLINEAR, 0⟩, ⟨⟨3, [2, 77, 256]⟩, .kFLOAT, .kLINEAR, 0⟩]
          [] = some (status, calls) ∧
        (∀ c ∈ calls, ∀ s0 s1, c.seqLens = some (s0, s1) → s0 = 3 ∧ s1 = s0) ∧
        (DataType.kFLOAT = DataType.kFLOAT ∨ DataType.kFLOAT = DataType.kHALF →
          ∃ c ∈ calls, c.seqLens = some (3, 3)))
    ∧ (mha_forward 2 3 256 3 4 64 false).2.take 4
        = [ KernelCall.invokeGeneralLayerNorm (Loc.workspace 1536)
              (Loc.input 0) (Loc.input 11) (Loc.input 12) 6 256 0,
            KernelCall.Gemm .CUBLAS_OP_N .CUBLAS_OP_N 256 6 256
              (Loc.input 3) 256 (Loc.workspace 1536) 256 (Loc.workspace 0) 256,
            KernelCall.Gemm .CUBLAS_OP_N .CUBLAS_OP_N 256 6 256
              (Loc.input 5) 256 (Loc.workspace 1536) 256 (Loc.workspace 4680) 256,
            KernelCall.Gemm .CUBLAS_OP_N .CUBLAS_OP_N 256 6 256
              (Loc.input 7) 256 (Loc.workspace 1536) 256 (Loc.workspace 7752) 256 ] :=
  C8_self_attention_key_value_source_is_query ⟨"enc", "", false, -1, []⟩ rfl
    ⟨⟨3, [2, 3, 256]⟩, .kFLOAT, .kLINEAR, 0⟩ ⟨⟨3, [2, 77, 256]⟩, .kFLOAT, .kLINEAR, 0⟩
    [] [] [] 13 1 2 3 256 3 4 64

/-- In cross-attention mode the output of the same launch sequence does depend on
`inputs[1]`: with the sample kernels the two memories of the C9 witness give
different outputs. -/
theorem cross_attention_output_reads_input1 :
    runKernels sumKernels (mha_forward 1 2 256 2 4 64 true).2 (fun _ => 1) (Loc.output 0)
      ≠ runKernels sumKernels (mha_forward 1 2 256 2 4 64 true).2
          (Mem.write (fun _ => (1 : Nat)) (Loc.input 1) 7) (Loc.output 0) := by
  decide

/-- C11: for every shape and both attention types, `mha_forward` returns 0 after
enqueueing thirteen launches that carry out, each once and in this order: layer
normalization; query, key and value projection; query, key and value bias-add
and head split; score batched GEMM; masked softmax; context batched GEMM; head
merge; output projection; bias plus residual. The launch list is a function of
the shape arguments and `isCrossAtten` only, and the two attention types differ
in nothing but the activation operand of the key and value projections
(`inputs[1]` for cross-attention, `q_share` otherwise). -/
theorem C11_mha_forward_stage_order
    (batch_size seq_len0 d_model seq_len1 head_num size_per_head : Int) (isCrossAtten : Bool) :
    (mha_forward batch_size seq_len0 d_model seq_len1 head_num size_per_head isCrossAtten).1 = 0
    ∧ (mha_forward batch_size seq_len0 d_model seq_len1 head_num size_per_head
        isCrossAtten).2.map KernelCall.stage?
      = [some Stage.layerNorm, some Stage.queryProjection, some Stage.keyProjection,
         some Stage.valueProjection, some Stage.querySplit, some Stage.keySplit,
         some Stage.valueSplit, some Stage.scoreGemm, some Stage.maskedSoftmax,
         some Stage.contextGemm, some Stage.headMerge, some Stage.outputProjection,
         some Stage.biasResidual]
    ∧ (∀ i : Nat, i ≠ 2 → i ≠ 3 →
        (mha_forward batch_size seq_len0 d_model seq_len1 head_num size_per_head true).2[i]?
          = (mha_forward batch_size seq_len0 d_model seq_len1 head_num size_per_head false).2[i]?)
    ∧ (mha_forward batch_size seq_len0 d_model seq_len1 head_num size_per_head isCrossAtten).2[2]?
        = some (KernelCall.Gemm .CUBLAS_OP_N .CUBLAS_OP_N d_model (imul batch_size seq_len1)
            d_model (Loc.input 5) d_model
            (if isCrossAtten then Loc.input 1 else Loc.workspace
              (workspaceLayout batch_size seq_len0 d_model seq_len1 head_num).q_share)
            d_model
            (Loc.workspace (workspaceLayout batch_size seq_len0 d_model seq_len1 head_num).k_buf)
            d_model)
    ∧ (mha_forward batch_size seq_len0 d_model seq_len1 head_num size_per_head isCrossAtten).2[3]?
        = some (KernelCall.Gemm .CUBLAS_OP_N .CUBLAS_OP_N d_model (imul batch_size seq_len1)
            d_model (Loc.input 7) d_model
            (if isCrossAtten then Loc.input 1 else Loc.workspace
              (workspaceLayout batch_size seq_len0 d_model seq_len1 head_num).q_share)
            d_model
            (Loc.workspace (workspaceLayout batch_size seq_len0 d_model seq_len1 head_num).v_buf)
            d_model) := by
  refine ⟨rfl, ?_, ?_, ?_, ?_⟩
  · simp [mha_forward, KernelCall.stage?]
  · intro i h2 h3
    match i with
    | 0 | 1 | 4 | 5 | 6 | 7 | 8 | 9 | 10 | 11 | 12 => rfl
    | 2 => exact absurd rfl h2
    | 3 => exact absurd rfl h3
    | (n + 13) => simp [mha_forward]
  · cases isCrossAtten <;> simp [mha_forward]
  · cases isCrossAtten <;> simp [mha_forward]

/-- C12: for every invocation of `enqueue` with a float32 or 16-bit float query
activation, exactly one forward template is called: the calls of `mha_forward`
and of `mha_forward_int8` number one in total, and the one call is of
`mha_forward_int8` if and only if `int8_model != -1`. -/
theorem C12_enqueue_runs_exactly_one_pipeline (p : MHAPlugin) (q kv : PluginTensorDesc)
    (rest outputDesc : List PluginTensorDesc)
    (hT : q.type = DataType.kFLOAT ∨ q.type = DataType.kHALF) :
    ∃ status calls, p.enqueue (q :: kv :: rest) outputDesc = some (status, calls) ∧
      calls.countP HostCall.isFloatForward + calls.countP HostCall.isInt8Forward = 1 ∧
      (calls.countP HostCall.isInt8Forward = 1 ↔ p.int8_model ≠ -1) ∧
      (calls.countP HostCall.isFloatForward = 1 ↔ p.int8_model = -1) := by
  refine ⟨_, _, enqueue_float_or_half p q kv rest outputDesc hT, ?_⟩
  by_cases h8 : p.int8_model = -1
  · rcases hT with h | h <;>
      simp [h8, h, List.countP_cons, HostCall.isFloatForward, HostCall.isInt8Forward]
  · simp [h8, List.countP_cons, HostCall.isFloatForward, HostCall.isInt8Forward]

/-- C12 (witness): a float self-attention invocation with `int8_model = -1` . -/
theorem C12_enqueue_runs_exactly_one_pipeline_witness :
    ∃ status calls, MHAPlugin.enqueue ⟨"enc", "", false, -1, []⟩
        (inputDesc13 .kFLOAT 2 3 3 256) [] = some (status, calls) ∧
      calls.countP HostCall.isFloatForward + calls.countP HostCall.isInt8Forward = 1 ∧
      (calls.countP HostCall.isInt8Forward = 1 ↔ (-1 : Int) ≠ -1) ∧
      (calls.countP HostCall.isFloatForward = 1 ↔ (-1 : Int) = -1) :=
  C12_enqueue_runs_exactly_one_pipeline ⟨"enc", "", false, -1, []⟩
    ⟨⟨3, [2, 3, 256]⟩, .kFLOAT, .kLINEAR, 0⟩ ⟨⟨3, [2, 3, 256]⟩, .kFLOAT, .kLINEAR, 0⟩ _ []
    (Or.inl rfl)

/-- C13 (the code at the failing input): with `int8_model = 0` and a float query
activation of shape `[1, 2, 256]`, `enqueue` returns status 0 after calling
`mha_forward_int8<float>` and nothing else of the two pipelines; that template
returns 0 without a launch (its body is inside a block comment), so for any
kernels and any memory the device memory, `outputs[0]` included, is left as it
was. -/
theorem C13_int8_pipeline_writes_nothing :
    MHAPlugin.enqueue ⟨"mha", "", false, 0, []⟩ (inputDesc13 .kFLOAT 1 2 2 256)
        [⟨⟨3, [1, 2, 256]⟩, .kFLOAT, .kLINEAR, 0⟩]
      = some (0, [HostCall.cudaStreamSynchronize, HostCall.cublasSetStream, HostCall.setStream,
          HostCall.mha_forward_int8 .kFLOAT 1 2 256 2 4 64 false [] "mha"])
    ∧ (HostCall.mha_forward_int8 .kFLOAT 1 2 256 2 4 64 false [] "mha").launches = []
    ∧ mha_forward_int8 1 2 256 2 4 64 false [] = (0, [])
    ∧ (∀ (α : Type) (K : Kernels α) (mem : Mem α),
        runKernels K (HostCall.mha_forward_int8 .kFLOAT 1 2 256 2 4 64 false [] "mha").launches
          mem (Loc.output 0) = mem (Loc.output 0)) := by
  refine ⟨by decide, rfl, rfl, fun α K mem => rfl⟩

/-- C14 (counterexample): in quantized mode (`int8_model = 1`), `createPlugin`
returns a plugin both for a field collection without a `ScaleList` field and for
one whose `ScaleList` is `[0, 0]`, the same plugin in both cases, and `enqueue` on
it returns the success status 0. -/
theorem C14_missing_or_zero_scale_is_accepted :
    MHAPluginCreator.createPlugin "mha"
        ⟨1, [⟨"AttentionType", .chars "self", .kCHAR, 4⟩]⟩ ⟨1, []⟩
      = some ⟨"mha", "", false, 1, []⟩
    ∧ MHAPluginCreator.createPlugin "mha"
        ⟨2, [⟨"AttentionType", .chars "self", .kCHAR, 4⟩,
             ⟨"ScaleList", .floats [0, 0], .kFLOAT32, 2⟩]⟩ ⟨1, []⟩
      = some ⟨"mha", "", false, 1, []⟩
    ∧ MHAPlugin.enqueue ⟨"mha", "", false, 1, []⟩ (inputDesc13 .kFLOAT 1 2 2 256) []
      = some (0, [HostCall.cudaStreamSynchronize, HostCall.cublasSetStream, HostCall.setStream,
          HostCall.mha_forward_int8 .kFLOAT 1 2 256 2 4 64 false [] "mha"]) := by
  decide

/-- C14 (amended): a missing or zero scale factor is not rejected. For every
name, attention type string, list of scale values (empty, or with zeros, or
any other) and every value of the members no constructor sets, `createPlugin`
returns a plugin, the same one whether the `ScaleList` field is absent or
present: it only asserts that the field has type `kFLOAT32`. The scale values
reach no member of the plugin, and `enqueue` on the plugin returns status 0 for
a float32 or 16-bit float query activation, in quantized mode as well. -/
theorem C14_createPlugin_ignores_scale_list (name attn : String) (xs : List Rat)
    (len lenScale : Int) (u : Uninitialized) (q kv : PluginTensorDesc)
    (rest outputDesc : List PluginTensorDesc)
    (hT : q.type = DataType.kFLOAT ∨ q.type = DataType.kHALF) :
    MHAPluginCreator.createPlugin name
        ⟨2, [⟨"AttentionType", .chars attn, .kCHAR, len⟩,
             ⟨"ScaleList", .floats xs, .kFLOAT32, lenScale⟩]⟩ u
      = some (MHAPlugin.new name (decide (attn = "cross")) u)
    ∧ MHAPluginCreator.createPlugin name
        ⟨1, [⟨"AttentionType", .chars attn, .kCHAR, len⟩]⟩ u
      = some (MHAPlugin.new name (decide (attn = "cross")) u)
    ∧ (MHAPlugin.new name (decide (attn = "cross")) u).scale_list = u.scale_list
    ∧ ∃ calls, (MHAPlugin.new name (decide (attn = "cross")) u).enqueue (q :: kv :: rest)
        outputDesc = some (0, calls) := by
  refine ⟨?_, ?_, rfl, _, enqueue_float_or_half _ q kv rest outputDesc hT⟩
  · by_cases h : attn = "cross" <;>
      simp [MHAPluginCreator.createPlugin, MHAPluginCreator.parseFields, List.range_succ, h]
  · by_cases h : attn = "cross" <;>
      simp [MHAPluginCreator.createPlugin, MHAPluginCreator.parseFields, List.range_succ, h]

/-- C14 (witness): a cross-attention plugin with scale list `[0, 1/2]`, created
over storage holding `int8_model = 1`, run on a float query activation. -/
theorem C14_createPlugin_ignores_scale_list_witness :
    MHAPluginCreator.createPlugin "dec"
        ⟨2, [⟨"AttentionType", .chars "cross", .kCHAR, 5⟩,
             ⟨"ScaleList", .floats [0, 1 / 2], .kFLOAT32, 2⟩]⟩ ⟨1, [7]⟩
      = some (MHAPlugin.new "dec" (decide ("cross" = "cross")) ⟨1, [7]⟩)
    ∧ MHAPluginCreator.createPlugin "dec"
        ⟨1, [⟨"AttentionType", .chars "cross", .kCHAR, 5⟩]⟩ ⟨1, [7]⟩
      = some (MHAPlugin.new "dec" (decide ("cross" = "cross")) ⟨1, [7]⟩)
    ∧ (MHAPlugin.new "dec" (decide ("cross" = "cross")) ⟨1, [7]⟩).scale_list = [7]
    ∧ ∃ calls, (MHAPlugin.new "dec" (decide ("cross" = "cross")) ⟨1, [7]⟩).enqueue
        (⟨⟨3, [1, 2, 256]⟩, .kFLOAT, .kLINEAR, 0⟩ :: ⟨⟨3, [1, 5, 256]⟩, .kFLOAT, .kLINEAR, 0⟩
          :: []) [] = some (0, calls) :=
  C14_createPlugin_ignores_scale_list "dec" "cross" [0, 1 / 2] 5 2 ⟨1, [7]⟩
    ⟨⟨3, [1, 2, 256]⟩, .kFLOAT, .kLINEAR, 0⟩ ⟨⟨3, [1, 5, 256]⟩, .kFLOAT, .kLINEAR, 0⟩ [] []
    (Or.inl rfl)

/-- C15 (counterexample): a cross-attention float invocation whose key/value
tensor has batch 3 and hidden size 128 against the query's batch 1 and hidden
size 256, and whose mask has shape `[7, 7, 7]` instead of `[1, 2, 5]`: `enqueue`
returns status 0 after calling `mha_forward<float>`, whose launch list is not
empty. -/
theorem C15_enqueue_accepts_mismatched_shapes :
    MHAPlugin.enqueue ⟨"dec", "", true, -1, []⟩
        [⟨⟨3, [1, 2, 256]⟩, .kFLOAT, .kLINEAR, 0⟩, ⟨⟨3, [3, 5, 128]⟩, .kFLOAT, .kLINEAR, 0⟩,
         ⟨⟨3, [7, 7, 7]⟩, .kFLOAT, .kLINEAR, 0⟩]
        [⟨⟨3, [1, 2, 256]⟩, .kFLOAT, .kLINEAR, 0⟩]
      = some (0, [HostCall.cudaStreamSynchronize, HostCall.cublasSetStream, HostCall.setStream,
          HostCall.setFP32GemmConfig, HostCall.mha_forward .kFLOAT 1 2 256 5 4 64 true "dec"])
    ∧ (HostCall.mha_forward .kFLOAT 1 2 256 5 4 64 true "dec").launches.length = 13 := by
  decide

/-- C15 (amended): `enqueue` compares no shapes. For every cross-attention
invocation with a float32 or 16-bit float query activation it returns status 0
and calls one forward template with the batch, query length and hidden size of
`inputDesc[0]` and the key/value length `inputDesc[1].dims.d[1]`; of the
key/value descriptor only that length is read, and the mask descriptor and all
later ones are not read at all, so any two invocations that agree on
`inputDesc[0]` and on `inputDesc[1].dims.d[1]` do the same. -/
theorem C15_enqueue_compares_no_shapes (p : MHAPlugin) (hp : p.isCrossAtten = true)
    (q kv kv' : PluginTensorDesc) (rest rest' outputDesc outputDesc' : List PluginTensorDesc)
    (hT : q.type = DataType.kFLOAT ∨ q.type = DataType.kHALF)
    (hlen : kv'.dims.get 1 = kv.dims.get 1) :
    p.enqueue (q :: kv' :: rest') outputDesc' = p.enqueue (q :: kv :: rest) outputDesc
    ∧ ∃ calls, p.enqueue (q :: kv :: rest) outputDesc = some (0, calls) ∧
        calls.filter HostCall.isPipeline =
          [if p.int8_model ≠ -1 then
              HostCall.mha_forward_int8 q.type (q.dims.get 0) (q.dims.get 1) (q.dims.get 2)
                (kv.dims.get 1) 4 64 true p.scale_list p.mLayerName
            else
              HostCall.mha_forward q.type (q.dims.get 0) (q.dims.get 1) (q.dims.get 2)
                (kv.dims.get 1) 4 64 true p.mLayerName] := by
  refine ⟨?_, _, enqueue_eq p q kv rest outputDesc, ?_⟩
  · rw [enqueue_eq, enqueue_eq, hlen]
  · by_cases h8 : p.int8_model = -1
    · rcases hT with h | h <;> simp [h8, h, hp, HostCall.isPipeline, List.filter]
    · simp [h8, hT, hp, HostCall.isPipeline, List.filter]

/-- C15 (witness): the mismatched invocation of the counterexample against a
matching one. -/
theorem C15_enqueue_compares_no_shapes_witness :
    MHAPlugin.enqueue ⟨"dec", "", true, -1, []⟩
        (⟨⟨3, [1, 2, 256]⟩, .kFLOAT, .kLINEAR, 0⟩ :: ⟨⟨3, [3, 5, 128]⟩, .kFLOAT, .kLINEAR, 0⟩ ::
          [⟨⟨3, [7, 7, 7]⟩, .kFLOAT, .kLINEAR, 0⟩]) []
      = MHAPlugin.enqueue ⟨"dec", "", true, -1, []⟩
        (⟨⟨3, [1, 2, 256]⟩, .kFLOAT, .kLINEAR, 0⟩ :: ⟨⟨3, [1, 5, 256]⟩, .kFLOAT, .kLINEAR, 0⟩ ::
          [⟨⟨3, [1, 2, 5]⟩, .kFLOAT, .kLINEAR, 0⟩]) []
    ∧ ∃ calls, MHAPlugin.enqueue ⟨"dec", "", true, -1, []⟩
        (⟨⟨3, [1, 2, 256]⟩, .kFLOAT, .kLINEAR, 0⟩ :: ⟨⟨3, [1, 5, 256]⟩, .kFLOAT, .kLINEAR, 0⟩ ::
          [⟨⟨3, [1, 2, 5]⟩, .kFLOAT, .kLINEAR, 0⟩]) [] = some (0, calls) ∧
        calls.filter HostCall.isPipeline =
          [if (-1 : Int) ≠ -1 then
              HostCall.mha_forward_int8 .kFLOAT 1 2 256 5 4 64 true [] "dec"
            else HostCall.mha_forward .kFLOAT 1 2 256 5 4 64 true "dec"] :=
  C15_enqueue_compares_no_shapes ⟨"dec", "", true, -1, []⟩ rfl
    ⟨⟨3, [1, 2, 256]⟩, .kFLOAT, .kLINEAR, 0⟩ ⟨⟨3, [1, 5, 256]⟩, .kFLOAT, .kLINEAR, 0⟩
    ⟨⟨3, [3, 5, 128]⟩, .kFLOAT, .kLINEAR, 0⟩ [⟨⟨3, [1, 2, 5]⟩, .kFLOAT, .kLINEAR, 0⟩]
    [⟨⟨3, [7, 7, 7]⟩, .kFLOAT, .kLINEAR, 0⟩] [] [] (Or.inl rfl) rfl

/-! ### Kernel arithmetic: the batched matrix products (C19, C20) -/

theorem sumTo_congr (n : Int) (f g : Int → ℚ) (h : ∀ t : Int, 0 ≤ t → t < n → f t = g t) :
    sumTo n f = sumTo n g := by
  unfold sumTo
  refine Finset.sum_congr rfl (fun t ht => h t (by omega) ?_)
  have := Finset.mem_range.mp ht
  omega

/-- The offset `b*stride + u` with `0 <= u < stride` decodes to batch `b` and
remainder `u` . -/
theorem decode_batch (b u stride : Int) (hu0 : 0 ≤ u) (hu : u < stride) :
    (b * stride + u) / stride = b ∧ (b * stride + u) % stride = u := by
  have hs : stride ≠ 0 := by omega
  constructor
  · rw [add_comm, Int.add_mul_ediv_right _ _ hs, Int.ediv_eq_zero_of_lt hu0 hu, zero_add]
  · rw [add_comm, Int.add_mul_emod_self, Int.emod_eq_of_lt hu0 hu]

/-- The element of a strided batched GEMM at row `i`, column `j` of batch `b` . -/
theorem gemmStridedBatched_apply (transa transb : CublasOp) (m n k : Int) (alpha : ℚ) (A : Buf)
    (lda strideA : Int) (B : Buf) (ldb strideB : Int) (beta : ℚ) (C : Buf) (ldc strideC : Int)
    (batchCount b i j : Int) (hb0 : 0 ≤ b) (hb : b < batchCount) (hi0 : 0 ≤ i) (hi : i < m)
    (hj0 : 0 ≤ j) (hj : j < n) (hld : m ≤ ldc) (hstride : n * ldc ≤ strideC) :
    gemmStridedBatched transa transb m n k alpha A lda strideA B ldb strideB beta C ldc strideC
        batchCount (b * strideC + (i + j * ldc))
      = alpha * sumTo k (fun l =>
          opElem transa (fun t => A (b * strideA + t)) lda i l *
          opElem transb (fun t => B (b * strideB + t)) ldb l j)
        + beta * C (b * strideC + (i + j * ldc)) := by
  have hldc0 : 0 < ldc := by omega
  have hjl : 0 ≤ j * ldc := mul_nonneg hj0 (by omega)
  have hu0 : 0 ≤ i + j * ldc := by omega
  have hu : i + j * ldc < strideC := by nlinarith
  obtain ⟨h1, h2⟩ := decode_batch b (i + j * ldc) strideC hu0 hu
  have h3 : (i + j * ldc) % ldc = i := by
    rw [Int.add_mul_emod_self, Int.emod_eq_of_lt hi0 (by omega)]
  have h4 : (i + j * ldc) / ldc = j := by
    rw [Int.add_mul_ediv_right _ _ (by omega), Int.ediv_eq_zero_of_lt hi0 (by omega), zero_add]
  have h0 : 0 ≤ b * strideC + (i + j * ldc) := by
    have : 0 ≤ b * strideC := mul_nonneg hb0 (by omega)
    omega
  simp only [gemmStridedBatched, h1, h2, h3, h4]
  rw [if_pos ⟨h0, hb0, hb, hi, hj⟩]

/-- The offset `x*w + y` of element `(x, y)` of a row-major `n` by `w` block lies
inside the block. -/
theorem rowMajor_offset_range (x y n w : Int) (hx0 : 0 ≤ x) (hx : x < n) (hy0 : 0 ≤ y)
    (hy : y < w) : 0 ≤ x * w + y ∧ x * w + y < n * w := by
  have h1 : 0 ≤ x * w := mul_nonneg hx0 (by omega)
  have h2 : (x + 1) * w ≤ n * w := mul_le_mul_of_nonneg_right (by omega) (by omega)
  constructor
  · omega
  · nlinarith

/-- C19: under the cuBLAS column-major semantics, the score call of `mha_forward`
(launch 7: `stridedBatchedGemm(OP_T, OP_N, m = S1, n = S0, k = size_per_head,
A = k_bias, lda = size_per_head, strideA = S1*size_per_head, B = q_share,
ldb = size_per_head, strideB = S0*size_per_head, C = qk_buf, ldc = S1,
strideC = S0*S1, batchCount = B*head_num, alpha = 1, beta = 0)`) leaves in
`qk_buf`, for every batch-and-head index `b < B*head_num`, query position
`i < S0` and key position `j < S1`, the row-major logit
`C_b[i][j] = sum over d < size_per_head of Q_b[i][d] * K_b[j][d]`, where `Q` is the
buffer at `q_share` and `K` the buffer at `k_bias` ; the offsets read and written
stay inside the stride range of batch `b` . The products `S1*size_per_head`,
`S0*size_per_head`, `S0*S1` and `B*head_num` are assumed to fit an `int` . -/
theorem C19_score_gemm_is_Q_times_K_transposed (expf rsqrt : ℚ → ℚ) (eps : ℚ)
    (B S0 D S1 H sph : Int) (isCrossAtten : Bool) (mem : Mem Buf)
    (hB : 0 ≤ B) (hH : 0 ≤ H) (hS0 : 0 ≤ S0) (hS1 : 0 ≤ S1) (hsph : 0 ≤ sph)
    (hfitA : S1 * sph ≤ 2147483647) (hfitB : S0 * sph ≤ 2147483647)
    (hfitC : S0 * S1 ≤ 2147483647) (hfitN : B * H ≤ 2147483647) :
    (mha_forward B S0 D S1 H sph isCrossAtten).2[7]?
      = some (KernelCall.stridedBatchedGemm .CUBLAS_OP_T .CUBLAS_OP_N S1 S0 sph
          (Loc.workspace (workspaceLayout B S0 D S1 H).k_bias) sph (S1 * sph)
          (Loc.workspace (workspaceLayout B S0 D S1 H).q_share) sph (S0 * sph)
          (Loc.workspace (workspaceLayout B S0 D S1 H).qk_buf) S1 (S0 * S1) (B * H) 1 0)
    ∧ ∀ b i j : Int, 0 ≤ b → b < B * H → 0 ≤ i → i < S0 → 0 ≤ j → j < S1 →
        ((KernelCall.stridedBatchedGemm .CUBLAS_OP_T .CUBLAS_OP_N S1 S0 sph
            (Loc.workspace (workspaceLayout B S0 D S1 H).k_bias) sph (S1 * sph)
            (Loc.workspace (workspaceLayout B S0 D S1 H).q_share) sph (S0 * sph)
            (Loc.workspace (workspaceLayout B S0 D S1 H).qk_buf) S1 (S0 * S1) (B * H) 1 0).exec
          (specKernels expf rsqrt eps) mem)
          (Loc.workspace (workspaceLayout B S0 D S1 H).qk_buf) (b * (S0 * S1) + (i * S1 + j))
        = sumTo sph (fun d =>
            mem (Loc.workspace (workspaceLayout B S0 D S1 H).q_share)
              (b * (S0 * sph) + (i * sph + d))
            * mem (Loc.workspace (workspaceLayout B S0 D S1 H).k_bias)
              (b * (S1 * sph) + (j * sph + d)))
        ∧ (0 ≤ i * S1 + j ∧ i * S1 + j < S0 * S1)
        ∧ ∀ d : Int, 0 ≤ d → d < sph →
            (0 ≤ i * sph + d ∧ i * sph + d < S0 * sph)
            ∧ (0 ≤ j * sph + d ∧ j * sph + d < S1 * sph) := by
  have e1 : imul S1 sph = S1 * sph :=
    wrapInt32_of_range _ (by have := mul_nonneg hS1 hsph; omega) (by omega)
  have e2 : imul S0 sph = S0 * sph :=
    wrapInt32_of_range _ (by have := mul_nonneg hS0 hsph; omega) (by omega)
  have e3 : imul S0 S1 = S0 * S1 :=
    wrapInt32_of_range _ (by have := mul_nonneg hS0 hS1; omega) (by omega)
  have e4 : imul B H = B * H :=
    wrapInt32_of_range _ (by have := mul_nonneg hB hH; omega) (by omega)
  refine ⟨by simp [mha_forward, e1, e2, e3, e4], ?_⟩
  intro b i j hb0 hb hi0 hi hj0 hj
  refine ⟨?_, rowMajor_offset_range i j S0 S1 hi0 hi hj0 hj, fun d hd0 hd =>
    ⟨rowMajor_offset_range i d S0 sph hi0 hi hd0 hd, rowMajor_offset_range j d S1 sph hj0 hj hd0 hd⟩⟩
  simp only [KernelCall.exec, specKernels, Mem.write_same]
  have hidx : b * (S0 * S1) + (i * S1 + j) = b * (S0 * S1) + (j + i * S1) := by ring
  rw [hidx, gemmStridedBatched_apply _ _ _ _ _ _ _ _ _ _ _ _ _ _ _ _ _ _ _ _ hb0 hb hj0 hj hi0 hi
    (le_refl _) (le_refl _)]
  simp only [one_mul, zero_mul, add_zero, opElem]
  refine sumTo_congr _ _ _ (fun d _ _ => ?_)
  rw [mul_comm]
  congr 2 <;> ring

/-- C19 (witness): the shape `B = 2, S0 = 3, S1 = 5, D = 256` with `head_num = 4`
and `size_per_head = 64`, on a memory holding `offset + 1` at every offset of
every buffer. -/
theorem C19_score_gemm_is_Q_times_K_transposed_witness :
    (mha_forward 2 3 256 5 4 64 true).2[7]?
      = some (KernelCall.stridedBatchedGemm .CUBLAS_OP_T .CUBLAS_OP_N 5 3 64
          (Loc.workspace (workspaceLayout 2 3 256 5 4).k_bias) 64 (5 * 64)
          (Loc.workspace (workspaceLayout 2 3 256 5 4).q_share) 64 (3 * 64)
          (Loc.workspace (workspaceLayout 2 3 256 5 4).qk_buf) 5 (3 * 5) (2 * 4) 1 0)
    ∧ ∀ b i j : Int, 0 ≤ b → b < 2 * 4 → 0 ≤ i → i < 3 → 0 ≤ j → j < 5 →
        ((KernelCall.stridedBatchedGemm .CUBLAS_OP_T .CUBLAS_OP_N 5 3 64
            (Loc.workspace (workspaceLayout 2 3 256 5 4).k_bias) 64 (5 * 64)
            (Loc.workspace (workspaceLayout 2 3 256 5 4).q_share) 64 (3 * 64)
            (Loc.workspace (workspaceLayout 2 3 256 5 4).qk_buf) 5 (3 * 5) (2 * 4) 1 0).exec
          (specKernels (fun _ => 1) (fun _ => 1) 0) (fun _ t => (t : ℚ) + 1))
          (Loc.workspace (workspaceLayout 2 3 256 5 4).qk_buf) (b * (3 * 5) + (i * 5 + j))
        = sumTo 64 (fun d =>
            (fun (_ : Loc) (t : Int) => (t : ℚ) + 1)
              (Loc.workspace (workspaceLayout 2 3 256 5 4).q_share) (b * (3 * 64) + (i * 64 + d))
            * (fun (_ : Loc) (t : Int) => (t : ℚ) + 1)
              (Loc.workspace (workspaceLayout 2 3 256 5 4).k_bias) (b * (5 * 64) + (j * 64 + d)))
        ∧ (0 ≤ i * 5 + j ∧ i * 5 + j < 3 * 5)
        ∧ ∀ d : Int, 0 ≤ d → d < 64 →
            (0 ≤ i * 64 + d ∧ i * 64 + d < 3 * 64)
            ∧ (0 ≤ j * 64 + d ∧ j * 64 + d < 5 * 64) :=
  C19_score_gemm_is_Q_times_K_transposed (fun _ => 1) (fun _ => 1) 0 2 3 256 5 4 64 true
    (fun _ t => (t : ℚ) + 1) (by decide) (by decide) (by decide) (by decide) (by decide)
    (by decide) (by decide) (by decide) (by decide)

/-- C20: under the cuBLAS column-major semantics, the context call of `mha_forward`
(launch 9: `stridedBatchedGemm(OP_N, OP_N, m = size_per_head, n = S0, k = S1,
A = v_bias, lda = size_per_head, strideA = S1*size_per_head, B = qk_buf, ldb = S1,
strideB = S0*S1, C = q_buf, ldc = size_per_head, strideC = S0*size_per_head,
batchCount = B*head_num, alpha = 1, beta = 0)`) leaves in `q_buf`, for every
batch-and-head index `b < B*head_num`, query position `i < S0` and
`d < size_per_head`, the row-major context
`C_b[i][d] = sum over j < S1 of P_b[i][j] * V_b[j][d]`, where `P` is the buffer at
`qk_buf` (the softmax weights) and `V` the buffer at `v_bias` . The products
`S1*size_per_head`, `S0*size_per_head`, `S0*S1` and `B*head_num` are assumed to
fit an `int` . -/
theorem C20_context_gemm_is_P_times_V (expf rsqrt : ℚ → ℚ) (eps : ℚ)
    (B S0 D S1 H sph : Int) (isCrossAtten : Bool) (mem : Mem Buf)
    (hB : 0 ≤ B) (hH : 0 ≤ H) (hS0 : 0 ≤ S0) (hS1 : 0 ≤ S1) (hsph : 0 ≤ sph)
    (hfitA : S1 * sph ≤ 2147483647) (hfitB : S0 * S1 ≤ 2147483647)
    (hfitC : S0 * sph ≤ 2147483647) (hfitN : B * H ≤ 2147483647) :
    (mha_forward B S0 D S1 H sph isCrossAtten).2[9]?
      = some (KernelCall.stridedBatchedGemm .CUBLAS_OP_N .CUBLAS_OP_N sph S0 S1
          (Loc.workspace (workspaceLayout B S0 D S1 H).v_bias) sph (S1 * sph)
          (Loc.workspace (workspaceLayout B S0 D S1 H).qk_buf) S1 (S0 * S1)
          (Loc.workspace (workspaceLayout B S0 D S1 H).q_buf) sph (S0 * sph) (B * H) 1 0)
    ∧ ∀ b i d : Int, 0 ≤ b → b < B * H → 0 ≤ i → i < S0 → 0 ≤ d → d < sph →
        ((KernelCall.stridedBatchedGemm .CUBLAS_OP_N .CUBLAS_OP_N sph S0 S1
            (Loc.workspace (workspaceLayout B S0 D S1 H).v_bias) sph (S1 * sph)
            (Loc.workspace (workspaceLayout B S0 D S1 H).qk_buf) S1 (S0 * S1)
            (Loc.workspace (workspaceLayout B S0 D S1 H).q_buf) sph (S0 * sph) (B * H) 1 0).exec
          (specKernels expf rsqrt eps) mem)
          (Loc.workspace (workspaceLayout B S0 D S1 H).q_buf) (b * (S0 * sph) + (i * sph + d))
        = sumTo S1 (fun j =>
            mem (Loc.workspace (workspaceLayout B S0 D S1 H).qk_buf)
              (b * (S0 * S1) + (i * S1 + j))
            * mem (Loc.workspace (workspaceLayout B S0 D S1 H).v_bias)
              (b * (S1 * sph) + (j * sph + d)))
        ∧ (0 ≤ i * sph + d ∧ i * sph + d < S0 * sph)
        ∧ ∀ j : Int, 0 ≤ j → j < S1 →
            (0 ≤ i * S1 + j ∧ i * S1 + j < S0 * S1)
            ∧ (0 ≤ j * sph + d ∧ j * sph + d < S1 * sph) := by
  have e1 : imul S1 sph = S1 * sph :=
    wrapInt32_of_range _ (by have := mul_nonneg hS1 hsph; omega) (by omega)
  have e2 : imul S0 sph = S0 * sph :=
    wrapInt32_of_range _ (by have := mul_nonneg hS0 hsph; omega) (by omega)
  have e3 : imul S0 S1 = S0 * S1 :=
    wrapInt32_of_range _ (by have := mul_nonneg hS0 hS1; omega) (by omega)
  have e4 : imul B H = B * H :=
    wrapInt32_of_range _ (by have := mul_nonneg hB hH; omega) (by omega)
  refine ⟨by simp [mha_forward, e1, e2, e3, e4], ?_⟩
  intro b i d hb0 hb hi0 hi hd0 hd
  refine ⟨?_, rowMajor_offset_range i d S0 sph hi0 hi hd0 hd, fun j hj0 hj =>
    ⟨rowMajor_offset_range i j S0 S1 hi0 hi hj0 hj,
      rowMajor_offset_range j d S1 sph hj0 hj hd0 hd⟩⟩
  simp only [KernelCall.exec, specKernels, Mem.write_same]
  have hidx : b * (S0 * sph) + (i * sph + d) = b * (S0 * sph) + (d + i * sph) := by ring
  rw [hidx, gemmStridedBatched_apply _ _ _ _ _ _ _ _ _ _ _ _ _ _ _ _ _ _ _ _ hb0 hb hd0 hd hi0 hi
    (le_refl _) (le_refl _)]
  simp only [one_mul, zero_mul, add_zero, opElem]
  refine sumTo_congr _ _ _ (fun j _ _ => ?_)
  rw [mul_comm]
  congr 2 <;> ring

/-- C20 (witness): the shape `B = 2, S0 = 3, S1 = 5, D = 256` with `head_num = 4`
and `size_per_head = 64`, on a memory holding `offset + 1` at every offset of
every buffer. -/
theorem C20_context_gemm_is_P_times_V_witness :
    (mha_forward 2 3 256 5 4 64 false).2[9]?
      = some (KernelCall.stridedBatchedGemm .CUBLAS_OP_N .CUBLAS_OP_N 64 3 5
          (Loc.workspace (workspaceLayout 2 3 256 5 4).v_bias) 64 (5 * 64)
          (Loc.workspace (workspaceLayout 2 3 256 5 4).qk_buf) 5 (3 * 5)
          (Loc.workspace (workspaceLayout 2 3 256 5 4).q_buf) 64 (3 * 64) (2 * 4) 1 0)
    ∧ ∀ b i d : Int, 0 ≤ b → b < 2 * 4 → 0 ≤ i → i < 3 → 0 ≤ d → d < 64 →
        ((KernelCall.stridedBatchedGemm .CUBLAS_OP_N .CUBLAS_OP_N 64 3 5
            (Loc.workspace (workspaceLayout 2 3 256 5 4).v_bias) 64 (5 * 64)
            (Loc.workspace (workspaceLayout 2 3 256 5 4).qk_buf) 5 (3 * 5)
            (Loc.workspace (workspaceLayout 2 3 256 5 4).q_buf) 64 (3 * 64) (2 * 4) 1 0).exec
          (specKernels (fun _ => 1) (fun _ => 1) 0) (fun _ t => (t : ℚ) + 1))
          (Loc.workspace (workspaceLayout 2 3 256 5 4).q_buf) (b * (3 * 64) + (i * 64 + d))
        = sumTo 5 (fun j =>
            (fun (_ : Loc) (t : Int) => (t : ℚ) + 1)
              (Loc.workspace (workspaceLayout 2 3 256 5 4).qk_buf) (b * (3 * 5) + (i * 5 + j))
            * (fun (_ : Loc) (t : Int) => (t : ℚ) + 1)
              (Loc.workspace (workspaceLayout 2 3 256 5 4).v_bias) (b * (5 * 64) + (j * 64 + d)))
        ∧ (0 ≤ i * 64 + d ∧ i * 64 + d < 3 * 64)
        ∧ ∀ j : Int, 0 ≤ j → j < 5 →
            (0 ≤ i * 5 + j ∧ i * 5 + j < 3 * 5)
            ∧ (0 ≤ j * 64 + d ∧ j * 64 + d < 5 * 64) :=
  C20_context_gemm_is_P_times_V (fun _ => 1) (fun _ => 1) 0 2 3 256 5 4 64 false
    (fun _ t => (t : ℚ) + 1) (by decide) (by decide) (by decide) (by decide) (by decide)
    (by decide) (by decide) (by decide) (by decide)

/-! ### Kernel arithmetic: masked softmax (C17) -/

theorem foldl_max_attained (f : Int → ℚ) (l : List Nat) (init : ℚ) :
    l.foldl (fun acc j => max acc (f (j : Int))) init = init
      ∨ ∃ j ∈ l, l.foldl (fun acc j => max acc (f (j : Int))) init = f (j : Int) := by
  induction l generalizing init with
  | nil => exact Or.inl rfl
  | cons a l ih =>
    have hstep : (a :: l).foldl (fun acc j => max acc (f (j : Int))) init
        = l.foldl (fun acc j => max acc (f (j : Int))) (max init (f (a : Int))) := rfl
    rw [hstep]
    rcases ih (max init (f (a : Int))) with h | ⟨j, hj, h⟩
    · rcases max_choice init (f (a : Int)) with hm | hm
      · exact Or.inl (by rw [h, hm])
      · exact Or.inr ⟨a, List.mem_cons_self _ _, by rw [h, hm]⟩
    · exact Or.inr ⟨j, List.mem_cons_of_mem _ hj, h⟩

/-- The row maximum is the value at a position of the row. -/
theorem rowMax_attained (n : Int) (f : Int → ℚ) (hn : 0 < n) :
    ∃ j : Int, 0 ≤ j ∧ j < n ∧ rowMax n f = f j := by
  unfold rowMax
  rcases foldl_max_attained f (List.range n.toNat) (f 0) with h | ⟨j, hj, h⟩
  · exact ⟨0, le_refl _, hn, h⟩
  · refine ⟨(j : Int), by omega, ?_, h⟩
    have := List.mem_range.mp hj
    omega

theorem sumTo_nonneg (n : Int) (f : Int → ℚ) (h : ∀ t : Int, 0 ≤ t → t < n → 0 ≤ f t) :
    0 ≤ sumTo n f := by
  unfold sumTo
  refine Finset.sum_nonneg (fun t ht => h t (by omega) ?_)
  have := Finset.mem_range.mp ht
  omega

theorem single_le_sumTo (n : Int) (f : Int → ℚ) (h : ∀ t : Int, 0 ≤ t → t < n → 0 ≤ f t)
    (j : Int) (hj0 : 0 ≤ j) (hj : j < n) : f j ≤ sumTo n f := by
  unfold sumTo
  have hmem : j.toNat ∈ Finset.range n.toNat := by
    rw [Finset.mem_range]; omega
  have hle := Finset.single_le_sum (f := fun t : Nat => f (t : Int))
    (fun t ht => h t (by omega) (by have := Finset.mem_range.mp ht; omega)) hmem
  simpa [Int.toNat_of_nonneg hj0] using hle

theorem sumTo_div (n : Int) (f : Int → ℚ) (z : ℚ) :
    sumTo n (fun t => f t / z) = sumTo n f / z := by
  unfold sumTo
  rw [Finset.sum_div]

/-- The denominator of a softmax row in max-subtraction form is at least 1. -/
theorem softmax_denominator_ge_one (expf : ℚ → ℚ) (hexp0 : expf 0 = 1)
    (hexp : ∀ x, 0 ≤ expf x) (n : Int) (t : Int → ℚ) (hn : 0 < n) :
    1 ≤ sumTo n (fun j => expf (t j - rowMax n t)) := by
  obtain ⟨j0, hj0, hj0n, hmax⟩ := rowMax_attained n t hn
  have h := single_le_sumTo n (fun j => expf (t j - rowMax n t)) (fun _ _ _ => hexp _) j0 hj0 hj0n
  simp only [hmax, sub_self, hexp0] at h
  rw [hmax]
  exact h

/-- The value of `invokeMaskedSoftMax` at key position `j` of row `row` . -/
theorem maskedSoftMax_apply (expf : ℚ → ℚ) (src mask buffer : Buf)
    (batch_size seq_len0 seq_len1 head_num : Int) (scalar : ℚ) (row j : Int)
    (hrow0 : 0 ≤ row) (hrow : row < batch_size * head_num * seq_len0)
    (hj0 : 0 ≤ j) (hj : j < seq_len1) :
    maskedSoftMax expf src mask batch_size seq_len0 seq_len1 head_num scalar buffer
        (row * seq_len1 + j)
      = expf (maskedLogit src mask seq_len0 seq_len1 head_num scalar row j
            - rowMax seq_len1 (maskedLogit src mask seq_len0 seq_len1 head_num scalar row))
        / sumTo seq_len1 (fun j' =>
            expf (maskedLogit src mask seq_len0 seq_len1 head_num scalar row j'
              - rowMax seq_len1 (maskedLogit src mask seq_len0 seq_len1 head_num scalar row))) := by
  obtain ⟨h1, h2⟩ := decode_batch row j seq_len1 hj0 hj
  have h0 : 0 ≤ row * seq_len1 + j := by
    have : 0 ≤ row * seq_len1 := mul_nonneg hrow0 (by omega)
    omega
  simp only [maskedSoftMax, h1, h2]
  rw [if_pos ⟨h0, hrow0, hrow⟩]

/-- Every row of the masked softmax is a probability distribution. -/
theorem maskedSoftMax_row_distribution (expf : ℚ → ℚ) (hexp0 : expf 0 = 1)
    (hexp : ∀ x, 0 ≤ expf x) (src mask buffer : Buf)
    (batch_size seq_len0 seq_len1 head_num : Int) (scalar : ℚ) (hS1 : 0 < seq_len1) (row : Int)
    (hrow0 : 0 ≤ row) (hrow : row < batch_size * head_num * seq_len0) :
    (∀ j : Int, 0 ≤ j → j < seq_len1 →
      0 ≤ maskedSoftMax expf src mask batch_size seq_len0 seq_len1 head_num scalar buffer
            (row * seq_len1 + j)
      ∧ maskedSoftMax expf src mask batch_size seq_len0 seq_len1 head_num scalar buffer
            (row * seq_len1 + j) ≤ 1)
    ∧ sumTo seq_len1 (fun j =>
        maskedSoftMax expf src mask batch_size seq_len0 seq_len1 head_num scalar buffer
          (row * seq_len1 + j)) = 1 := by
  have hZ := softmax_denominator_ge_one expf hexp0 hexp seq_len1
    (maskedLogit src mask seq_len0 seq_len1 head_num scalar row) hS1
  have hZpos : 0 < sumTo seq_len1 (fun j' =>
      expf (maskedLogit src mask seq_len0 seq_len1 head_num scalar row j'
        - rowMax seq_len1 (maskedLogit src mask seq_len0 seq_len1 head_num scalar row))) := by
    linarith
  constructor
  · intro j hj0 hj
    rw [maskedSoftMax_apply expf src mask buffer batch_size seq_len0 seq_len1 head_num scalar
      row j hrow0 hrow hj0 hj]
    refine ⟨div_nonneg (hexp _) (le_of_lt hZpos), ?_⟩
    rw [div_le_one hZpos]
    exact single_le_sumTo seq_len1
      (fun j' => expf (maskedLogit src mask seq_len0 seq_len1 head_num scalar row j'
        - rowMax seq_len1 (maskedLogit src mask seq_len0 seq_len1 head_num scalar row)))
      (fun _ _ _ => hexp _) j hj0 hj
  · rw [sumTo_congr seq_len1 _ _ (fun j hj0 hj =>
      maskedSoftMax_apply expf src mask buffer batch_size seq_len0 seq_len1 head_num scalar
        row j hrow0 hrow hj0 hj), sumTo_div]
    exact div_self (ne_of_gt hZpos)

theorem foldl_max_add (f : Int → ℚ) (c : ℚ) (l : List Nat) (init : ℚ) :
    l.foldl (fun acc j => max acc (f (j : Int) + c)) (init + c)
      = l.foldl (fun acc j => max acc (f (j : Int))) init + c := by
  induction l generalizing init with
  | nil => rfl
  | cons a l ih =>
    have h1 : (a :: l).foldl (fun acc j => max acc (f (j : Int) + c)) (init + c)
        = l.foldl (fun acc j => max acc (f (j : Int) + c)) (max (init + c) (f (a : Int) + c)) :=
      rfl
    have h2 : (a :: l).foldl (fun acc j => max acc (f (j : Int))) init
        = l.foldl (fun acc j => max acc (f (j : Int))) (max init (f (a : Int))) := rfl
    rw [h1, h2, max_add_add_right, ih]

/-- Adding a constant to a whole row adds it to the row maximum. -/
theorem rowMax_add_const (n : Int) (f : Int → ℚ) (c : ℚ) :
    rowMax n (fun j => f j + c) = rowMax n f + c := by
  unfold rowMax
  exact foldl_max_add f c _ _

theorem rowMax_congr (n : Int) (f g : Int → ℚ) (hn : 0 < n)
    (h : ∀ t : Int, 0 ≤ t → t < n → f t = g t) : rowMax n f = rowMax n g := by
  unfold rowMax
  rw [h 0 (le_refl _) hn]
  generalize g 0 = init
  have hl : ∀ j ∈ List.range n.toNat, f (j : Int) = g (j : Int) := by
    intro j hj
    have := List.mem_range.mp hj
    exact h j (by omega) (by omega)
  generalize List.range n.toNat = l at hl
  induction l generalizing init with
  | nil => rfl
  | cons a l ih =>
    have h1 : (a :: l).foldl (fun acc j => max acc (f (j : Int))) init
        = l.foldl (fun acc j => max acc (f (j : Int))) (max init (f (a : Int))) := rfl
    have h2 : (a :: l).foldl (fun acc j => max acc (g (j : Int))) init
        = l.foldl (fun acc j => max acc (g (j : Int))) (max init (g (a : Int))) := rfl
    rw [h1, h2, hl a (List.mem_cons_self _ _)]
    exact ih _ (fun j hj => hl j (List.mem_cons_of_mem _ hj))

/-- A row whose mask is the same number at every key position has the softmax of
its scaled logits alone. -/
theorem maskedSoftMax_constant_mask_row (expf : ℚ → ℚ) (src mask buffer : Buf)
    (batch_size seq_len0 seq_len1 head_num : Int) (scalar : ℚ) (hS1 : 0 < seq_len1) (row : Int)
    (hrow0 : 0 ≤ row) (hrow : row < batch_size * head_num * seq_len0) (c : ℚ)
    (hmask : ∀ j : Int, 0 ≤ j → j < seq_len1 →
      mask (((row / seq_len0 / head_num) * seq_len0 + row % seq_len0) * seq_len1 + j) = c)
    (j : Int) (hj0 : 0 ≤ j) (hj : j < seq_len1) :
    maskedSoftMax expf src mask batch_size seq_len0 seq_len1 head_num scalar buffer
        (row * seq_len1 + j)
      = maskedSoftMax expf src (fun _ => 0) batch_size seq_len0 seq_len1 head_num scalar buffer
        (row * seq_len1 + j) := by
  rw [maskedSoftMax_apply expf src mask buffer batch_size seq_len0 seq_len1 head_num scalar
      row j hrow0 hrow hj0 hj,
    maskedSoftMax_apply expf src (fun _ => 0) buffer batch_size seq_len0 seq_len1 head_num scalar
      row j hrow0 hrow hj0 hj]
  have hmax : rowMax seq_len1 (maskedLogit src mask seq_len0 seq_len1 head_num scalar row)
      = rowMax seq_len1 (maskedLogit src (fun _ => 0) seq_len0 seq_len1 head_num scalar row)
        + c := by
    rw [← rowMax_add_const]
    refine rowMax_congr _ _ _ hS1 (fun t ht0 ht => ?_)
    simp only [maskedLogit, hmask t ht0 ht, add_zero]
  have hterm : ∀ t : Int, 0 ≤ t → t < seq_len1 →
      maskedLogit src mask seq_len0 seq_len1 head_num scalar row t
          - rowMax seq_len1 (maskedLogit src mask seq_len0 seq_len1 head_num scalar row)
        = maskedLogit src (fun _ => 0) seq_len0 seq_len1 head_num scalar row t
          - rowMax seq_len1
              (maskedLogit src (fun _ => 0) seq_len0 seq_len1 head_num scalar row) := by
    intro t ht0 ht
    rw [hmax]
    simp only [maskedLogit, hmask t ht0 ht, add_zero]
    ring
  rw [hterm j hj0 hj, sumTo_congr seq_len1 _ _ (fun t ht0 ht => by rw [hterm t ht0 ht])]

/-- C17: with the masked softmax as the specification describes it (exact
arithmetic, max-subtraction form, an exponential `expf` with `expf 0 = 1` and no
negative value), the masked-softmax stage of `mha_forward` (launch 8, in place on
`qk_buf` with the mask `inputs[2]`) leaves, for every logits buffer, every
additive mask and every row (fixed batch, head and query position) of at least
one key position, entries between 0 and 1 that sum to 1; the denominator of the
row is at least 1, so no division by zero (the source of a NaN) occurs. A row in
which every key position carries the same mask value, however negative, is no
exception: it holds the softmax of the scaled logits alone, which again sums to
1. -/
theorem C17_masked_softmax_rows_sum_to_one (expf rsqrt : ℚ → ℚ) (eps : ℚ)
    (hexp0 : expf 0 = 1) (hexp : ∀ x, 0 ≤ expf x)
    (B S0 D S1 H sph : Int) (isCrossAtten : Bool) (mem : Mem Buf) (hS1 : 0 < S1) :
    (mha_forward B S0 D S1 H sph isCrossAtten).2[8]? = some (softmaxLaunch B S0 D S1 H sph)
    ∧ ∀ row : Int, 0 ≤ row → row < B * H * S0 →
        (∀ j : Int, 0 ≤ j → j < S1 →
          0 ≤ softmaxOutput expf rsqrt eps B S0 D S1 H sph mem (row * S1 + j)
          ∧ softmaxOutput expf rsqrt eps B S0 D S1 H sph mem (row * S1 + j) ≤ 1)
        ∧ sumTo S1 (fun j => softmaxOutput expf rsqrt eps B S0 D S1 H sph mem (row * S1 + j)) = 1
        ∧ 1 ≤ sumTo S1 (fun j =>
            expf (maskedLogit (mem (Loc.workspace (workspaceLayout B S0 D S1 H).qk_buf))
                (mem (Loc.input 2)) S0 S1 H (rsqrt sph) row j
              - rowMax S1 (maskedLogit (mem (Loc.workspace (workspaceLayout B S0 D S1 H).qk_buf))
                  (mem (Loc.input 2)) S0 S1 H (rsqrt sph) row)))
        ∧ ∀ c : ℚ,
            (∀ j : Int, 0 ≤ j → j < S1 →
              mem (Loc.input 2) (((row / S0 / H) * S0 + row % S0) * S1 + j) = c) →
            ∀ j : Int, 0 ≤ j → j < S1 →
              softmaxOutput expf rsqrt eps B S0 D S1 H sph mem (row * S1 + j)
              = maskedSoftMax expf (mem (Loc.workspace (workspaceLayout B S0 D S1 H).qk_buf))
                  (fun _ => 0) B S0 S1 H (rsqrt sph)
                  (mem (Loc.workspace (workspaceLayout B S0 D S1 H).qk_buf)) (row * S1 + j) := by
  refine ⟨by simp [mha_forward, softmaxLaunch], ?_⟩
  intro row hrow0 hrow
  simp only [softmaxOutput, softmaxLaunch, KernelCall.exec, specKernels, Mem.write_same,
    ScalarExpr.value]
  obtain ⟨h1, h2⟩ := maskedSoftMax_row_distribution expf hexp0 hexp
    (mem (Loc.workspace (workspaceLayout B S0 D S1 H).qk_buf)) (mem (Loc.input 2))
    (mem (Loc.workspace (workspaceLayout B S0 D S1 H).qk_buf)) B S0 S1 H (rsqrt sph) hS1 row
    hrow0 hrow
  refine ⟨h1, h2, softmax_denominator_ge_one expf hexp0 hexp S1 _ hS1,
    fun c hmask j hj0 hj => ?_⟩
  exact maskedSoftMax_constant_mask_row expf _ _ _ B S0 S1 H (rsqrt sph) hS1 row hrow0 hrow c
    hmask j hj0 hj

/-- C17 (witness): the shape `B = 1, S0 = 2, S1 = 3, head_num = 4` on the sample
memory, whose mask is -10000 at every position, with the sample exponential. -/
theorem C17_masked_softmax_rows_sum_to_one_witness :
    sampleExpf 0 = 1 ∧ (∀ x, 0 ≤ sampleExpf x) ∧ (0 : Int) < 3
    ∧ (mha_forward 1 2 256 3 4 64 false).2[8]? = some (softmaxLaunch 1 2 256 3 4 64)
    ∧ ∀ row : Int, 0 ≤ row → row < 1 * 4 * 2 →
        (∀ j : Int, 0 ≤ j → j < 3 →
          0 ≤ softmaxOutput sampleExpf sampleRsqrt 0 1 2 256 3 4 64 sampleMem (row * 3 + j)
          ∧ softmaxOutput sampleExpf sampleRsqrt 0 1 2 256 3 4 64 sampleMem (row * 3 + j) ≤ 1)
        ∧ sumTo 3 (fun j =>
            softmaxOutput sampleExpf sampleRsqrt 0 1 2 256 3 4 64 sampleMem (row * 3 + j)) = 1
        ∧ 1 ≤ sumTo 3 (fun j =>
            sampleExpf (maskedLogit
                (sampleMem (Loc.workspace (workspaceLayout 1 2 256 3 4).qk_buf))
                (sampleMem (Loc.input 2)) 2 3 4 (sampleRsqrt 64) row j
              - rowMax 3 (maskedLogit
                  (sampleMem (Loc.workspace (workspaceLayout 1 2 256 3 4).qk_buf))
                  (sampleMem (Loc.input 2)) 2 3 4 (sampleRsqrt 64) row)))
        ∧ ∀ c : ℚ,
            (∀ j : Int, 0 ≤ j → j < 3 →
              sampleMem (Loc.input 2) (((row / 2 / 4) * 2 + row % 2) * 3 + j) = c) →
            ∀ j : Int, 0 ≤ j → j < 3 →
              softmaxOutput sampleExpf sampleRsqrt 0 1 2 256 3 4 64 sampleMem (row * 3 + j)
              = maskedSoftMax sampleExpf
                  (sampleMem (Loc.workspace (workspaceLayout 1 2 256 3 4).qk_buf))
                  (fun _ => 0) 1 2 3 4 (sampleRsqrt 64)
                  (sampleMem (Loc.workspace (workspaceLayout 1 2 256 3 4).qk_buf))
                  (row * 3 + j) :=
  have h0 : sampleExpf 0 = 1 := by simp [sampleExpf]
  have hpos : ∀ x, 0 ≤ sampleExpf x := fun x => by
    unfold sampleExpf; split_ifs <;> norm_num
  ⟨h0, hpos, by decide,
    C17_masked_softmax_rows_sum_to_one sampleExpf sampleRsqrt 0 h0 hpos 1 2 256 3 4 64 false
      sampleMem (by decide)⟩

/-! ### Kernel arithmetic: layer normalization (C18) -/

theorem sumTo_add (n : Int) (f g : Int → ℚ) :
    sumTo n (fun t => f t + g t) = sumTo n f + sumTo n g := by
  unfold sumTo
  rw [Finset.sum_add_distrib]

theorem sumTo_mul_left (n : Int) (f : Int → ℚ) (a : ℚ) :
    sumTo n (fun t => a * f t) = a * sumTo n f := by
  unfold sumTo
  rw [Finset.mul_sum]

theorem sumTo_const (n : Int) (a : ℚ) (hn : 0 ≤ n) : sumTo n (fun _ => a) = n * a := by
  unfold sumTo
  rw [Finset.sum_const, Finset.card_range, nsmul_eq_mul]
  congr 1
  have h : ((n.toNat : Int) : ℚ) = (n : ℚ) := by rw [Int.toNat_of_nonneg hn]
  exact_mod_cast h

/-- The value of `invokeGeneralLayerNorm` at column `c` of row `r` . -/
theorem generalLayerNorm_apply (rsqrt : ℚ → ℚ) (eps : ℚ) (input gamma beta out : Buf)
    (m n r c : Int) (hr0 : 0 ≤ r) (hr : r < m) (hc0 : 0 ≤ c) (hc : c < n) :
    generalLayerNorm rsqrt eps input gamma beta m n out (r * n + c)
      = gamma c * ((input (r * n + c) - rowMean input n r)
          * rsqrt (rowVar input n r + eps)) + beta c := by
  obtain ⟨h1, h2⟩ := decode_batch r c n hc0 hc
  have h0 : 0 ≤ r * n + c := by
    have : 0 ≤ r * n := mul_nonneg hr0 (by omega)
    omega
  simp only [generalLayerNorm, h1, h2]
  rw [if_pos ⟨h0, hr0, hr⟩]

/-- The deviations of a row from its mean sum to 0. -/
theorem sumTo_centered (x : Buf) (n r : Int) (hn : 0 < n) :
    sumTo n (fun c => x (r * n + c) - rowMean x n r) = 0 := by
  have hn' : (n : ℚ) ≠ 0 := by exact_mod_cast (ne_of_gt hn)
  have h : sumTo n (fun c => x (r * n + c) - rowMean x n r)
      = sumTo n (fun c => x (r * n + c)) + sumTo n (fun _ => - rowMean x n r) := by
    rw [← sumTo_add]
    exact sumTo_congr _ _ _ (fun t _ _ => by ring)
  rw [h, sumTo_const _ _ (le_of_lt hn)]
  unfold rowMean
  field_simp
  ring

/-- The mean and the population variance of a row of the layer-norm output, for a
scale `g` and a shift `b` that are the same at every column. -/
theorem generalLayerNorm_row_moments (rsqrt : ℚ → ℚ) (eps : ℚ) (input gamma beta out : Buf)
    (m n r : Int) (g b : ℚ) (hn : 0 < n) (hr0 : 0 ≤ r) (hr : r < m)
    (hgamma : ∀ c : Int, 0 ≤ c → c < n → gamma c = g)
    (hbeta : ∀ c : Int, 0 ≤ c → c < n → beta c = b) :
    rowMean (generalLayerNorm rsqrt eps input gamma beta m n out) n r = b
    ∧ rowVar (generalLayerNorm rsqrt eps input gamma beta m n out) n r
        = g ^ 2 * rowVar input n r * rsqrt (rowVar input n r + eps) ^ 2 := by
  have hn' : (n : ℚ) ≠ 0 := by exact_mod_cast (ne_of_gt hn)
  have hval : ∀ c : Int, 0 ≤ c → c < n →
      generalLayerNorm rsqrt eps input gamma beta m n out (r * n + c)
        = (g * rsqrt (rowVar input n r + eps)) * (input (r * n + c) - rowMean input n r)
          + b := by
    intro c hc0 hc
    rw [generalLayerNorm_apply rsqrt eps input gamma beta out m n r c hr0 hr hc0 hc,
      hgamma c hc0 hc, hbeta c hc0 hc]
    ring
  have hmean : rowMean (generalLayerNorm rsqrt eps input gamma beta m n out) n r = b := by
    unfold rowMean
    rw [sumTo_congr n _ _ hval, sumTo_add, sumTo_mul_left, sumTo_centered input n r hn,
      sumTo_const _ _ (le_of_lt hn)]
    field_simp
  refine ⟨hmean, ?_⟩
  unfold rowVar
  rw [hmean]
  have hsq : ∀ c : Int, 0 ≤ c → c < n →
      (generalLayerNorm rsqrt eps input gamma beta m n out (r * n + c) - b) ^ 2
        = (g ^ 2 * rsqrt (sumTo n (fun c => (input (r * n + c) - rowMean input n r) ^ 2) / n
            + eps) ^ 2) * (input (r * n + c) - rowMean input n r) ^ 2 := by
    intro c hc0 hc
    rw [hval c hc0 hc]
    unfold rowVar
    ring
  rw [sumTo_congr n _ _ hsq, sumTo_mul_left]
  field_simp
  ring

/-- C18 (counterexample): a constant token row. With `gamma = 1`, `beta = 0`,
`eps = 1/1000000` and the reciprocal square root `1000` of `0 + eps`, the layer
normalization of the row `(1, 1, 1, 1)` (shape `B = 1, S0 = 1, D = 4`) has mean 0
and population variance 0, not `gamma^2 = 1` . -/
theorem C18_constant_row_has_variance_zero :
    rowMean (layerNormOutput (fun _ => 1) (fun _ => 1000) (1 / 1000000) 1 1 4 1 1
        (fun l _ => if l = Loc.input 12 then 0 else 1)) 4 0 = 0
    ∧ rowVar (layerNormOutput (fun _ => 1) (fun _ => 1000) (1 / 1000000) 1 1 4 1 1
        (fun l _ => if l = Loc.input 12 then 0 else 1)) 4 0 = 0
    ∧ (0 : ℚ) ≠ 1 ^ 2
    ∧ rowVar ((fun (l : Loc) (_ : Int) => if l = Loc.input 12 then (0 : ℚ) else 1)
        (Loc.input 0)) 4 0 = 0
    ∧ (1000 : ℚ) ^ 2 * (0 + 1 / 1000000) = 1 := by
  have hv : rowVar ((fun (l : Loc) (_ : Int) => if l = Loc.input 12 then (0 : ℚ) else 1)
      (Loc.input 0)) 4 0 = 0 := by
    simp [rowVar, rowMean, sumTo, Finset.sum_range_succ]
  have h := generalLayerNorm_row_moments (fun _ => 1000) (1 / 1000000)
    ((fun (l : Loc) (_ : Int) => if l = Loc.input 12 then (0 : ℚ) else 1) (Loc.input 0))
    ((fun (l : Loc) (_ : Int) => if l = Loc.input 12 then (0 : ℚ) else 1) (Loc.input 11))
    ((fun (l : Loc) (_ : Int) => if l = Loc.input 12 then (0 : ℚ) else 1) (Loc.input 12))
    ((fun (l : Loc) (_ : Int) => if l = Loc.input 12 then (0 : ℚ) else 1)
      (Loc.workspace (workspaceLayout 1 1 4 1 1).q_share))
    (imul 1 1) 4 0 1 0 (by decide) (by decide) (by decide) (fun _ _ _ => by simp)
    (fun _ _ _ => by simp)
  rw [hv] at h
  refine ⟨?_, ?_, by norm_num, hv, by norm_num⟩
  · simpa [layerNormOutput, layerNormLaunch, KernelCall.exec, specKernels, Mem.write_same]
      using h.1
  · simpa [layerNormOutput, layerNormLaunch, KernelCall.exec, specKernels, Mem.write_same]
      using h.2

/-- C18 (amended): with the layer normalization as the specification describes it
(exact arithmetic, population variance, `eps` added before the reciprocal square
root `rsqrt`), the normalizer of `mha_forward` (launch 0) is applied to
`m = batch_size*seq_len0` rows of `n = d_model` elements, and for every such row,
with `gamma = g` and `beta = b` at every column, the output row has mean `b` and
population variance `g^2 * v * rsqrt(v + eps)^2`, where `v` is the population
variance of the input row; when `rsqrt(v + eps)` is the reciprocal square root of
`v + eps` this is `g^2 * v / (v + eps)` . With `g = 1` and `b = 0` the row has
mean 0 and variance `v / (v + eps)`, which is 0 for a constant row. -/
theorem C18_layer_norm_row_mean_and_variance (expf rsqrt : ℚ → ℚ) (eps : ℚ)
    (B S0 D S1 H sph : Int) (isCrossAtten : Bool) (mem : Mem Buf) (g b : ℚ) (hD : 0 < D)
    (hgamma : ∀ c : Int, 0 ≤ c → c < D → mem (Loc.input 11) c = g)
    (hbeta : ∀ c : Int, 0 ≤ c → c < D → mem (Loc.input 12) c = b)
    (r : Int) (hr0 : 0 ≤ r) (hr : r < imul B S0) :
    (mha_forward B S0 D S1 H sph isCrossAtten).2[0]? = some (layerNormLaunch B S0 D S1 H)
    ∧ rowMean (layerNormOutput expf rsqrt eps B S0 D S1 H mem) D r = b
    ∧ rowVar (layerNormOutput expf rsqrt eps B S0 D S1 H mem) D r
        = g ^ 2 * rowVar (mem (Loc.input 0)) D r
          * rsqrt (rowVar (mem (Loc.input 0)) D r + eps) ^ 2
    ∧ (rsqrt (rowVar (mem (Loc.input 0)) D r + eps) ^ 2
          * (rowVar (mem (Loc.input 0)) D r + eps) = 1 →
        rowVar (layerNormOutput expf rsqrt eps B S0 D S1 H mem) D r
          = g ^ 2 * (rowVar (mem (Loc.input 0)) D r / (rowVar (mem (Loc.input 0)) D r + eps)))
    := by
  have h := generalLayerNorm_row_moments rsqrt eps (mem (Loc.input 0)) (mem (Loc.input 11))
    (mem (Loc.input 12)) (mem (Loc.workspace (workspaceLayout B S0 D S1 H).q_share))
    (imul B S0) D r g b hD hr0 hr hgamma hbeta
  have hout : layerNormOutput expf rsqrt eps B S0 D S1 H mem
      = generalLayerNorm rsqrt eps (mem (Loc.input 0)) (mem (Loc.input 11)) (mem (Loc.input 12))
          (imul B S0) D (mem (Loc.workspace (workspaceLayout B S0 D S1 H).q_share)) := by
    simp [layerNormOutput, layerNormLaunch, KernelCall.exec, specKernels, Mem.write_same]
  rw [hout]
  refine ⟨by simp [mha_forward, layerNormLaunch], h.1, h.2, fun hrs => ?_⟩
  rw [h.2]
  have hne : rowVar (mem (Loc.input 0)) D r + eps ≠ 0 := by
    intro h0
    rw [h0, mul_zero] at hrs
    exact zero_ne_one hrs
  have hsq : rsqrt (rowVar (mem (Loc.input 0)) D r + eps) ^ 2
      = 1 / (rowVar (mem (Loc.input 0)) D r + eps) := by
    rw [eq_div_iff hne]
    exact hrs
  rw [hsq]
  ring

/-- C18 (witness): the shape `B = 1, S0 = 2, D = 4` on the sample memory: input
rows `(0, 2, 0, 2)` of variance 1, `gamma = 3`, `beta = 5`, with `eps = 3` and the
sample reciprocal square root, exact at `1 + 3 = 4` . -/
theorem C18_layer_norm_row_mean_and_variance_witness :
    (0 : Int) < 4
    ∧ (∀ c : Int, 0 ≤ c → c < 4 → sampleMem (Loc.input 11) c = 3)
    ∧ (∀ c : Int, 0 ≤ c → c < 4 → sampleMem (Loc.input 12) c = 5)
    ∧ (0 : Int) < imul 1 2
    ∧ (mha_forward 1 2 4 2 1 4 false).2[0]? = some (layerNormLaunch 1 2 4 2 1)
    ∧ rowMean (layerNormOutput sampleExpf sampleRsqrt 3 1 2 4 2 1 sampleMem) 4 0 = 5
    ∧ rowVar (layerNormOutput sampleExpf sampleRsqrt 3 1 2 4 2 1 sampleMem) 4 0
        = 3 ^ 2 * rowVar (sampleMem (Loc.input 0)) 4 0
          * sampleRsqrt (rowVar (sampleMem (Loc.input 0)) 4 0 + 3) ^ 2
    ∧ (sampleRsqrt (rowVar (sampleMem (Loc.input 0)) 4 0 + 3) ^ 2
          * (rowVar (sampleMem (Loc.input 0)) 4 0 + 3) = 1 →
        rowVar (layerNormOutput sampleExpf sampleRsqrt 3 1 2 4 2 1 sampleMem) 4 0
          = 3 ^ 2 * (rowVar (sampleMem (Loc.input 0)) 4 0
              / (rowVar (sampleMem (Loc.input 0)) 4 0 + 3))) :=
  have hg : ∀ c : Int, 0 ≤ c → c < 4 → sampleMem (Loc.input 11) c = 3 :=
    fun _ _ _ => by simp [sampleMem]
  have hb : ∀ c : Int, 0 ≤ c → c < 4 → sampleMem (Loc.input 12) c = 5 :=
    fun _ _ _ => by simp [sampleMem]
  ⟨by decide, hg, hb, by decide,
    C18_layer_norm_row_mean_and_variance sampleExpf sampleRsqrt 3 1 2 4 2 1 4 false sampleMem
      3 5 (by decide) hg hb 0 (by decide) (by decide)⟩

/-! ### Kernel arithmetic: single GEMM, head split and merge, bias and residual -/

/-- The element of a single GEMM at row `i` and column `j` (column-major). -/
theorem gemm_apply (transa transb : CublasOp) (m n k : Int) (A : Buf) (lda : Int) (B : Buf)
    (ldb : Int) (C : Buf) (ldc : Int) (i j : Int) (hi0 : 0 ≤ i) (hi : i < m) (hj0 : 0 ≤ j)
    (hj : j < n) (hld : m ≤ ldc) :
    gemm transa transb m n k A lda B ldb C ldc (i + j * ldc)
      = sumTo k (fun l => opElem transa A lda i l * opElem transb B ldb l j) := by
  have hjl : 0 ≤ j * ldc := mul_nonneg hj0 (by omega)
  have h3 : (i + j * ldc) % ldc = i := by
    rw [Int.add_mul_emod_self, Int.emod_eq_of_lt hi0 (by omega)]
  have h4 : (i + j * ldc) / ldc = j := by
    rw [Int.add_mul_ediv_right _ _ (by omega), Int.ediv_eq_zero_of_lt hi0 (by omega), zero_add]
  have h0 : 0 ≤ i + j * ldc := by omega
  simp only [gemm, gemmStridedBatched, Int.ediv_zero, Int.emod_zero, h3, h4]
  rw [if_pos ⟨h0, le_refl _, by norm_num, hi, hj⟩]
  simp only [one_mul, zero_mul, add_zero, zero_add]

theorem sumTo_eq_single (n : Int) (f : Int → ℚ) (c : Int) (hc0 : 0 ≤ c) (hc : c < n)
    (h : ∀ t : Int, 0 ≤ t → t < n → t ≠ c → f t = 0) : sumTo n f = f c := by
  unfold sumTo
  rw [Finset.sum_eq_single c.toNat]
  · rw [Int.toNat_of_nonneg hc0]
  · intro t ht hne
    have := Finset.mem_range.mp ht
    exact h t (by omega) (by omega) (by omega)
  · intro hnot
    exfalso
    apply hnot
    rw [Finset.mem_range]
    omega

/-- The entries of the identity matrix. -/
theorem identityMatrix_apply (n l c : Int) (hc0 : 0 ≤ c) (hc : c < n) :
    identityMatrix n (c + l * n) = if l = c then 1 else 0 := by
  have h3 : (c + l * n) % n = c := by
    rw [Int.add_mul_emod_self, Int.emod_eq_of_lt hc0 hc]
  have h4 : (c + l * n) / n = l := by
    rw [Int.add_mul_ediv_right _ _ (by omega), Int.ediv_eq_zero_of_lt hc0 hc, zero_add]
  simp only [identityMatrix, h3, h4]

/-- A projection by the identity weight matrix copies the activation: with the
arguments `mha_forward` passes (`m = k = lda = ldb = ldc = d_model`, `n` the number
of rows), element `c` of row `r` of the result is element `c` of row `r` of the
activation. -/
theorem gemm_identity (D rows : Int) (X C : Buf) (r c : Int) (hr0 : 0 ≤ r) (hr : r < rows)
    (hc0 : 0 ≤ c) (hc : c < D) :
    gemm .CUBLAS_OP_N .CUBLAS_OP_N D rows D (identityMatrix D) D X D C D (r * D + c)
      = X (r * D + c) := by
  have hidx : r * D + c = c + r * D := by ring
  rw [hidx, gemm_apply _ _ _ _ _ _ _ _ _ _ _ c r hc0 hc hr0 hr (le_refl _)]
  simp only [opElem]
  rw [sumTo_eq_single D _ c hc0 hc]
  · rw [identityMatrix_apply D c c hc0 hc, if_pos rfl, one_mul]
  · intro t _ _ hne
    rw [identityMatrix_apply D t c hc0 hc, if_neg hne, zero_mul]

/-- The offset of element `(b, h, s, d)` in the per-head layout decodes to its four
indices. -/
theorem decode4 (b x y d X Y w : Int) (hx0 : 0 ≤ x) (hx : x < X) (hy0 : 0 ≤ y) (hy : y < Y)
    (hd0 : 0 ≤ d) (hd : d < w) :
    (((b * X + x) * Y + y) * w + d) % w = d
    ∧ (((b * X + x) * Y + y) * w + d) / w % Y = y
    ∧ (((b * X + x) * Y + y) * w + d) / w / Y % X = x
    ∧ (((b * X + x) * Y + y) * w + d) / w / Y / X = b := by
  obtain ⟨h1, h2⟩ := decode_batch ((b * X + x) * Y + y) d w hd0 hd
  obtain ⟨h3, h4⟩ := decode_batch (b * X + x) y Y hy0 hy
  obtain ⟨h5, h6⟩ := decode_batch b x X hx0 hx
  rw [h1, h2, h3, h4, h5, h6]
  exact ⟨rfl, rfl, rfl, rfl⟩

/-- The value of the head split at head `h`, position `s`, element `d` of batch
entry `b` . -/
theorem addQKVBiasTranspose_apply (src bias dst : Buf) (B S H sph b h s d : Int)
    (hb0 : 0 ≤ b) (hb : b < B) (hh0 : 0 ≤ h) (hh : h < H) (hs0 : 0 ≤ s) (hs : s < S)
    (hd0 : 0 ≤ d) (hd : d < sph) :
    addQKVBiasTranspose src bias B S H sph dst (((b * H + h) * S + s) * sph + d)
      = src (((b * S + s) * H + h) * sph + d) + bias (h * sph + d) := by
  obtain ⟨h1, h2, h3, h4⟩ := decode4 b h s d H S sph hh0 hh hs0 hs hd0 hd
  have h0 : 0 ≤ ((b * H + h) * S + s) * sph + d := by
    have hH : 0 < H := by omega
    have hS : 0 < S := by omega
    have hw : 0 < sph := by omega
    have : 0 ≤ ((b * H + h) * S + s) * sph := by positivity
    omega
  simp only [addQKVBiasTranspose, h1, h2, h3, h4]
  rw [if_pos ⟨h0, hb0, hb⟩]

/-- The value of the head merge at position `s`, head `h`, element `d` of batch
entry `b` . -/
theorem transposeQKV_apply (src dst : Buf) (B S H sph b h s d : Int)
    (hb0 : 0 ≤ b) (hb : b < B) (hh0 : 0 ≤ h) (hh : h < H) (hs0 : 0 ≤ s) (hs : s < S)
    (hd0 : 0 ≤ d) (hd : d < sph) :
    transposeQKV src B S H sph dst (((b * S + s) * H + h) * sph + d)
      = src (((b * H + h) * S + s) * sph + d) := by
  obtain ⟨h1, h2, h3, h4⟩ := decode4 b s h d S H sph hs0 hs hh0 hh hd0 hd
  have h0 : 0 ≤ ((b * S + s) * H + h) * sph + d := by
    have hH : 0 < H := by omega
    have hS : 0 < S := by omega
    have hw : 0 < sph := by omega
    have : 0 ≤ ((b * S + s) * H + h) * sph := by positivity
    omega
  simp only [transposeQKV, h1, h2, h3, h4]
  rw [if_pos ⟨h0, hb0, hb⟩]

/-- The value of the bias-residual step at column `c` of row `r` . -/
theorem addBiasResidual_apply (output input bias : Buf) (m n r c : Int) (hr0 : 0 ≤ r)
    (hr : r < m) (hc0 : 0 ≤ c) (hc : c < n) :
    addBiasResidual output input bias m n (r * n + c)
      = output (r * n + c) + bias c + input (r * n + c) := by
  obtain ⟨h1, h2⟩ := decode_batch r c n hc0 hc
  have h0 : 0 ≤ r * n + c := by
    have : 0 ≤ r * n := mul_nonneg hr0 (by omega)
    omega
  simp only [addBiasResidual, h1, h2]
  rw [if_pos ⟨h0, hr0, hr⟩]

/-! ### The end-to-end scenario (C16) -/

theorem scenario_layout :
    workspaceLayout 1 2 4 2 1 = ⟨0, 8, 16, 20, 28, 36, 44, 52, 60⟩ := by decide

theorem scenario_trace :
    (mha_forward 1 2 4 2 1 4 false).2
      = [ KernelCall.invokeGeneralLayerNorm (Loc.workspace 8) (Loc.input 0) (Loc.input 11)
            (Loc.input 12) 2 4 0,
          KernelCall.Gemm .CUBLAS_OP_N .CUBLAS_OP_N 4 2 4 (Loc.input 3) 4 (Loc.workspace 8) 4
            (Loc.workspace 0) 4,
          KernelCall.Gemm .CUBLAS_OP_N .CUBLAS_OP_N 4 2 4 (Loc.input 5) 4 (Loc.workspace 8) 4
            (Loc.workspace 28) 4,
          KernelCall.Gemm .CUBLAS_OP_N .CUBLAS_OP_N 4 2 4 (Loc.input 7) 4 (Loc.workspace 8) 4
            (Loc.workspace 44) 4,
          KernelCall.invokeAddQKVBiasTranspose (Loc.workspace 8) .null .null (Loc.workspace 0)
            (Loc.input 4) .null .null .null .null 1 2 1 4,
          KernelCall.invokeAddQKVBiasTranspose (Loc.workspace 36) .null .null (Loc.workspace 28)
            (Loc.input 6) .null .null .null .null 1 2 1 4,
          KernelCall.invokeAddQKVBiasTranspose (Loc.workspace 52) .null .null (Loc.workspace 44)
            (Loc.input 8) .null .null .null .null 1 2 1 4,
          KernelCall.stridedBatchedGemm .CUBLAS_OP_T .CUBLAS_OP_N 2 2 4 (Loc.workspace 36) 4 8
            (Loc.workspace 8) 4 8 (Loc.workspace 16) 2 4 1 1 0,
          KernelCall.invokeMaskedSoftMax (Loc.workspace 16) (Loc.workspace 16) (Loc.input 2)
            1 2 2 1 (ScalarExpr.oneOverSqrtf 4),
          KernelCall.stridedBatchedGemm .CUBLAS_OP_N .CUBLAS_OP_N 4 2 2 (Loc.workspace 52) 4 8
            (Loc.workspace 16) 2 4 (Loc.workspace 0) 4 8 1 1 0,
          KernelCall.invokeTransposeQKV (Loc.workspace 20) (Loc.workspace 0) 1 2 1 4,
          KernelCall.Gemm .CUBLAS_OP_N .CUBLAS_OP_N 4 2 4 (Loc.input 9) 4 (Loc.workspace 20) 4
            (Loc.output 0) 4,
          KernelCall.invokeAddBiasResidual (Loc.output 0) (Loc.input 0) (Loc.input 10) 2 4 ] := by
  decide

/-- The launches of the scenario one after the other: which buffers each stage
reads and which it writes. -/
theorem scenario_stages (expf rsqrt : ℚ → ℚ) (eps : ℚ) (X : Buf) (init : Mem Buf) :
    scenarioStage expf rsqrt eps X init 1 (Loc.workspace 8)
      = generalLayerNorm rsqrt eps X (fun _ => 1) (fun _ => 0) 2 4 (init (Loc.workspace 8))
    ∧ scenarioStage expf rsqrt eps X init 2 (Loc.workspace 0)
      = gemm .CUBLAS_OP_N .CUBLAS_OP_N 4 2 4 (identityMatrix 4) 4
          (scenarioStage expf rsqrt eps X init 1 (Loc.workspace 8)) 4 (init (Loc.workspace 0)) 4
    ∧ scenarioStage expf rsqrt eps X init 3 (Loc.workspace 28)
      = gemm .CUBLAS_OP_N .CUBLAS_OP_N 4 2 4 (identityMatrix 4) 4
          (scenarioStage expf rsqrt eps X init 1 (Loc.workspace 8)) 4 (init (Loc.workspace 28)) 4
    ∧ scenarioStage expf rsqrt eps X init 4 (Loc.workspace 44)
      = gemm .CUBLAS_OP_N .CUBLAS_OP_N 4 2 4 (identityMatrix 4) 4
          (scenarioStage expf rsqrt eps X init 1 (Loc.workspace 8)) 4 (init (Loc.workspace 44)) 4
    ∧ scenarioStage expf rsqrt eps X init 5 (Loc.workspace 8)
      = addQKVBiasTranspose (scenarioStage expf rsqrt eps X init 2 (Loc.workspace 0))
          (fun _ => 0) 1 2 1 4 (scenarioStage expf rsqrt eps X init 1 (Loc.workspace 8))
    ∧ scenarioStage expf rsqrt eps X init 6 (Loc.workspace 36)
      = addQKVBiasTranspose (scenarioStage expf rsqrt eps X init 3 (Loc.workspace 28))
          (fun _ => 0) 1 2 1 4 (init (Loc.workspace 36))
    ∧ scenarioStage expf rsqrt eps X init 7 (Loc.workspace 52)
      = addQKVBiasTranspose (scenarioStage expf rsqrt eps X init 4 (Loc.workspace 44))
          (fun _ => 0) 1 2 1 4 (init (Loc.workspace 52))
    ∧ scenarioStage expf rsqrt eps X init 8 (Loc.workspace 16)
      = gemmStridedBatched .CUBLAS_OP_T .CUBLAS_OP_N 2 2 4 1
          (scenarioStage expf rsqrt eps X init 6 (Loc.workspace 36)) 4 8
          (scenarioStage expf rsqrt eps X init 5 (Loc.workspace 8)) 4 8 0
          (init (Loc.workspace 16)) 2 4 1
    ∧ scenarioStage expf rsqrt eps X init 9 (Loc.workspace 16)
      = maskedSoftMax expf (scenarioStage expf rsqrt eps X init 8 (Loc.workspace 16))
          (fun _ => 0) 1 2 2 1 (rsqrt 4)
          (scenarioStage expf rsqrt eps X init 8 (Loc.workspace 16))
    ∧ scenarioStage expf rsqrt eps X init 10 (Loc.workspace 0)
      = gemmStridedBatched .CUBLAS_OP_N .CUBLAS_OP_N 4 2 2 1
          (scenarioStage expf rsqrt eps X init 7 (Loc.workspace 52)) 4 8
          (scenarioStage expf rsqrt eps X init 9 (Loc.workspace 16)) 2 4 0
          (scenarioStage expf rsqrt eps X init 2 (Loc.workspace 0)) 4 8 1
    ∧ scenarioStage expf rsqrt eps X init 11 (Loc.workspace 20)
      = transposeQKV (scenarioStage expf rsqrt eps X init 10 (Loc.workspace 0)) 1 2 1 4
          (init (Loc.workspace 20))
    ∧ scenarioStage expf rsqrt eps X init 12 (Loc.output 0)
      = gemm .CUBLAS_OP_N .CUBLAS_OP_N 4 2 4 (identityMatrix 4) 4
          (scenarioStage expf rsqrt eps X init 11 (Loc.workspace 20)) 4 (init (Loc.output 0)) 4
    ∧ scenarioStage expf rsqrt eps X init 13 (Loc.output 0)
      = addBiasResidual (scenarioStage expf rsqrt eps X init 12 (Loc.output 0)) X
          (fun _ => 0) 2 4 := by
  unfold scenarioStage
  simp only [scenario_trace]
  exact ⟨rfl, rfl, rfl, rfl, rfl, rfl, rfl, rfl, rfl, rfl, rfl, rfl, rfl⟩

/-- In the scenario the normalizer output, the three projections and the three
head splits all hold the per-row standardized input. -/
theorem scenario_standardized (expf rsqrt : ℚ → ℚ) (eps : ℚ) (X : Buf) (init : Mem Buf)
    (r c : Int) (hr0 : 0 ≤ r) (hr : r < 2) (hc0 : 0 ≤ c) (hc : c < 4) :
    scenarioStage expf rsqrt eps X init 1 (Loc.workspace 8) (r * 4 + c)
        = standardized rsqrt eps X 4 r c
    ∧ scenarioStage expf rsqrt eps X init 5 (Loc.workspace 8) (r * 4 + c)
        = standardized rsqrt eps X 4 r c
    ∧ scenarioStage expf rsqrt eps X init 6 (Loc.workspace 36) (r * 4 + c)
        = standardized rsqrt eps X 4 r c
    ∧ scenarioStage expf rsqrt eps X init 7 (Loc.workspace 52) (r * 4 + c)
        = standardized rsqrt eps X 4 r c := by
  obtain ⟨e1, e2, e3, e4, e5, e6, e7, -⟩ := scenario_stages expf rsqrt eps X init
  have h1 : scenarioStage expf rsqrt eps X init 1 (Loc.workspace 8) (r * 4 + c)
      = standardized rsqrt eps X 4 r c := by
    rw [e1, generalLayerNorm_apply rsqrt eps X _ _ _ 2 4 r c hr0 hr hc0 hc]
    simp only [standardized, one_mul, add_zero]
  have hsplit : ∀ (src dst : Buf), src (r * 4 + c) = standardized rsqrt eps X 4 r c →
      addQKVBiasTranspose src (fun _ => 0) 1 2 1 4 dst (r * 4 + c)
        = standardized rsqrt eps X 4 r c := by
    intro src dst hsrc
    have hidx : r * 4 + c = ((0 * 1 + 0) * 2 + r) * 4 + c := by ring
    have hidx' : ((0 * 2 + r) * 1 + 0) * 4 + c = r * 4 + c := by ring
    rw [hidx, addQKVBiasTranspose_apply src _ dst 1 2 1 4 0 0 r c (le_refl _) (by norm_num)
      (le_refl _) (by norm_num) hr0 hr hc0 hc, hidx', hsrc, add_zero]
  have hproj : ∀ (old : Buf),
      gemm .CUBLAS_OP_N .CUBLAS_OP_N 4 2 4 (identityMatrix 4) 4
          (scenarioStage expf rsqrt eps X init 1 (Loc.workspace 8)) 4 old 4 (r * 4 + c)
        = standardized rsqrt eps X 4 r c := by
    intro old
    rw [gemm_identity 4 2 _ old r c hr0 hr hc0 hc, h1]
  refine ⟨h1, ?_, ?_, ?_⟩
  · rw [e5]; exact hsplit _ _ (by rw [e2]; exact hproj _)
  · rw [e6]; exact hsplit _ _ (by rw [e3]; exact hproj _)
  · rw [e7]; exact hsplit _ _ (by rw [e4]; exact hproj _)

/-- In the scenario the score GEMM leaves `Q * K^T` of the standardized input. -/
theorem scenario_scores (expf rsqrt : ℚ → ℚ) (eps : ℚ) (X : Buf) (init : Mem Buf)
    (i j : Int) (hi0 : 0 ≤ i) (hi : i < 2) (hj0 : 0 ≤ j) (hj : j < 2) :
    scenarioStage expf rsqrt eps X init 8 (Loc.workspace 16) (i * 2 + j)
      = sumTo 4 (fun d => standardized rsqrt eps X 4 i d * standardized rsqrt eps X 4 j d) := by
  obtain ⟨-, -, -, -, -, -, -, e8, -⟩ := scenario_stages expf rsqrt eps X init
  have hidx : i * 2 + j = 0 * 4 + (j + i * 2) := by ring
  rw [e8, hidx, gemmStridedBatched_apply _ _ _ _ _ _ _ _ _ _ _ _ _ _ _ _ _ 0 j i (le_refl _)
    (by norm_num) hj0 hj hi0 hi (le_refl _) (by norm_num)]
  simp only [one_mul, zero_mul, add_zero, opElem, zero_add]
  refine sumTo_congr _ _ _ (fun d hd0 hd => ?_)
  have hq := (scenario_standardized expf rsqrt eps X init i d hi0 hi hd0 hd).2.1
  have hk := (scenario_standardized expf rsqrt eps X init j d hj0 hj hd0 hd).2.2.1
  have e1 : d + j * 4 = j * 4 + d := by ring
  have e2 : d + i * 4 = i * 4 + d := by ring
  rw [e1, e2, hq, hk, mul_comm]

theorem sumTo_two (f : Int → ℚ) : sumTo 2 f = f 0 + f 1 := by
  simp [sumTo, Finset.sum_range_succ]

/-- In the scenario the context GEMM leaves `P * V`, the head merge and the output
projection copy it, and the bias-residual step adds the original input. -/
theorem scenario_context_and_output (expf rsqrt : ℚ → ℚ) (eps : ℚ) (X : Buf) (init : Mem Buf)
    (i d : Int) (hi0 : 0 ≤ i) (hi : i < 2) (hd0 : 0 ≤ d) (hd : d < 4) :
    scenarioStage expf rsqrt eps X init 10 (Loc.workspace 0) (i * 4 + d)
        = sumTo 2 (fun j =>
            scenarioStage expf rsqrt eps X init 9 (Loc.workspace 16) (i * 2 + j)
              * standardized rsqrt eps X 4 j d)
    ∧ scenarioStage expf rsqrt eps X init 13 (Loc.output 0) (i * 4 + d)
        = scenarioStage expf rsqrt eps X init 10 (Loc.workspace 0) (i * 4 + d)
          + X (i * 4 + d) := by
  obtain ⟨-, -, -, -, -, -, -, -, -, e10, e11, e12, e13⟩ :=
    scenario_stages expf rsqrt eps X init
  constructor
  · have hidx : i * 4 + d = 0 * 8 + (d + i * 4) := by ring
    rw [e10, hidx, gemmStridedBatched_apply _ _ _ _ _ _ _ _ _ _ _ _ _ _ _ _ _ 0 d i (le_refl _)
      (by norm_num) hd0 hd hi0 hi (le_refl _) (by norm_num)]
    simp only [one_mul, zero_mul, add_zero, opElem, zero_add]
    refine sumTo_congr _ _ _ (fun j hj0 hj => ?_)
    have hv := (scenario_standardized expf rsqrt eps X init j d hj0 hj hd0 hd).2.2.2
    have e1 : d + j * 4 = j * 4 + d := by ring
    have e2 : j + i * 2 = i * 2 + j := by ring
    rw [e1, e2, hv, mul_comm]
  · have hmerge : scenarioStage expf rsqrt eps X init 11 (Loc.workspace 20) (i * 4 + d)
        = scenarioStage expf rsqrt eps X init 10 (Loc.workspace 0) (i * 4 + d) := by
      have hidx : i * 4 + d = ((0 * 2 + i) * 1 + 0) * 4 + d := by ring
      have hidx' : ((0 * 1 + 0) * 2 + i) * 4 + d = i * 4 + d := by ring
      rw [e11]
      conv_lhs => rw [hidx]
      rw [transposeQKV_apply _ _ 1 2 1 4 0 0 i d (le_refl _) (by norm_num) (le_refl _)
        (by norm_num) hi0 hi hd0 hd, hidx']
    rw [e13, addBiasResidual_apply _ _ _ 2 4 i d hi0 hi hd0 hd, e12,
      gemm_identity 4 2 _ _ i d hi0 hi hd0 hd, hmerge, add_zero]

/-- C16 (counterexample): on the descriptors of the scenario (`batch = 1`,
`seq_q = seq_kv = 2`, `hidden = 4`, float), `enqueue` returns 0 after calling
`mha_forward<float>` with `head_num = 4` and `size_per_head = 64`, not with one
head of dimension 4: the batched GEMMs run over `1*4 = 4` batches and the scalar
handed to the masked softmax is `1/sqrtf(64)`, which is `1/8` and not the `1/2`
of the scenario. -/
theorem C16_enqueue_runs_scenario_with_four_heads_of_64 :
    MHAPlugin.enqueue ⟨"mha", "", false, -1, []⟩ (inputDesc13 .kFLOAT 1 2 2 4)
        [⟨⟨3, [1, 2, 4]⟩, .kFLOAT, .kLINEAR, 0⟩]
      = some (0, [HostCall.cudaStreamSynchronize, HostCall.cublasSetStream, HostCall.setStream,
          HostCall.setFP32GemmConfig, HostCall.mha_forward .kFLOAT 1 2 4 2 4 64 false "mha"])
    ∧ (HostCall.mha_forward .kFLOAT 1 2 4 2 4 64 false "mha").launches[8]?
        = some (KernelCall.invokeMaskedSoftMax (Loc.workspace 16) (Loc.workspace 16)
            (Loc.input 2) 1 2 2 4 (ScalarExpr.oneOverSqrtf 64))
    ∧ (HostCall.mha_forward .kFLOAT 1 2 4 2 4 64 false "mha").launches[7]?
        = some (KernelCall.stridedBatchedGemm .CUBLAS_OP_T .CUBLAS_OP_N 2 2 64
            (Loc.workspace 48) 64 128 (Loc.workspace 8) 64 128 (Loc.workspace 16) 2 4 4 1 0)
    ∧ (ScalarExpr.oneOverSqrtf 64).value (fun y => if y = 64 then 1 / 8 else 1 / 2) = 1 / 8
    ∧ (1 / 8 : ℚ) ≠ 1 / 2 := by
  refine ⟨by decide, by decide, by decide, ?_, by norm_num⟩
  simp [ScalarExpr.value]

/-- C16 (amended): the scenario cannot be run through `enqueue`, which always
passes `head_num = 4` and `size_per_head = 64` ; run through `mha_forward` with
`head_num = 1` and `size_per_head = 4`, with the kernel arithmetic of the
specification, an exponential with `expf 0 = 1` and no negative value, and
`1/sqrt(4) = 1/2`, it computes: the normalizer output is the per-row
standardized input `N` ; the score GEMM leaves `N * N^T` and the masked softmax
exponentiates `N * N^T / 2` ; the softmax output `P` is a 2 by 2 matrix with
entries between 0 and 1 whose rows sum to 1; the context is `P * N` and the final
output is the context plus the original input. -/
theorem C16_scenario_through_mha_forward (expf rsqrt : ℚ → ℚ) (eps : ℚ)
    (hexp0 : expf 0 = 1) (hexp : ∀ x, 0 ≤ expf x) (hrs : rsqrt 4 = 1 / 2)
    (X : Buf) (init : Mem Buf) :
    (∀ l : Loc, scenarioStage expf rsqrt eps X init 13 l
        = runKernels (specKernels expf rsqrt eps) (mha_forward 1 2 4 2 1 4 false).2
            (scenarioMem X init) l)
    ∧ (∀ r c : Int, 0 ≤ r → r < 2 → 0 ≤ c → c < 4 →
        scenarioStage expf rsqrt eps X init 1 (Loc.workspace 8) (r * 4 + c)
          = standardized rsqrt eps X 4 r c)
    ∧ (∀ i j : Int, 0 ≤ i → i < 2 → 0 ≤ j → j < 2 →
        scenarioStage expf rsqrt eps X init 8 (Loc.workspace 16) (i * 2 + j)
          = sumTo 4 (fun d => standardized rsqrt eps X 4 i d * standardized rsqrt eps X 4 j d)
        ∧ maskedLogit (scenarioStage expf rsqrt eps X init 8 (Loc.workspace 16))
            (scenarioMem X init (Loc.input 2)) 2 2 1
            ((ScalarExpr.oneOverSqrtf 4).value rsqrt) i j
          = sumTo 4 (fun d => standardized rsqrt eps X 4 i d * standardized rsqrt eps X 4 j d)
            / 2
        ∧ scenarioStage expf rsqrt eps X init 9 (Loc.workspace 16) (i * 2 + j)
          = expf (maskedLogit (scenarioStage expf rsqrt eps X init 8 (Loc.workspace 16))
                (scenarioMem X init (Loc.input 2)) 2 2 1
                ((ScalarExpr.oneOverSqrtf 4).value rsqrt) i j
              - rowMax 2 (maskedLogit (scenarioStage expf rsqrt eps X init 8 (Loc.workspace 16))
                  (scenarioMem X init (Loc.input 2)) 2 2 1
                  ((ScalarExpr.oneOverSqrtf 4).value rsqrt) i))
            / sumTo 2 (fun j' =>
                expf (maskedLogit (scenarioStage expf rsqrt eps X init 8 (Loc.workspace 16))
                    (scenarioMem X init (Loc.input 2)) 2 2 1
                    ((ScalarExpr.oneOverSqrtf 4).value rsqrt) i j'
                  - rowMax 2
                      (maskedLogit (scenarioStage expf rsqrt eps X init 8 (Loc.workspace 16))
                        (scenarioMem X init (Loc.input 2)) 2 2 1
                        ((ScalarExpr.oneOverSqrtf 4).value rsqrt) i)))
        ∧ 0 ≤ scenarioStage expf rsqrt eps X init 9 (Loc.workspace 16) (i * 2 + j)
        ∧ scenarioStage expf rsqrt eps X init 9 (Loc.workspace 16) (i * 2 + j) ≤ 1)
    ∧ (∀ i : Int, 0 ≤ i → i < 2 →
        scenarioStage expf rsqrt eps X init 9 (Loc.workspace 16) (i * 2 + 0)
          + scenarioStage expf rsqrt eps X init 9 (Loc.workspace 16) (i * 2 + 1) = 1)
    ∧ (∀ i d : Int, 0 ≤ i → i < 2 → 0 ≤ d → d < 4 →
        scenarioStage expf rsqrt eps X init 10 (Loc.workspace 0) (i * 4 + d)
          = sumTo 2 (fun j =>
              scenarioStage expf rsqrt eps X init 9 (Loc.workspace 16) (i * 2 + j)
                * standardized rsqrt eps X 4 j d)
        ∧ scenarioStage expf rsqrt eps X init 13 (Loc.output 0) (i * 4 + d)
          = scenarioStage expf rsqrt eps X init 10 (Loc.workspace 0) (i * 4 + d)
            + X (i * 4 + d)) := by
  obtain ⟨-, -, -, -, -, -, -, -, e9, -⟩ := scenario_stages expf rsqrt eps X init
  have hmask : scenarioMem X init (Loc.input 2) = fun _ => 0 := rfl
  have hscalar : (ScalarExpr.oneOverSqrtf 4).value rsqrt = rsqrt 4 := by
    simp [ScalarExpr.value]
  have hdist := fun (i : Int) (hi0 : 0 ≤ i) (hi : i < 2) =>
    maskedSoftMax_row_distribution expf hexp0 hexp
      (scenarioStage expf rsqrt eps X init 8 (Loc.workspace 16)) (fun _ => 0)
      (scenarioStage expf rsqrt eps X init 8 (Loc.workspace 16)) 1 2 2 1 (rsqrt 4)
      (by norm_num) i hi0 (by omega)
  refine ⟨fun l => rfl, ?_, ?_, ?_, ?_⟩
  · intro r c hr0 hr hc0 hc
    exact (scenario_standardized expf rsqrt eps X init r c hr0 hr hc0 hc).1
  · intro i j hi0 hi hj0 hj
    have hsc := scenario_scores expf rsqrt eps X init i j hi0 hi hj0 hj
    refine ⟨hsc, ?_, ?_, ?_, ?_⟩
    · rw [hmask, hscalar, hrs]
      simp only [maskedLogit, hsc, add_zero]
      ring
    · rw [hmask, hscalar, e9]
      exact maskedSoftMax_apply expf _ _ _ 1 2 2 1 (rsqrt 4) i j hi0 (by omega) hj0 hj
    · rw [e9]; exact ((hdist i hi0 hi).1 j hj0 hj).1
    · rw [e9]; exact ((hdist i hi0 hi).1 j hj0 hj).2
  · intro i hi0 hi
    have h := (hdist i hi0 hi).2
    rw [sumTo_two] at h
    rw [e9]
    simpa using h
  · intro i d hi0 hi hd0 hd
    exact scenario_context_and_output expf rsqrt eps X init i d hi0 hi hd0 hd

/-- C16 (witness): the sample exponential and reciprocal square root, `eps = 0`,
the input `X[t] = t` and a workspace that is 0 at the start. -/
theorem C16_scenario_through_mha_forward_witness :
    sampleExpf 0 = 1 ∧ (∀ x, 0 ≤ sampleExpf x) ∧ sampleRsqrt 4 = 1 / 2
    ∧ (∀ i : Int, 0 ≤ i → i < 2 →
        scenarioStage sampleExpf sampleRsqrt 0 (fun t => (t : ℚ)) (fun _ _ => 0) 9
            (Loc.workspace 16) (i * 2 + 0)
          + scenarioStage sampleExpf sampleRsqrt 0 (fun t => (t : ℚ)) (fun _ _ => 0) 9
            (Loc.workspace 16) (i * 2 + 1) = 1)
    ∧ (∀ i d : Int, 0 ≤ i → i < 2 → 0 ≤ d → d < 4 →
        scenarioStage sampleExpf sampleRsqrt 0 (fun t => (t : ℚ)) (fun _ _ => 0) 10
            (Loc.workspace 0) (i * 4 + d)
          = sumTo 2 (fun j =>
              scenarioStage sampleExpf sampleRsqrt 0 (fun t => (t : ℚ)) (fun _ _ => 0) 9
                  (Loc.workspace 16) (i * 2 + j)
                * standardized sampleRsqrt 0 (fun t => (t : ℚ)) 4 j d)
        ∧ scenarioStage sampleExpf sampleRsqrt 0 (fun t => (t : ℚ)) (fun _ _ => 0) 13
            (Loc.output 0) (i * 4 + d)
          = scenarioStage sampleExpf sampleRsqrt 0 (fun t => (t : ℚ)) (fun _ _ => 0) 10
              (Loc.workspace 0) (i * 4 + d)
            + (fun t : Int => (t : ℚ)) (i * 4 + d)) :=
  have h0 : sampleExpf 0 = 1 := by simp [sampleExpf]
  have hpos : ∀ x, 0 ≤ sampleExpf x := fun x => by
    unfold sampleExpf; split_ifs <;> norm_num
  have hrs : sampleRsqrt 4 = 1 / 2 := by simp [sampleRsqrt]
  have h := C16_scenario_through_mha_forward sampleExpf sampleRsqrt 0 h0 hpos hrs
    (fun t => (t : ℚ)) (fun _ _ => 0)
  ⟨h0, hpos, hrs, h.2.2.2.1, h.2.2.2.2⟩

/-! ### The projections (C21) -/

/-- C21: under the cuBLAS column-major semantics, each of the three projection
calls of `mha_forward` (launches 1, 2 and 3: `Gemm(OP_N, OP_N, m = d_model,
n = rows, k = d_model, A = W, lda = d_model, B = X, ldb = d_model, C, ldc =
d_model)`) leaves in its destination the row-major product `Y = X * W` :
`Y[r][c] = sum over t < d_model of X[r][t] * W[t][c]`, with no bias term. `rows`
is the `int` product `batch_size*seq_len0` for the query projection (weight
`inputs[3]`, source `q_share`, destination `q_buf`) and `batch_size*seq_len1` for
the key and value projections (weights `inputs[5]` and `inputs[7]`, destinations
`k_buf` and `v_buf`), and the key and the value projection read the same source
pointer: `q_share` in self-attention, `inputs[1]` in cross-attention. -/
theorem C21_projection_gemm_is_X_times_W (expf rsqrt : ℚ → ℚ) (eps : ℚ)
    (B S0 D S1 H sph : Int) (isCrossAtten : Bool) (mem : Mem Buf) (r r1 c : Int)
    (hr0 : 0 ≤ r) (hr : r < imul B S0) (hr10 : 0 ≤ r1) (hr1 : r1 < imul B S1)
    (hc0 : 0 ≤ c) (hc : c < D) :
    (mha_forward B S0 D S1 H sph isCrossAtten).2[1]?
      = some (KernelCall.Gemm .CUBLAS_OP_N .CUBLAS_OP_N D (imul B S0) D (Loc.input 3) D
          (Loc.workspace (workspaceLayout B S0 D S1 H).q_share) D
          (Loc.workspace (workspaceLayout B S0 D S1 H).q_buf) D)
    ∧ (mha_forward B S0 D S1 H sph isCrossAtten).2[2]?
      = some (KernelCall.Gemm .CUBLAS_OP_N .CUBLAS_OP_N D (imul B S1) D (Loc.input 5) D
          (if isCrossAtten then Loc.input 1
            else Loc.workspace (workspaceLayout B S0 D S1 H).q_share) D
          (Loc.workspace (workspaceLayout B S0 D S1 H).k_buf) D)
    ∧ (mha_forward B S0 D S1 H sph isCrossAtten).2[3]?
      = some (KernelCall.Gemm .CUBLAS_OP_N .CUBLAS_OP_N D (imul B S1) D (Loc.input 7) D
          (if isCrossAtten then Loc.input 1
            else Loc.workspace (workspaceLayout B S0 D S1 H).q_share) D
          (Loc.workspace (workspaceLayout B S0 D S1 H).v_buf) D)
    ∧ ((KernelCall.Gemm .CUBLAS_OP_N .CUBLAS_OP_N D (imul B S0) D (Loc.input 3) D
          (Loc.workspace (workspaceLayout B S0 D S1 H).q_share) D
          (Loc.workspace (workspaceLayout B S0 D S1 H).q_buf) D).exec
        (specKernels expf rsqrt eps) mem)
        (Loc.workspace (workspaceLayout B S0 D S1 H).q_buf) (r * D + c)
      = sumTo D (fun t =>
          mem (Loc.workspace (workspaceLayout B S0 D S1 H).q_share) (r * D + t)
          * mem (Loc.input 3) (t * D + c))
    ∧ ((KernelCall.Gemm .CUBLAS_OP_N .CUBLAS_OP_N D (imul B S1) D (Loc.input 5) D
          (if isCrossAtten then Loc.input 1
            else Loc.workspace (workspaceLayout B S0 D S1 H).q_share) D
          (Loc.workspace (workspaceLayout B S0 D S1 H).k_buf) D).exec
        (specKernels expf rsqrt eps) mem)
        (Loc.workspace (workspaceLayout B S0 D S1 H).k_buf) (r1 * D + c)
      = sumTo D (fun t =>
          mem (if isCrossAtten then Loc.input 1
            else Loc.workspace (workspaceLayout B S0 D S1 H).q_share) (r1 * D + t)
          * mem (Loc.input 5) (t * D + c))
    ∧ ((KernelCall.Gemm .CUBLAS_OP_N .CUBLAS_OP_N D (imul B S1) D (Loc.input 7) D
          (if isCrossAtten then Loc.input 1
            else Loc.workspace (workspaceLayout B S0 D S1 H).q_share) D
          (Loc.workspace (workspaceLayout B S0 D S1 H).v_buf) D).exec
        (specKernels expf rsqrt eps) mem)
        (Loc.workspace (workspaceLayout B S0 D S1 H).v_buf) (r1 * D + c)
      = sumTo D (fun t =>
          mem (if isCrossAtten then Loc.input 1
            else Loc.workspace (workspaceLayout B S0 D S1 H).q_share) (r1 * D + t)
          * mem (Loc.input 7) (t * D + c)) := by
  have key : ∀ (rows : Int) (W X C : Loc) (j : Int), 0 ≤ j → j < rows →
      ((KernelCall.Gemm .CUBLAS_OP_N .CUBLAS_OP_N D rows D W D X D C D).exec
        (specKernels expf rsqrt eps) mem) C (j * D + c)
      = sumTo D (fun t => mem X (j * D + t) * mem W (t * D + c)) := by
    intro rows W X C j hj0 hj
    simp only [KernelCall.exec, specKernels, Mem.write_same]
    have hidx : j * D + c = c + j * D := by ring
    rw [hidx, gemm_apply _ _ _ _ _ _ _ _ _ _ _ c j hc0 hc hj0 hj (le_refl _)]
    simp only [opElem]
    refine sumTo_congr _ _ _ (fun t _ _ => ?_)
    rw [mul_comm]
    congr 2 <;> ring
  refine ⟨?_, ?_, ?_, key _ _ _ _ r hr0 hr, key _ _ _ _ r1 hr10 hr1, key _ _ _ _ r1 hr10 hr1⟩
  · simp [mha_forward]
  · cases isCrossAtten <;> simp [mha_forward]
  · cases isCrossAtten <;> simp [mha_forward]

/-- C21 (witness): the cross-attention shape `B = 2, S0 = 3, S1 = 5, D = 256`, row 5
of the query (of 6) and row 9 of the key/value source (of 10), column 255, on a
memory holding `offset + 1` at every offset of every buffer. -/
theorem C21_projection_gemm_is_X_times_W_witness :
    (0 : Int) ≤ 5 ∧ (5 : Int) < imul 2 3 ∧ (9 : Int) < imul 2 5 ∧ (255 : Int) < 256
    ∧ ((KernelCall.Gemm .CUBLAS_OP_N .CUBLAS_OP_N 256 (imul 2 5) 256 (Loc.input 5) 256
          (if true = true then Loc.input 1
            else Loc.workspace (workspaceLayout 2 3 256 5 4).q_share) 256
          (Loc.workspace (workspaceLayout 2 3 256 5 4).k_buf) 256).exec
        (specKernels (fun _ => 1) (fun _ => 1) 0) (fun _ t => (t : ℚ) + 1))
        (Loc.workspace (workspaceLayout 2 3 256 5 4).k_buf) (9 * 256 + 255)
      = sumTo 256 (fun t =>
          (fun (_ : Loc) (t : Int) => (t : ℚ) + 1) (if true = true then Loc.input 1
            else Loc.workspace (workspaceLayout 2 3 256 5 4).q_share) (9 * 256 + t)
          * (fun (_ : Loc) (t : Int) => (t : ℚ) + 1) (Loc.input 5) (t * 256 + 255)) :=
  ⟨by decide, by decide, by decide, by decide,
    (C21_projection_gemm_is_X_times_W (fun _ => 1) (fun _ => 1) 0 2 3 256 5 4 64 true
      (fun _ t => (t : ℚ) + 1) 5 9 255 (by decide) (by decide) (by decide) (by decide)
      (by decide) (by decide)).2.2.2.2.1⟩

/-! ### The attention scale (C22) -/

/-- C22: in `mha_forward` the attention scale is applied once. The two strided
batched GEMMs are the only calls passed an `alpha` and a `beta`, and both get
`alpha = 1` and `beta = 0` ; the only launch passed a scalar is the masked
softmax, which gets `1 / sqrtf(size_per_head * 1.0f)` ; launch 7 is the score GEMM
and launch 8 the masked softmax. `enqueue`, for a float32 or 16-bit float query
activation, passes `size_per_head = 64` to the one forward template it calls, so
the scalar of the float pipeline is `1 / sqrtf(64 * 1.0f)`, and for a reciprocal
square root that is exact at 64 (positive, with square times 64 equal to 1) its
value is exactly `1/8` . -/
theorem C22_attention_scale_applied_once (B S0 D S1 H sph : Int) (isCrossAtten : Bool)
    (p : MHAPlugin) (q kv : PluginTensorDesc) (rest outputDesc : List PluginTensorDesc)
    (rsqrt : ℚ → ℚ)
    (hT : q.type = DataType.kFLOAT ∨ q.type = DataType.kHALF)
    (hpos : 0 < rsqrt 64) (hsq : rsqrt 64 * rsqrt 64 * 64 = 1) :
    (mha_forward B S0 D S1 H sph isCrossAtten).2.filterMap KernelCall.alphaBeta?
      = [(1, 0), (1, 0)]
    ∧ (mha_forward B S0 D S1 H sph isCrossAtten).2.filterMap KernelCall.scalar?
      = [ScalarExpr.oneOverSqrtf sph]
    ∧ ((mha_forward B S0 D S1 H sph isCrossAtten).2[7]?).map
        (fun c => (c.stage?, c.alphaBeta?)) = some (some Stage.scoreGemm, some (1, 0))
    ∧ ((mha_forward B S0 D S1 H sph isCrossAtten).2[8]?).map
        (fun c => (c.stage?, c.scalar?))
        = some (some Stage.maskedSoftmax, some (ScalarExpr.oneOverSqrtf sph))
    ∧ (∃ calls, p.enqueue (q :: kv :: rest) outputDesc = some (0, calls)
        ∧ calls.filterMap HostCall.sizePerHead? = [64]
        ∧ (calls.map HostCall.launches).flatten.filterMap KernelCall.scalar?
            = if p.int8_model = -1 then [ScalarExpr.oneOverSqrtf 64] else [])
    ∧ (ScalarExpr.oneOverSqrtf 64).value rsqrt = 1 / 8 := by
  refine ⟨?_, ?_, ?_, ?_, ⟨_, enqueue_float_or_half p q kv rest outputDesc hT, ?_, ?_⟩, ?_⟩
  · simp [mha_forward, KernelCall.alphaBeta?]
  · simp [mha_forward, KernelCall.scalar?]
  · simp [mha_forward, KernelCall.stage?, KernelCall.alphaBeta?]
  · simp [mha_forward, KernelCall.stage?, KernelCall.scalar?]
  · by_cases h8 : p.int8_model = -1 <;> rcases hT with h | h <;>
      simp [h8, h, HostCall.sizePerHead?]
  · by_cases h8 : p.int8_model = -1
    · rcases hT with h | h <;>
        simp [h8, h, HostCall.launches, mha_forward, KernelCall.scalar?]
    · simp [h8, HostCall.launches, mha_forward_int8]
  · show rsqrt ((64 : Int) : ℚ) = 1 / 8
    have h64 : ((64 : Int) : ℚ) = 64 := by norm_num
    rw [h64]
    have hprod : (rsqrt 64 - 1 / 8) * (rsqrt 64 + 1 / 8) = 0 := by linarith
    rcases mul_eq_zero.mp hprod with h | h
    · linarith
    · linarith

/-- C22 (witness): a float self-attention invocation of shape `[2, 3, 256]` with
`int8_model = -1`, and the sample reciprocal square root, which is `1/8` at 64. -/
theorem C22_attention_scale_applied_once_witness :
    (0 : ℚ) < sampleRsqrt 64 ∧ sampleRsqrt 64 * sampleRsqrt 64 * 64 = 1
    ∧ (mha_forward 2 3 256 3 4 64 false).2.filterMap KernelCall.scalar?
      = [ScalarExpr.oneOverSqrtf 64]
    ∧ (ScalarExpr.oneOverSqrtf 64).value sampleRsqrt = 1 / 8 :=
  have hpos : (0 : ℚ) < sampleRsqrt 64 := by norm_num [sampleRsqrt]
  have hsq : sampleRsqrt 64 * sampleRsqrt 64 * 64 = 1 := by norm_num [sampleRsqrt]
  have h := C22_attention_scale_applied_once 2 3 256 3 4 64 false ⟨"enc", "", false, -1, []⟩
    ⟨⟨3, [2, 3, 256]⟩, .kFLOAT, .kLINEAR, 0⟩ ⟨⟨3, [2, 3, 256]⟩, .kFLOAT, .kLINEAR, 0⟩ [] []
    sampleRsqrt (Or.inl rfl) hpos hsq
  ⟨hpos, hsq, h.2.1, h.2.2.2.2.2⟩

/-! ### Head split and head merge (C23) -/

/-- An offset below `B * X * Y * w` is the offset of one element `(b, x, y, d)` of a
row-major array of shape `[B, X, Y, w]` . -/
theorem encode4 (idx B X Y w : Int) (hX : 0 < X) (hY : 0 < Y) (hw : 0 < w) (h0 : 0 ≤ idx)
    (h1 : idx < B * X * Y * w) :
    ∃ b x y d : Int, 0 ≤ b ∧ b < B ∧ 0 ≤ x ∧ x < X ∧ 0 ≤ y ∧ y < Y ∧ 0 ≤ d ∧ d < w
      ∧ idx = ((b * X + x) * Y + y) * w + d := by
  refine ⟨idx / w / Y / X, idx / w / Y % X, idx / w % Y, idx % w, ?_, ?_,
    Int.emod_nonneg _ (by omega), Int.emod_lt_of_pos _ hX,
    Int.emod_nonneg _ (by omega), Int.emod_lt_of_pos _ hY,
    Int.emod_nonneg _ (by omega), Int.emod_lt_of_pos _ hw, ?_⟩
  · exact Int.ediv_nonneg (Int.ediv_nonneg (Int.ediv_nonneg h0 (by omega)) (by omega)) (by omega)
  · have a1 : idx / w < B * X * Y := Int.ediv_lt_of_lt_mul hw h1
    have a2 : idx / w / Y < B * X := Int.ediv_lt_of_lt_mul hY a1
    exact Int.ediv_lt_of_lt_mul hX a2
  · rw [Int.ediv_add_emod', Int.ediv_add_emod', Int.ediv_add_emod']

/-- Merging after splitting with a zero bias gives the tensor back. -/
theorem merge_after_split (x d1 d2 : Buf) (B S H sph idx : Int) (hS : 0 < S) (hH : 0 < H)
    (hsph : 0 < sph) (h0 : 0 ≤ idx) (h1 : idx < B * S * H * sph) :
    transposeQKV (addQKVBiasTranspose x (fun _ => 0) B S H sph d1) B S H sph d2 idx = x idx := by
  obtain ⟨b, s, h, d, hb0, hb, hs0, hs, hh0, hh, hd0, hd, rfl⟩ :=
    encode4 idx B S H sph hS hH hsph h0 h1
  rw [transposeQKV_apply _ _ B S H sph b h s d hb0 hb hh0 hh hs0 hs hd0 hd,
    addQKVBiasTranspose_apply _ _ _ B S H sph b h s d hb0 hb hh0 hh hs0 hs hd0 hd, add_zero]

/-- Splitting with a zero bias after merging gives the tensor back. -/
theorem split_after_merge (y d1 d2 : Buf) (B S H sph idx : Int) (hS : 0 < S) (hH : 0 < H)
    (hsph : 0 < sph) (h0 : 0 ≤ idx) (h1 : idx < B * H * S * sph) :
    addQKVBiasTranspose (transposeQKV y B S H sph d1) (fun _ => 0) B S H sph d2 idx = y idx := by
  obtain ⟨b, h, s, d, hb0, hb, hh0, hh, hs0, hs, hd0, hd, rfl⟩ :=
    encode4 idx B H S sph hH hS hsph h0 h1
  rw [addQKVBiasTranspose_apply _ _ _ B S H sph b h s d hb0 hb hh0 hh hs0 hs hd0 hd,
    transposeQKV_apply _ _ B S H sph b h s d hb0 hb hh0 hh hs0 hs hd0 hd, add_zero]

/-- C23: the head merge is the inverse of the head split. With the kernel
arithmetic of the specification, for every buffer `x`, every shape with positive
`S`, `head_num` and `head_dim` and every offset below `B * S * head_num * head_dim` :
splitting `x` (read as `[B, S, head_num*head_dim]`) with a zero bias and merging
the result gives `x` back at that offset, and merging `x` (read as
`[B, head_num, S, head_dim]`) and splitting the result with a zero bias gives `x`
back at that offset, whatever the destination buffers held before. In
`mha_forward` the query head split (launch 4) and the head merge (launch 10) are
passed the same `batch_size`, `seq_len0`, `head_num` and `size_per_head` . -/
theorem C23_head_merge_inverts_head_split (expf rsqrt : ℚ → ℚ) (eps : ℚ)
    (B S0 D S1 H sph : Int) (isCrossAtten : Bool) (x d1 d2 : Buf) (idx : Int)
    (hS : 0 < S0) (hH : 0 < H) (hsph : 0 < sph)
    (h0 : 0 ≤ idx) (h1 : idx < B * S0 * H * sph) :
    (specKernels expf rsqrt eps).transposeQKV
        ((specKernels expf rsqrt eps).addQKVBiasTranspose x (fun _ => 0) B S0 H sph d1)
        B S0 H sph d2 idx = x idx
    ∧ (specKernels expf rsqrt eps).addQKVBiasTranspose
        ((specKernels expf rsqrt eps).transposeQKV x B S0 H sph d1) (fun _ => 0)
        B S0 H sph d2 idx = x idx
    ∧ (mha_forward B S0 D S1 H sph isCrossAtten).2[4]?
      = some (KernelCall.invokeAddQKVBiasTranspose
          (Loc.workspace (workspaceLayout B S0 D S1 H).q_share) .null .null
          (Loc.workspace (workspaceLayout B S0 D S1 H).q_buf) (Loc.input 4)
          .null .null .null .null B S0 H sph)
    ∧ (mha_forward B S0 D S1 H sph isCrossAtten).2[10]?
      = some (KernelCall.invokeTransposeQKV
          (Loc.workspace (workspaceLayout B S0 D S1 H).out_buf)
          (Loc.workspace (workspaceLayout B S0 D S1 H).q_buf) B S0 H sph) := by
  refine ⟨merge_after_split x d1 d2 B S0 H sph idx hS hH hsph h0 h1,
    split_after_merge x d1 d2 B S0 H sph idx hS hH hsph h0 (by
      have e : B * H * S0 * sph = B * S0 * H * sph := by ring
      rw [e]; exact h1), ?_, ?_⟩
  · simp [mha_forward]
  · simp [mha_forward]

/-- C23 (witness): the shape `B = 2, S = 3, head_num = 4, head_dim = 64` at the last
offset, 1535, for the buffer holding `offset + 1` at every offset, with
destination buffers holding 7 and 9. -/
theorem C23_head_merge_inverts_head_split_witness :
    (1535 : Int) < 2 * 3 * 4 * 64
    ∧ (specKernels sampleExpf sampleRsqrt 0).transposeQKV
        ((specKernels sampleExpf sampleRsqrt 0).addQKVBiasTranspose (fun t => (t : ℚ) + 1)
          (fun _ => 0) 2 3 4 64 (fun _ => 7))
        2 3 4 64 (fun _ => 9) 1535 = (fun t : Int => (t : ℚ) + 1) 1535
    ∧ (specKernels sampleExpf sampleRsqrt 0).addQKVBiasTranspose
        ((specKernels sampleExpf sampleRsqrt 0).transposeQKV (fun t => (t : ℚ) + 1)
          2 3 4 64 (fun _ => 7)) (fun _ => 0)
        2 3 4 64 (fun _ => 9) 1535 = (fun t : Int => (t : ℚ) + 1) 1535 :=
  have h := C23_head_merge_inverts_head_split sampleExpf sampleRsqrt 0 2 3 256 3 4 64 false
    (fun t => (t : ℚ) + 1) (fun _ => 7) (fun _ => 9) 1535 (by decide) (by decide) (by decide)
    (by decide) (by decide)
  ⟨by decide, h.1, h.2.1⟩

/-! ### Write extents against region sizes (C24) -/

/-- The room each launch of `mha_forward` leaves in its destination region. -/
theorem writeSlack_eq (B S0 D S1 H sph : Int) (isCrossAtten : Bool) :
    writeSlack B S0 D S1 H sph isCrossAtten
      = [ some (B * S0 * D - imul B S0 * D),
          some (B * S0 * D - D * imul B S0),
          some (B * S1 * D - D * imul B S1),
          some (B * S1 * D - D * imul B S1),
          some (B * S0 * D - B * S0 * H * sph),
          some (B * S1 * D - B * S1 * H * sph),
          some (B * S1 * D - B * S1 * H * sph),
          some (B * H * S0 * S1 - imul B H * (S1 * S0)),
          some (B * H * S0 * S1 - B * H * S0 * S1),
          some (B * S0 * D - imul B H * (sph * S0)),
          some (B * S0 * D - B * S0 * H * sph),
          none, none ] := by
  simp [writeSlack, mha_forward, destinationNames, workspaceRegions, regionNamed?,
    KernelCall.writeCount]

/-- Each launch of `mha_forward` that is passed a workspace pointer as its
destination is passed the start of the region of that name. -/
theorem destination_is_region_start (B S0 D S1 H sph : Int) (isCrossAtten : Bool) :
    ∀ p ∈ (mha_forward B S0 D S1 H sph isCrossAtten).2.zip destinationNames,
      ∀ name, p.2 = some name →
        (regionNamed? (workspaceRegions B S0 D S1 H) name).map (fun r => Loc.workspace r.start)
          = some p.1.destination := by
  simp [mha_forward, destinationNames, workspaceRegions, regionNamed?, KernelCall.destination]

/-- An `int` product that is non-negative mathematically does not exceed the
mathematical product. -/
theorem imul_le_of_nonneg (a b : Int) (h : 0 ≤ a * b) : imul a b ≤ a * b := by
  unfold imul wrapInt32
  generalize a * b = x at h
  omega

theorem writesFit_iff (B S0 D S1 H sph : Int) (isCrossAtten : Bool)
    (hB : 1 ≤ B) (hS0 : 1 ≤ S0) (hS1 : 1 ≤ S1) (hH : 0 ≤ H) (hsph : 0 ≤ sph) :
    writesFit B S0 D S1 H sph isCrossAtten ↔ H * sph ≤ D := by
  have hBS0 : 1 ≤ B * S0 := by nlinarith
  have hBS1 : 1 ≤ B * S1 := by nlinarith
  have hBH : 0 ≤ B * H := by nlinarith
  have hHs : 0 ≤ H * sph := mul_nonneg hH hsph
  have i1 := imul_le_of_nonneg B S0 (by omega)
  have i2 := imul_le_of_nonneg B S1 (by omega)
  have i3 := imul_le_of_nonneg B H hBH
  unfold writesFit
  rw [writeSlack_eq]
  simp only [List.forall_mem_cons, List.not_mem_nil, Option.getD_some, Option.getD_none,
    sub_nonneg, le_refl, IsEmpty.forall_iff, implies_true, and_true, true_and]
  constructor
  · rintro ⟨-, -, -, -, h4, -⟩
    by_contra hlt
    push_neg at hlt
    nlinarith
  · intro hD
    have hD0 : 0 ≤ D := le_trans hHs hD
    have hs0 : 0 ≤ S1 * S0 := by nlinarith
    have hs1 : 0 ≤ sph * S0 := by nlinarith
    refine ⟨?_, ?_, ?_, ?_, ?_, ?_, ?_, ?_, ?_, ?_⟩
    · nlinarith [mul_le_mul_of_nonneg_right i1 hD0]
    · nlinarith [mul_le_mul_of_nonneg_left i1 hD0]
    · nlinarith [mul_le_mul_of_nonneg_left i2 hD0]
    · nlinarith [mul_le_mul_of_nonneg_left i2 hD0]
    · nlinarith [mul_le_mul_of_nonneg_left hD (by omega : (0:Int) ≤ B * S0)]
    · nlinarith [mul_le_mul_of_nonneg_left hD (by omega : (0:Int) ≤ B * S1)]
    · nlinarith [mul_le_mul_of_nonneg_left hD (by omega : (0:Int) ≤ B * S1)]
    · nlinarith [mul_le_mul_of_nonneg_right i3 hs0]
    · have a1 : imul B H * (sph * S0) ≤ B * H * (sph * S0) :=
        mul_le_mul_of_nonneg_right i3 hs1
      have a2 : B * S0 * (H * sph) ≤ B * S0 * D :=
        mul_le_mul_of_nonneg_left hD (by omega)
      nlinarith
    · nlinarith [mul_le_mul_of_nonneg_left hD (by omega : (0:Int) ≤ B * S0)]

/-- An offset at or beyond `m * n` lies in no row below `m` . -/
theorem row_ge_of_count_le (idx m n : Int) (hn : 0 < n) (h : m * n ≤ idx) : m ≤ idx / n :=
  Int.le_ediv_of_mul_le hn h

theorem generalLayerNorm_beyond (rsqrt : ℚ → ℚ) (eps : ℚ) (input gamma beta out : Buf)
    (m n idx : Int) (hn : 0 < n) (h : m * n ≤ idx) :
    generalLayerNorm rsqrt eps input gamma beta m n out idx = out idx := by
  have := row_ge_of_count_le idx m n hn h
  simp only [generalLayerNorm]
  rw [if_neg (by omega)]

theorem addBiasResidual_beyond (output input bias : Buf) (m n idx : Int) (hn : 0 < n)
    (h : m * n ≤ idx) : addBiasResidual output input bias m n idx = output idx := by
  have := row_ge_of_count_le idx m n hn h
  simp only [addBiasResidual]
  rw [if_neg (by omega)]

theorem gemmStridedBatched_beyond (transa transb : CublasOp) (m n k : Int) (alpha : ℚ)
    (A : Buf) (lda strideA : Int) (B : Buf) (ldb strideB : Int) (beta : ℚ) (C : Buf)
    (ldc strideC batchCount idx : Int) (hs : 0 < strideC) (h : batchCount * strideC ≤ idx) :
    gemmStridedBatched transa transb m n k alpha A lda strideA B ldb strideB beta C ldc strideC
      batchCount idx = C idx := by
  have := row_ge_of_count_le idx batchCount strideC hs h
  simp only [gemmStridedBatched]
  rw [if_neg (by omega)]

theorem gemm_beyond (transa transb : CublasOp) (m n k : Int) (A : Buf) (lda : Int) (B : Buf)
    (ldb : Int) (C : Buf) (idx : Int) (hm : 0 < m) (h : m * n ≤ idx) :
    gemm transa transb m n k A lda B ldb C m idx = C idx := by
  have := row_ge_of_count_le idx n m hm (by rw [mul_comm]; exact h)
  simp only [gemm, gemmStridedBatched, Int.emod_zero]
  rw [if_neg (by omega)]

theorem addQKVBiasTranspose_beyond (src bias dst : Buf) (B S H sph idx : Int) (hS : 0 < S)
    (hH : 0 < H) (hsph : 0 < sph) (h : B * S * H * sph ≤ idx) :
    addQKVBiasTranspose src bias B S H sph dst idx = dst idx := by
  have h1 := row_ge_of_count_le idx (B * S * H) sph hsph h
  have h2 := row_ge_of_count_le (idx / sph) (B * H) S hS (by
    have e : B * H * S = B * S * H := by ring
    rw [e]; exact h1)
  have h3 := row_ge_of_count_le (idx / sph / S) B H hH h2
  simp only [addQKVBiasTranspose]
  rw [if_neg (by omega)]

theorem transposeQKV_beyond (src dst : Buf) (B S H sph idx : Int) (hS : 0 < S)
    (hH : 0 < H) (hsph : 0 < sph) (h : B * S * H * sph ≤ idx) :
    transposeQKV src B S H sph dst idx = dst idx := by
  have h1 := row_ge_of_count_le idx (B * S * H) sph hsph h
  have h2 := row_ge_of_count_le (idx / sph) (B * S) H hH h1
  have h3 := row_ge_of_count_le (idx / sph / H) B S hS h2
  simp only [transposeQKV]
  rw [if_neg (by omega)]

theorem maskedSoftMax_beyond (expf : ℚ → ℚ) (src mask buffer : Buf) (B S0 S1 H : Int)
    (scalar : ℚ) (idx : Int) (hS1 : 0 < S1) (h : B * H * S0 * S1 ≤ idx) :
    maskedSoftMax expf src mask B S0 S1 H scalar buffer idx = buffer idx := by
  have := row_ge_of_count_le idx (B * H * S0) S1 hS1 h
  simp only [maskedSoftMax]
  rw [if_neg (by omega)]

/-- With the kernel arithmetic of the specification, a launch of `mha_forward`
leaves every element of its destination buffer at or beyond its write count as
it was, for every shape with positive `seq_len0`, `seq_len1`, `d_model`, `head_num`
and `size_per_head` whose stride products fit an `int` . -/
theorem mha_forward_writes_within_count (expf rsqrt : ℚ → ℚ) (eps : ℚ)
    (B S0 D S1 H sph : Int) (isCrossAtten : Bool) (mem : Mem Buf)
    (hS0 : 1 ≤ S0) (hD : 1 ≤ D) (hS1 : 1 ≤ S1) (hH : 1 ≤ H) (hsph : 1 ≤ sph)
    (hfit0 : S0 * S1 ≤ 2147483647) (hfit1 : S0 * sph ≤ 2147483647) :
    ∀ c ∈ (mha_forward B S0 D S1 H sph isCrossAtten).2, ∀ idx : Int, c.writeCount ≤ idx →
      (c.exec (specKernels expf rsqrt eps) mem) c.destination idx = mem c.destination idx := by
  have e1 : imul S0 S1 = S0 * S1 :=
    wrapInt32_of_range _ (by nlinarith) (by omega)
  have e2 : imul S0 sph = S0 * sph :=
    wrapInt32_of_range _ (by nlinarith) (by omega)
  have p1 : 0 < S0 * S1 := by nlinarith
  have p2 : 0 < S0 * sph := by nlinarith
  intro c hc idx hidx
  simp only [mha_forward, List.mem_cons, List.mem_singleton, List.not_mem_nil, or_false] at hc
  rcases hc with h | h | h | h | h | h | h | h | h | h | h | h | h <;> subst h <;>
    simp only [KernelCall.writeCount] at hidx <;>
    simp only [KernelCall.exec, KernelCall.destination, execAddBiasTranspose, specKernels,
      Mem.write_same, if_true, if_false, reduceCtorEq]
  · exact generalLayerNorm_beyond _ _ _ _ _ _ _ _ _ (by omega) hidx
  · exact gemm_beyond _ _ _ _ _ _ _ _ _ _ _ (by omega) hidx
  · exact gemm_beyond _ _ _ _ _ _ _ _ _ _ _ (by omega) hidx
  · exact gemm_beyond _ _ _ _ _ _ _ _ _ _ _ (by omega) hidx
  · exact addQKVBiasTranspose_beyond _ _ _ _ _ _ _ _ (by omega) (by omega) (by omega) hidx
  · exact addQKVBiasTranspose_beyond _ _ _ _ _ _ _ _ (by omega) (by omega) (by omega) hidx
  · exact addQKVBiasTranspose_beyond _ _ _ _ _ _ _ _ (by omega) (by omega) (by omega) hidx
  · rw [e1]
    exact gemmStridedBatched_beyond _ _ _ _ _ _ _ _ _ _ _ _ _ _ _ _ _ _ p1 (by
      have e : imul B H * (S0 * S1) = imul B H * (S1 * S0) := by ring
      rw [e]; exact hidx)
  · exact maskedSoftMax_beyond _ _ _ _ _ _ _ _ _ _ (by omega) hidx
  · rw [e2]
    exact gemmStridedBatched_beyond _ _ _ _ _ _ _ _ _ _ _ _ _ _ _ _ _ _ p2 (by
      have e : imul B H * (S0 * sph) = imul B H * (sph * S0) := by ring
      rw [e]; exact hidx)
  · exact transposeQKV_beyond _ _ _ _ _ _ _ (by omega) (by omega) (by omega) hidx
  · exact gemm_beyond _ _ _ _ _ _ _ _ _ _ _ (by omega) hidx
  · exact addBiasResidual_beyond _ _ _ _ _ _ (by omega) hidx

/-! ### Buffer reuse (C25) -/

theorem lastOverwriter?_succ (launches : List LaunchAccess) (k : Nat) (r : Access) :
    lastOverwriter? launches (k + 1) r
      = if overwritesAt launches r k then some k else lastOverwriter? launches k r := by
  simp only [lastOverwriter?, List.range_succ, List.reverse_append, List.reverse_cons,
    List.reverse_nil, List.nil_append, List.singleton_append, List.find?_cons]
  cases overwritesAt launches r k <;> rfl

/-- No launch before `k` writes an element of `r` : the elements are the initial
ones. -/
theorem origin_eq_initial (launches : List LaunchAccess) (k : Nat) (r : Access)
    (hno : ∀ i, i < k → overwritesAt launches r i = false) :
    origin launches k r = Origin.initial := by
  have h : lastOverwriter? launches k r = none := by
    induction k with
    | zero => rfl
    | succ k ih =>
      rw [lastOverwriter?_succ, hno k (by omega)]
      exact ih (fun i hi => hno i (by omega))
  simp only [origin, h]

/-- Launch `j`, of stage `s`, writes every element of `r` and no launch after it
and before `k` writes any: the elements are those of stage `s` . -/
theorem origin_eq_stage (launches : List LaunchAccess) (k : Nat) (r : Access) (j : Nat)
    (la : LaunchAccess) (s : Stage) (hj : j < k) (hla : launches[j]? = some la)
    (hs : la.stage = some s) (hov : la.write.overlaps r = true)
    (hcov : la.write.covers r = true)
    (hno : ∀ i, j < i → i < k → overwritesAt launches r i = false) :
    origin launches k r = Origin.stage s := by
  have h : lastOverwriter? launches k r = some j := by
    induction k with
    | zero => omega
    | succ k ih =>
      rw [lastOverwriter?_succ]
      by_cases hjk : j = k
      · subst hjk
        simp [overwritesAt, hla, hov]
      · rw [hno k (by omega) (by omega)]
        exact ih (by omega) (fun i h1 h2 => hno i h1 (by omega))
  simp only [origin, h, hla, hs, hcov, if_true]

/-- The accesses of the launches of `mha_forward` when `d_model` is
`head_num * size_per_head` and the layout fits an `int` : whole regions. -/
theorem mha_forward_access (B S0 S1 H sph : Int) (isCrossAtten : Bool)
    (hB : 1 ≤ B) (hS0 : 1 ≤ S0) (hS1 : 1 ≤ S1) (hH : 1 ≤ H) (hsph : 1 ≤ sph)
    (hfit : 3 * (B * S0 * (H * sph)) + B * H * S0 * S1 + 4 * (B * S1 * (H * sph))
      ≤ 2147483647) :
    (mha_forward B S0 (H * sph) S1 H sph isCrossAtten).2.map KernelCall.access
      = wholeRegionAccesses
          (if isCrossAtten then Loc.input 1 else Loc.workspace (B * S0 * (H * sph)))
          (B * S0 * (H * sph)) (B * H * S0 * S1) (B * S1 * (H * sph))
          (H * sph * (H * sph)) (H * sph) (B * S0 * S1) := by
  have hHs : 1 ≤ H * sph := by nlinarith
  have hBS0 : 1 ≤ B * S0 := by nlinarith
  have hBS1 : 1 ≤ B * S1 := by nlinarith
  have hBH : 1 ≤ B * H := by nlinarith
  have ha : 1 ≤ B * S0 * (H * sph) := by nlinarith
  have hBHS0 : 1 ≤ B * H * S0 := by nlinarith
  have hc : 1 ≤ B * H * S0 * S1 := by nlinarith
  have he : 1 ≤ B * S1 * (H * sph) := by nlinarith
  have hlay := workspaceLayout_of_fits B S0 (H * sph) S1 H (by omega) (by omega) (by omega) hfit
  have i1 : imul B S0 = B * S0 := wrapInt32_of_range _ (by omega) (by nlinarith)
  have i2 : imul B S1 = B * S1 := wrapInt32_of_range _ (by omega) (by nlinarith)
  have i3 : imul B H = B * H := wrapInt32_of_range _ (by omega) (by nlinarith)
  have e1 : H * sph * (B * S0) = B * S0 * (H * sph) := by ring
  have e2 : H * sph * (B * S1) = B * S1 * (H * sph) := by ring
  have e3 : B * S0 * H * sph = B * S0 * (H * sph) := by ring
  have e4 : B * S1 * H * sph = B * S1 * (H * sph) := by ring
  have e5 : B * H * (S1 * S0) = B * H * S0 * S1 := by ring
  have e6 : B * H * (S1 * sph) = B * S1 * (H * sph) := by ring
  have e7 : B * H * (sph * S0) = B * S0 * (H * sph) := by ring
  have e8 : B * H * (sph * S1) = B * S1 * (H * sph) := by ring
  cases isCrossAtten <;>
    simp [mha_forward, hlay, i1, i2, i3, KernelCall.access, KernelCall.stage?,
      KernelCall.writeAccess, KernelCall.destination, KernelCall.writeCount,
      KernelCall.readAccesses, wholeRegionAccesses, e1, e2, e3, e4, e5, e6, e7, e8]

/-- No launch writes a plugin input: what is read from one is what it held at the
start. -/
theorem origin_input_initial (enc : Loc) (a c e w b m : Int) (k n : Nat) (cnt : Int) :
    origin (wholeRegionAccesses enc a c e w b m) k ⟨Loc.input n, cnt⟩ = Origin.initial := by
  apply origin_eq_initial
  intro i _
  by_cases hi : i < 13
  · interval_cases i <;> simp [overwritesAt, wholeRegionAccesses, Access.overlaps]
  · have hnone : (wholeRegionAccesses enc a c e w b m)[i]? = none :=
      List.getElem?_eq_none (by simp [wholeRegionAccesses]; omega)
    simp [overwritesAt, hnone]

/-- The data flow of launches that read and write whole regions: every operand
other than the source of the key and value projections comes whole from the
intended stage. -/
theorem flow_wholeRegionAccesses (enc : Loc) (a c e w b m : Int)
    (ha : 1 ≤ a) (hc : 1 ≤ c) (he : 1 ≤ e) :
    flow (wholeRegionAccesses enc a c e w b m)
      = [ (some .layerNorm, [.initial, .initial, .initial]),
          (some .queryProjection, [.initial, .stage .layerNorm]),
          (some .keyProjection,
            [.initial, origin (wholeRegionAccesses enc a c e w b m) 2 ⟨enc, e⟩]),
          (some .valueProjection,
            [.initial, origin (wholeRegionAccesses enc a c e w b m) 3 ⟨enc, e⟩]),
          (some .querySplit, [.stage .queryProjection, .initial]),
          (some .keySplit, [.stage .keyProjection, .initial]),
          (some .valueSplit, [.stage .valueProjection, .initial]),
          (some .scoreGemm, [.stage .keySplit, .stage .querySplit]),
          (some .maskedSoftmax, [.stage .scoreGemm, .initial]),
          (some .contextGemm, [.stage .valueSplit, .stage .maskedSoftmax]),
          (some .headMerge, [.stage .contextGemm]),
          (some .outputProjection, [.initial, .stage .headMerge]),
          (some .biasResidual, [.stage .outputProjection, .initial, .initial]) ] := by
  unfold flow
  generalize hO : origin (wholeRegionAccesses enc a c e w b m) = O
  simp only [wholeRegionAccesses, List.length_cons, List.length_nil, List.range_succ,
    List.range_zero, List.nil_append, List.cons_append, List.filterMap_cons, List.filterMap_nil,
    List.getElem?_cons_succ, List.getElem?_cons_zero, Option.map_some', List.map, Nat.reduceAdd,
    zero_add, List.cons.injEq, Prod.mk.injEq, true_and, and_true]
  subst hO
  refine ⟨⟨?_, ?_, ?_⟩, ⟨?_, ?_⟩, ?_, ?_, ⟨?_, ?_⟩, ⟨?_, ?_⟩, ⟨?_, ?_⟩, ⟨?_, ?_⟩, ⟨?_, ?_⟩,
    ⟨?_, ?_⟩, ?_, ⟨?_, ?_⟩, ?_, ?_, ?_⟩
  · exact origin_input_initial _ _ _ _ _ _ _ _ _ _
  · exact origin_input_initial _ _ _ _ _ _ _ _ _ _
  · exact origin_input_initial _ _ _ _ _ _ _ _ _ _
  · exact origin_input_initial _ _ _ _ _ _ _ _ _ _
  · refine origin_eq_stage _ 1 _ 0 _ .layerNorm (by decide) rfl rfl ?_ ?_ ?_
    · simp [Access.overlaps, wholeRegionAccesses]; omega
    · simp [Access.covers, wholeRegionAccesses]
    · intro i h1 h2; omega
  · exact origin_input_initial _ _ _ _ _ _ _ _ _ _
  · exact origin_input_initial _ _ _ _ _ _ _ _ _ _
  · refine origin_eq_stage _ 4 _ 1 _ .queryProjection (by decide) rfl rfl ?_ ?_ ?_
    · simp [Access.overlaps, wholeRegionAccesses]; omega
    · simp [Access.covers, wholeRegionAccesses]
    · intro i h1 h2
      interval_cases i <;> simp [overwritesAt, wholeRegionAccesses, Access.overlaps] <;> omega
  · exact origin_input_initial _ _ _ _ _ _ _ _ _ _
  · refine origin_eq_stage _ 5 _ 2 _ .keyProjection (by decide) rfl rfl ?_ ?_ ?_
    · simp [Access.overlaps, wholeRegionAccesses]; omega
    · simp [Access.covers, wholeRegionAccesses]
    · intro i h1 h2
      interval_cases i <;> simp [overwritesAt, wholeRegionAccesses, Access.overlaps] <;> omega
  · exact origin_input_initial _ _ _ _ _ _ _ _ _ _
  · refine origin_eq_stage _ 6 _ 3 _ .valueProjection (by decide) rfl rfl ?_ ?_ ?_
    · simp [Access.overlaps, wholeRegionAccesses]; omega
    · simp [Access.covers, wholeRegionAccesses]
    · intro i h1 h2
      interval_cases i <;> simp [overwritesAt, wholeRegionAccesses, Access.overlaps] <;> omega
  · exact origin_input_initial _ _ _ _ _ _ _ _ _ _
  · refine origin_eq_stage _ 7 _ 5 _ .keySplit (by decide) rfl rfl ?_ ?_ ?_
    · simp [Access.overlaps, wholeRegionAccesses]; omega
    · simp [Access.covers, wholeRegionAccesses]
    · intro i h1 h2
      interval_cases i
      simp [overwritesAt, wholeRegionAccesses, Access.overlaps]
      omega
  · refine origin_eq_stage _ 7 _ 4 _ .querySplit (by decide) rfl rfl ?_ ?_ ?_
    · simp [Access.overlaps, wholeRegionAccesses]; omega
    · simp [Access.covers, wholeRegionAccesses]
    · intro i h1 h2
      interval_cases i <;> simp [overwritesAt, wholeRegionAccesses, Access.overlaps] <;> omega
  · refine origin_eq_stage _ 8 _ 7 _ .scoreGemm (by decide) rfl rfl ?_ ?_ ?_
    · simp [Access.overlaps, wholeRegionAccesses]; omega
    · simp [Access.covers, wholeRegionAccesses]
    · intro i h1 h2; omega
  · exact origin_input_initial _ _ _ _ _ _ _ _ _ _
  · refine origin_eq_stage _ 9 _ 6 _ .valueSplit (by decide) rfl rfl ?_ ?_ ?_
    · simp [Access.overlaps, wholeRegionAccesses]; omega
    · simp [Access.covers, wholeRegionAccesses]
    · intro i h1 h2
      interval_cases i <;> simp [overwritesAt, wholeRegionAccesses, Access.overlaps] <;> omega
  · refine origin_eq_stage _ 9 _ 8 _ .maskedSoftmax (by decide) rfl rfl ?_ ?_ ?_
    · simp [Access.overlaps, wholeRegionAccesses]; omega
    · simp [Access.covers, wholeRegionAccesses]
    · intro i h1 h2; omega
  · refine origin_eq_stage _ 10 _ 9 _ .contextGemm (by decide) rfl rfl ?_ ?_ ?_
    · simp [Access.overlaps, wholeRegionAccesses]; omega
    · simp [Access.covers, wholeRegionAccesses]
    · intro i h1 h2; omega
  · exact origin_input_initial _ _ _ _ _ _ _ _ _ _
  · refine origin_eq_stage _ 11 _ 10 _ .headMerge (by decide) rfl rfl ?_ ?_ ?_
    · simp [Access.overlaps, wholeRegionAccesses]; omega
    · simp [Access.covers, wholeRegionAccesses]
    · intro i h1 h2; omega
  · refine origin_eq_stage _ 12 _ 11 _ .outputProjection (by decide) rfl rfl ?_ ?_ ?_
    · simp [Access.overlaps, wholeRegionAccesses]; omega
    · simp [Access.covers, wholeRegionAccesses]
    · intro i h1 h2; omega
  · exact origin_input_initial _ _ _ _ _ _ _ _ _ _
  · exact origin_input_initial _ _ _ _ _ _ _ _ _ _

/-- In self-attention the key and the value projection read the whole layer-norm
output. -/
theorem origin_self_source (a c w b m : Int) (ha : 1 ≤ a) (hc : 1 ≤ c) :
    origin (wholeRegionAccesses (Loc.workspace a) a c a w b m) 2 ⟨Loc.workspace a, a⟩
      = Origin.stage Stage.layerNorm
    ∧ origin (wholeRegionAccesses (Loc.workspace a) a c a w b m) 3 ⟨Loc.workspace a, a⟩
      = Origin.stage Stage.layerNorm := by
  constructor
  · refine origin_eq_stage _ 2 _ 0 _ .layerNorm (by decide) rfl rfl ?_ ?_ ?_
    · simp [Access.overlaps, wholeRegionAccesses]; omega
    · simp [Access.covers, wholeRegionAccesses]
    · intro i h1 h2
      interval_cases i
      simp [overwritesAt, wholeRegionAccesses, Access.overlaps]
  · refine origin_eq_stage _ 3 _ 0 _ .layerNorm (by decide) rfl rfl ?_ ?_ ?_
    · simp [Access.overlaps, wholeRegionAccesses]; omega
    · simp [Access.covers, wholeRegionAccesses]
    · intro i h1 h2
      interval_cases i <;> simp [overwritesAt, wholeRegionAccesses, Access.overlaps]
      omega

/-- The element-level data flow of `mha_forward` for a hidden size equal to
`head_num * size_per_head` . -/
theorem mha_forward_elementFlow (B S0 S1 H sph : Int) (isCrossAtten : Bool)
    (hB : 1 ≤ B) (hS0 : 1 ≤ S0) (hS1 : 1 ≤ S1) (hH : 1 ≤ H) (hsph : 1 ≤ sph)
    (hself : isCrossAtten = false → S1 = S0)
    (hfit : 3 * (B * S0 * (H * sph)) + B * H * S0 * S1 + 4 * (B * S1 * (H * sph))
      ≤ 2147483647) :
    elementFlow (mha_forward B S0 (H * sph) S1 H sph isCrossAtten).2
      = intendedFlow isCrossAtten := by
  have hHs : 1 ≤ H * sph := by nlinarith
  have ha : 1 ≤ B * S0 * (H * sph) := by
    have : 1 ≤ B * S0 := by nlinarith
    nlinarith
  have hc : 1 ≤ B * H * S0 * S1 := by
    have h1 : 1 ≤ B * H := by nlinarith
    have h2 : 1 ≤ B * H * S0 := by nlinarith
    nlinarith
  have he : 1 ≤ B * S1 * (H * sph) := by
    have : 1 ≤ B * S1 := by nlinarith
    nlinarith
  unfold elementFlow
  rw [mha_forward_access B S0 S1 H sph isCrossAtten hB hS0 hS1 hH hsph hfit,
    flow_wholeRegionAccesses _ _ _ _ _ _ _ ha hc he]
  cases isCrossAtten with
  | true =>
    simp only [if_true, intendedFlow, origin_input_initial]
  | false =>
    have hS : S1 = S0 := hself rfl
    subst hS
    obtain ⟨h2, h3⟩ := origin_self_source (B * S1 * (H * sph)) (B * H * S1 * S1)
      (H * sph * (H * sph)) (H * sph) (B * S1 * S1) ha hc
    simp only [Bool.false_eq_true, if_false, intendedFlow, h2, h3]

/-- C25 (counterexample): the float self-attention invocation with query shape
`[1, 2, 128]`, for which `enqueue` calls `mha_forward<float>(1, 2, 128, 2, 4, 64)`
on a workspace of 24576 bytes (6144 elements). The regions start at 0, 256, 512,
528, 784, 1040, 1296 and 1552. The value projection (launch 3) writes the 256
elements of `v_buf` from offset 1296; the key head split (launch 5) then writes
512 elements from `k_bias` at offset 1040, which covers all of `v_buf` ; the value
head split (launch 6) reads 512 elements from offset 1296, and the last launch
that wrote any of them is launch 5, not the value projection: when launch 6
starts, all of `v_buf` holds what the key head split wrote. So the value head
split does not read what its intended producer wrote, and the element-level data
flow is not the intended one. With a hidden size above `4 * 64`, query shape
`[1, 2, 512]`, the head merge (launch 10) writes 512 elements of `out_buf` and the
output projection (launch 11) reads 1024: half of what it reads was written by
no launch. -/
theorem C25_key_split_overwrites_value_projection :
    MHAPlugin.enqueue ⟨"enc", "", false, -1, []⟩ (inputDesc13 .kFLOAT 1 2 2 128) []
      = some (0, [HostCall.cudaStreamSynchronize, HostCall.cublasSetStream, HostCall.setStream,
          HostCall.setFP32GemmConfig, HostCall.mha_forward .kFLOAT 1 2 128 2 4 64 false "enc"])
    ∧ MHAPlugin.getWorkspaceSize ⟨"enc", "", false, -1, []⟩ (inputDesc13 .kFLOAT 1 2 2 128) 13 [] 1
      = some 24576
    ∧ workspaceLayout 1 2 128 2 4 = ⟨0, 256, 512, 528, 784, 1040, 1296, 1552, 1808⟩
    ∧ ((mha_forward 1 2 128 2 4 64 false).2[3]?).map KernelCall.access
      = some ⟨some .valueProjection, ⟨.workspace 1296, 256⟩,
          [⟨.input 7, 16384⟩, ⟨.workspace 256, 256⟩]⟩
    ∧ ((mha_forward 1 2 128 2 4 64 false).2[5]?).map KernelCall.access
      = some ⟨some .keySplit, ⟨.workspace 1040, 512⟩,
          [⟨.workspace 784, 512⟩, ⟨.input 6, 256⟩]⟩
    ∧ ((mha_forward 1 2 128 2 4 64 false).2[6]?).map KernelCall.access
      = some ⟨some .valueSplit, ⟨.workspace 1552, 512⟩,
          [⟨.workspace 1296, 512⟩, ⟨.input 8, 256⟩]⟩
    ∧ Access.covers ⟨.workspace 1040, 512⟩ ⟨.workspace 1296, 256⟩ = true
    ∧ lastOverwriter? ((mha_forward 1 2 128 2 4 64 false).2.map KernelCall.access) 6
        ⟨.workspace 1296, 512⟩ = some 5
    ∧ lastOverwriter? ((mha_forward 1 2 128 2 4 64 false).2.map KernelCall.access) 6
        ⟨.workspace 1296, 256⟩ = some 5
    ∧ origin ((mha_forward 1 2 128 2 4 64 false).2.map KernelCall.access) 6
        ⟨.workspace 1296, 256⟩ = Origin.stage Stage.keySplit
    ∧ (elementFlow (mha_forward 1 2 128 2 4 64 false).2)[6]?
      = some (some .valueSplit, [.mixed, .initial])
    ∧ elementFlow (mha_forward 1 2 128 2 4 64 false).2 ≠ intendedFlow false
    ∧ ((mha_forward 1 2 512 2 4 64 false).2[10]?).map KernelCall.writeAccess
      = some ⟨.workspace 2064, 512⟩
    ∧ ((mha_forward 1 2 512 2 4 64 false).2[11]?).map KernelCall.readAccesses
      = some [⟨.input 9, 262144⟩, ⟨.workspace 2064, 1024⟩]
    ∧ (elementFlow (mha_forward 1 2 512 2 4 64 false).2)[11]?
      = some (some .outputProjection, [.initial, .mixed]) := by
  decide

/-- C25 (amended): in `mha_forward`, for every shape with positive dimensions whose
hidden size is `d_model = head_num * size_per_head`, whose element count fits an
`int` and, in self-attention, with `seq_len1 = seq_len0` (as `enqueue` passes it):
every launch that writes the workspace writes one whole region (`q_share` is
written by the layer normalization and again by the query head split, `q_buf` by
the query projection and again by the context GEMM), and for every launch and
each of its input operands, all the elements it reads were last written by its
intended producer stage: the projections read the layer-norm output (the key and
value projections in self-attention; in cross-attention they read the plugin
input `inputs[1]`), each head split reads its projection, the score GEMM reads
the split key and the split query, the softmax reads the scores, the context
GEMM reads the split value and the softmax weights, the head merge reads the
context, the output projection reads the merged context, the bias-residual step
reads the output projection. So every reused region is overwritten only after
the last read of its previous contents. -/
theorem C25_whole_regions_flow_as_intended (B S0 D S1 H sph : Int) (isCrossAtten : Bool)
    (hB : 1 ≤ B) (hS0 : 1 ≤ S0) (hS1 : 1 ≤ S1) (hH : 1 ≤ H) (hsph : 1 ≤ sph)
    (hD : D = H * sph) (hself : isCrossAtten = false → S1 = S0)
    (hfit : 3 * (B * S0 * D) + B * H * S0 * S1 + 4 * (B * S1 * D) ≤ 2147483647) :
    elementFlow (mha_forward B S0 D S1 H sph isCrossAtten).2 = intendedFlow isCrossAtten
    ∧ (mha_forward B S0 D S1 H sph isCrossAtten).2.map KernelCall.writeAccess
      = [ ⟨.workspace (workspaceLayout B S0 D S1 H).q_share, B * S0 * D⟩,
          ⟨.workspace (workspaceLayout B S0 D S1 H).q_buf, B * S0 * D⟩,
          ⟨.workspace (workspaceLayout B S0 D S1 H).k_buf, B * S1 * D⟩,
          ⟨.workspace (workspaceLayout B S0 D S1 H).v_buf, B * S1 * D⟩,
          ⟨.workspace (workspaceLayout B S0 D S1 H).q_share, B * S0 * D⟩,
          ⟨.workspace (workspaceLayout B S0 D S1 H).k_bias, B * S1 * D⟩,
          ⟨.workspace (workspaceLayout B S0 D S1 H).v_bias, B * S1 * D⟩,
          ⟨.workspace (workspaceLayout B S0 D S1 H).qk_buf, B * H * S0 * S1⟩,
          ⟨.workspace (workspaceLayout B S0 D S1 H).qk_buf, B * H * S0 * S1⟩,
          ⟨.workspace (workspaceLayout B S0 D S1 H).q_buf, B * S0 * D⟩,
          ⟨.workspace (workspaceLayout B S0 D S1 H).out_buf, B * S0 * D⟩,
          ⟨.output 0, B * S0 * D⟩, ⟨.output 0, B * S0 * D⟩ ]
    ∧ (workspaceRegions B S0 D S1 H).map (fun r => (r.name, r.start, r.count))
      = [ ("q_buf", 0, B * S0 * D), ("q_share", B * S0 * D, B * S0 * D),
          ("qk_buf", 2 * (B * S0 * D), B * H * S0 * S1),
          ("out_buf", 2 * (B * S0 * D) + B * H * S0 * S1, B * S0 * D),
          ("k_buf", 3 * (B * S0 * D) + B * H * S0 * S1, B * S1 * D),
          ("k_bias", 3 * (B * S0 * D) + B * H * S0 * S1 + B * S1 * D, B * S1 * D),
          ("v_buf", 3 * (B * S0 * D) + B * H * S0 * S1 + 2 * (B * S1 * D), B * S1 * D),
          ("v_bias", 3 * (B * S0 * D) + B * H * S0 * S1 + 3 * (B * S1 * D), B * S1 * D) ] := by
  subst hD
  have hBS0 : 1 ≤ B * S0 := by nlinarith
  have hBS1 : 1 ≤ B * S1 := by nlinarith
  have hBH : 1 ≤ B * H := by nlinarith
  have hHs : 1 ≤ H * sph := by nlinarith
  have ha : 1 ≤ B * S0 * (H * sph) := by nlinarith
  have hBHS0 : 1 ≤ B * H * S0 := by nlinarith
  have hc : 1 ≤ B * H * S0 * S1 := by nlinarith
  have he : 1 ≤ B * S1 * (H * sph) := by nlinarith
  have i1 : imul B S0 = B * S0 := wrapInt32_of_range _ (by omega) (by nlinarith)
  have i2 : imul B S1 = B * S1 := wrapInt32_of_range _ (by omega) (by nlinarith)
  have i3 : imul B H = B * H := wrapInt32_of_range _ (by omega) (by nlinarith)
  have e1 : H * sph * (B * S0) = B * S0 * (H * sph) := by ring
  have e2 : H * sph * (B * S1) = B * S1 * (H * sph) := by ring
  have e3 : B * S0 * H * sph = B * S0 * (H * sph) := by ring
  have e4 : B * S1 * H * sph = B * S1 * (H * sph) := by ring
  have e5 : B * H * (S1 * S0) = B * H * S0 * S1 := by ring
  have e7 : B * H * (sph * S0) = B * S0 * (H * sph) := by ring
  refine ⟨mha_forward_elementFlow B S0 S1 H sph isCrossAtten hB hS0 hS1 hH hsph hself hfit,
    ?_, ?_⟩
  · simp [mha_forward, i1, i2, i3, KernelCall.writeAccess, KernelCall.destination,
      KernelCall.writeCount, e1, e2, e3, e4, e5, e7]
  · rw [workspaceRegions,
      workspaceLayout_of_fits B S0 (H * sph) S1 H (by omega) (by omega) (by omega) hfit]
    rfl

/-- C25 (witness): the cross-attention shape `B = 2, S0 = 3, S1 = 5` and the
self-attention shape `B = 1, S0 = S1 = 2`, both with `d_model = 256 = 4 * 64` . -/
theorem C25_whole_regions_flow_as_intended_witness :
    (256 : Int) = 4 * 64
    ∧ (3 * (2 * 3 * 256) + 2 * 4 * 3 * 5 + 4 * (2 * 5 * 256) : Int) ≤ 2147483647
    ∧ elementFlow (mha_forward 2 3 256 5 4 64 true).2 = intendedFlow true
    ∧ (3 * (1 * 2 * 256) + 1 * 4 * 2 * 2 + 4 * (1 * 2 * 256) : Int) ≤ 2147483647
    ∧ elementFlow (mha_forward 1 2 256 2 4 64 false).2 = intendedFlow false :=
  ⟨by decide, by decide,
    (C25_whole_regions_flow_as_intended 2 3 256 5 4 64 true (by decide) (by decide) (by decide)
      (by decide) (by decide) (by decide) (by decide) (by decide)).1,
    by decide,
    (C25_whole_regions_flow_as_intended 1 2 256 2 4 64 false (by decide) (by decide) (by decide)
      (by decide) (by decide) (by decide) (fun _ => rfl) (by decide)).1⟩
/-! ### Serialization, format negotiation, creation and cloning (C26, C27, C28, C29) -/

/-- C26: serialization round trip. For every plugin `p` and every buffer with room
for `getSerializationSize()` bytes: `getSerializationSize()` is `sizeof(bool)`,
one byte; `serialize` stores the byte of `isCrossAtten` at the start of the
buffer, leaves the rest of the buffer as it was and ends with its cursor
`getSerializationSize()` bytes past the start, so its closing assertion holds;
the deserializing constructor (and `deserializePlugin`) on those bytes returns,
when `length` is `getSerializationSize()`, a plugin with the given name and the
`isCrossAtten` of `p`, its assertion holding, and for any other `length` its
assertion fails. -/
theorem C26_serialization_round_trip (p : MHAPlugin) (name : String) (u : Uninitialized)
    (buffer : List Nat) (length : Nat) (hcap : p.getSerializationSize ≤ buffer.length) :
    p.getSerializationSize = sizeofBool
    ∧ sizeofBool = 1
    ∧ p.serialize buffer
        = .ok { bytes := boolByte p.isCrossAtten :: buffer.tail, pos := p.getSerializationSize }
    ∧ MHAPlugin.newDeserialized name (boolByte p.isCrossAtten :: buffer.tail) length u
        = (if length = p.getSerializationSize then
            .ok { mLayerName := name, mNamespace := "", isCrossAtten := p.isCrossAtten,
                  int8_model := u.int8_model, scale_list := u.scale_list }
          else .error .assertionFailed)
    ∧ MHAPluginCreator.deserializePlugin name (boolByte p.isCrossAtten :: buffer.tail) length u
        = (if length = p.getSerializationSize then
            .ok { mLayerName := name, mNamespace := "", isCrossAtten := p.isCrossAtten,
                  int8_model := u.int8_model, scale_list := u.scale_list }
          else .error .assertionFailed) := by
  have hread : MHAPlugin.newDeserialized name (boolByte p.isCrossAtten :: buffer.tail) length u
      = (if length = p.getSerializationSize then
          .ok { mLayerName := name, mNamespace := "", isCrossAtten := p.isCrossAtten,
                int8_model := u.int8_model, scale_list := u.scale_list }
        else .error .assertionFailed) := by
    cases hc : p.isCrossAtten <;>
      simp [MHAPlugin.newDeserialized, readFromBuffer, boolByte, MHAPlugin.getSerializationSize,
        sizeofBool, eq_comm]
  refine ⟨rfl, rfl, ?_, hread, hread⟩
  cases buffer with
  | nil => simp [MHAPlugin.getSerializationSize, sizeofBool] at hcap
  | cons b bs =>
    simp [MHAPlugin.serialize, writeToBuffer, MHAPlugin.getSerializationSize, sizeofBool]

/-- C26 (witness): a cross-attention plugin serialized into the two-byte buffer
`[7, 8]` and read back with lengths 1 and 2. -/
theorem C26_serialization_round_trip_witness :
    MHAPlugin.serialize ⟨"dec", "ns", true, -1, []⟩ [7, 8] = .ok { bytes := [1, 8], pos := 1 }
    ∧ MHAPlugin.newDeserialized "copy" [1, 8] 1 ⟨3, [5]⟩ = .ok ⟨"copy", "", true, 3, [5]⟩
    ∧ MHAPlugin.newDeserialized "copy" [1, 8] 2 ⟨3, [5]⟩ = .error .assertionFailed :=
  ⟨(C26_serialization_round_trip ⟨"dec", "ns", true, -1, []⟩ "copy" ⟨3, [5]⟩ [7, 8] 1
      (by decide)).2.2.1,
   (C26_serialization_round_trip ⟨"dec", "ns", true, -1, []⟩ "copy" ⟨3, [5]⟩ [7, 8] 1
      (by decide)).2.2.2.1,
   (C26_serialization_round_trip ⟨"dec", "ns", true, -1, []⟩ "copy" ⟨3, [5]⟩ [7, 8] 2
      (by decide)).2.2.2.1⟩

/-- C27: for every position `pos` inside the descriptor array `inOut`,
`supportsFormatCombination` returns a value, and it returns `true` if and only
if `inOut[pos]` has the linear format and element type float32, whatever the
plugin, the other descriptors and the input and output counts are. In
particular it returns `false` for a 16-bit float tensor at every position. -/
theorem C27_supportsFormatCombination_iff_linear_float32 (p : MHAPlugin) (pos : Int)
    (inOut : List PluginTensorDesc) (nbInputs nbOutputs : Int) (desc : PluginTensorDesc)
    (hpos : 0 ≤ pos) (hdesc : inOut[pos.toNat]? = some desc) :
    (∃ b, p.supportsFormatCombination pos inOut nbInputs nbOutputs = some b)
    ∧ (p.supportsFormatCombination pos inOut nbInputs nbOutputs = some true
        ↔ desc.format = TensorFormat.kLINEAR ∧ desc.type = DataType.kFLOAT)
    ∧ (desc.type = DataType.kHALF →
        p.supportsFormatCombination pos inOut nbInputs nbOutputs = some false) := by
  have hnot : ¬ pos < 0 := by omega
  have hval : p.supportsFormatCombination pos inOut nbInputs nbOutputs
      = some (decide (desc.format = TensorFormat.kLINEAR)
          && decide (desc.type = DataType.kFLOAT)) := by
    simp only [MHAPlugin.supportsFormatCombination, if_neg hnot, hdesc, Option.map_some']
  refine ⟨⟨_, hval⟩, ?_, ?_⟩
  · simp [MHAPlugin.supportsFormatCombination, hnot, hdesc]
  · intro hhalf
    simp [MHAPlugin.supportsFormatCombination, hnot, hdesc, hhalf]

/-- C27 (witness): the thirteen inputs and the output of a 16-bit float
invocation, at the output position 13: a linear 16-bit float tensor is refused. -/
theorem C27_supportsFormatCombination_iff_linear_float32_witness :
    (inputDesc13 .kHALF 2 3 3 256 ++ [⟨⟨3, [2, 3, 256]⟩, .kHALF, .kLINEAR, 0⟩])[(13 : Int).toNat]?
      = some ⟨⟨3, [2, 3, 256]⟩, .kHALF, .kLINEAR, 0⟩
    ∧ MHAPlugin.supportsFormatCombination ⟨"enc", "", false, -1, []⟩ 13
        (inputDesc13 .kHALF 2 3 3 256 ++ [⟨⟨3, [2, 3, 256]⟩, .kHALF, .kLINEAR, 0⟩]) 13 1
      = some false :=
  ⟨by decide,
   (C27_supportsFormatCombination_iff_linear_float32 ⟨"enc", "", false, -1, []⟩ 13
      (inputDesc13 .kHALF 2 3 3 256 ++ [⟨⟨3, [2, 3, 256]⟩, .kHALF, .kLINEAR, 0⟩]) 13 1
      ⟨⟨3, [2, 3, 256]⟩, .kHALF, .kLINEAR, 0⟩ (by decide) (by decide)).2.2 rfl⟩

/-- The loop of `createPlugin` over a stretch of fields that pass its two
assertions: the flag is set if and only if it was set before or one of the
fields is an `AttentionType` field with data `"cross"` . -/
theorem parseFields_stretch (mid : List PluginField) :
    ∀ (pre post : List PluginField) (isCrossAtten : Bool),
      (∀ f ∈ mid, f.name = "AttentionType" →
        f.type = PluginFieldType.kCHAR ∧ f.data.isChars = true) →
      (∀ f ∈ mid, f.name = "ScaleList" → f.type = PluginFieldType.kFLOAT32) →
      MHAPluginCreator.parseFields (pre ++ mid ++ post) isCrossAtten
          (List.range' pre.length mid.length)
        = some (isCrossAtten || mid.any PluginField.isCrossAttention) := by
  induction mid with
  | nil =>
    intro pre post b _ _
    simp [MHAPluginCreator.parseFields]
  | cons f ms ih =>
    intro pre post b hA hS
    have hget : (pre ++ f :: ms ++ post)[pre.length]? = some f := by
      rw [List.append_assoc, List.getElem?_append_right (le_refl _)]
      simp
    have hrec := ih (pre ++ [f]) post
    have hsplit : pre ++ [f] ++ ms ++ post = pre ++ f :: ms ++ post := by simp
    have hlen : (pre ++ [f]).length = pre.length + 1 := by simp
    rw [hsplit, hlen] at hrec
    have hA' : ∀ g ∈ ms, g.name = "AttentionType" →
        g.type = PluginFieldType.kCHAR ∧ g.data.isChars = true :=
      fun g hg => hA g (List.mem_cons_of_mem _ hg)
    have hS' : ∀ g ∈ ms, g.name = "ScaleList" → g.type = PluginFieldType.kFLOAT32 :=
      fun g hg => hS g (List.mem_cons_of_mem _ hg)
    simp only [List.length_cons, List.range'_succ, MHAPluginCreator.parseFields, hget,
      List.any_cons]
    by_cases hn : f.name = "AttentionType"
    · obtain ⟨ht, hchars⟩ := hA f (List.mem_cons_self _ _) hn
      obtain ⟨s, hs⟩ : ∃ s, f.data = FieldData.chars s := by
        cases hd : f.data with
        | chars s => exact ⟨s, rfl⟩
        | floats xs => rw [hd] at hchars; simp [FieldData.isChars] at hchars
        | other => rw [hd] at hchars; simp [FieldData.isChars] at hchars
      simp only [hn, if_true, ht, ne_eq, not_true_eq_false, if_false, hs]
      rw [hrec _ hA' hS']
      by_cases hc : s = "cross"
      · simp [PluginField.isCrossAttention, hn, hs, hc]
      · simp [PluginField.isCrossAttention, hn, hs, hc]
    · simp only [hn, if_false]
      have hnc : f.isCrossAttention = false := by
        simp [PluginField.isCrossAttention, hn]
      by_cases hsl : f.name = "ScaleList"
      · have ht := hS f (List.mem_cons_self _ _) hsl
        simp only [hsl, if_true, ht, ne_eq, not_true_eq_false, if_false]
        rw [hrec _ hA' hS', hnc, Bool.false_or]
      · simp only [hsl, if_false]
        rw [hrec _ hA' hS', hnc, Bool.false_or]

/-- What `createPlugin` returns for a collection whose visited fields pass the two
assertions of its loop. -/
theorem createPlugin_eq (name : String) (fc : PluginFieldCollection) (u : Uninitialized)
    (hn : fc.nbFields.toNat ≤ fc.fields.length)
    (hA : ∀ f ∈ fc.visited, f.name = "AttentionType" →
      f.type = PluginFieldType.kCHAR ∧ f.data.isChars = true)
    (hS : ∀ f ∈ fc.visited, f.name = "ScaleList" → f.type = PluginFieldType.kFLOAT32) :
    MHAPluginCreator.createPlugin name fc u
      = some (MHAPlugin.new name (fc.visited.any PluginField.isCrossAttention) u) := by
  have h := parseFields_stretch fc.visited [] (fc.fields.drop fc.nbFields.toNat) false hA hS
  have hlen : fc.visited.length = fc.nbFields.toNat := by
    simp [PluginFieldCollection.visited, List.length_take, hn]
  have hfields : [] ++ fc.visited ++ fc.fields.drop fc.nbFields.toNat = fc.fields := by
    simp [PluginFieldCollection.visited, List.take_append_drop]
  rw [hfields, hlen, List.length_nil, ← List.range_eq_range', Bool.false_or] at h
  simp [MHAPluginCreator.createPlugin, h]

/-- C28 (counterexample): a collection with an `AttentionType` field of type
`kCHAR` and data `"cross"` followed by a `ScaleList` field declared with type
`kINT32` : the assertion on the `ScaleList` type fails and no plugin is returned,
while the same collection without the `ScaleList` field gives a cross-attention
plugin; and for a collection whose `AttentionType` field, with data `"cross"`, is
declared with type `kINT8`, the assertion on its type fails and no plugin is
returned. -/
theorem C28_createPlugin_asserts_field_types :
    MHAPluginCreator.createPlugin "mha"
        ⟨2, [⟨"AttentionType", .chars "cross", .kCHAR, 5⟩,
             ⟨"ScaleList", .floats [1], .kINT32, 1⟩]⟩ ⟨-1, []⟩ = none
    ∧ MHAPluginCreator.createPlugin "mha"
        ⟨1, [⟨"AttentionType", .chars "cross", .kCHAR, 5⟩]⟩ ⟨-1, []⟩
      = some ⟨"mha", "", true, -1, []⟩
    ∧ MHAPluginCreator.createPlugin "mha"
        ⟨1, [⟨"AttentionType", .chars "cross", .kINT8, 5⟩]⟩ ⟨-1, []⟩ = none := by
  decide

/-- C28 (amended): for every plugin field collection whose fields named
`AttentionType` have type `kCHAR` (and a string as data) and whose fields named
`ScaleList` have type `kFLOAT32`, the two assertions of the loop, `createPlugin`
returns a plugin with the given name whose `isCrossAtten` is true if and only if
some visited field named `AttentionType` has data equal to the string `"cross"` ;
the plugin is the one the constructor makes from the name and that flag, and it
is the same plugin that is returned for the collection of the `AttentionType`
fields alone: every other field, and the data and length of a `ScaleList` field,
has no effect on it. -/
theorem C28_createPlugin_reads_attention_type_only (name : String)
    (fc : PluginFieldCollection) (u : Uninitialized)
    (hn : fc.nbFields.toNat ≤ fc.fields.length)
    (hA : ∀ f ∈ fc.visited, f.name = "AttentionType" →
      f.type = PluginFieldType.kCHAR ∧ f.data.isChars = true)
    (hS : ∀ f ∈ fc.visited, f.name = "ScaleList" → f.type = PluginFieldType.kFLOAT32) :
    ∃ plugin : MHAPlugin,
      MHAPluginCreator.createPlugin name fc u = some plugin
      ∧ plugin.mLayerName = name
      ∧ (plugin.isCrossAtten = true ↔
          ∃ f ∈ fc.visited, f.name = "AttentionType" ∧ f.data = FieldData.chars "cross")
      ∧ plugin = MHAPlugin.new name plugin.isCrossAtten u
      ∧ MHAPluginCreator.createPlugin name
          ⟨((fc.visited.filter (fun f => decide (f.name = "AttentionType"))).length : Nat),
            fc.visited.filter (fun f => decide (f.name = "AttentionType"))⟩ u = some plugin := by
  refine ⟨_, createPlugin_eq name fc u hn hA hS, rfl, ?_, rfl, ?_⟩
  · simp [MHAPlugin.new, List.any_eq_true, PluginField.isCrossAttention]
  · rw [createPlugin_eq name _ u]
    · congr 2
      simp only [PluginFieldCollection.visited, Int.toNat_ofNat, List.take_length]
      rw [List.any_filter]
      congr 1
      funext a
      by_cases ha : a.name = "AttentionType" <;> simp [PluginField.isCrossAttention, ha]
    · simp
    · intro f hf hname
      simp only [PluginFieldCollection.visited, Int.toNat_ofNat, List.take_length] at hf
      exact hA f (List.mem_of_mem_filter hf) hname
    · intro f hf hname
      simp only [PluginFieldCollection.visited, Int.toNat_ofNat, List.take_length] at hf
      exact hS f (List.mem_of_mem_filter hf) hname

/-- C28 (witness): a collection of four fields, two of them `AttentionType` (the
second one `"cross"`), with a `ScaleList` and an unknown field in between. -/
theorem C28_createPlugin_reads_attention_type_only_witness :
    ∃ plugin : MHAPlugin,
      MHAPluginCreator.createPlugin "dec"
        ⟨4, [⟨"AttentionType", .chars "self", .kCHAR, 4⟩,
             ⟨"ScaleList", .floats [0, 1 / 2], .kFLOAT32, 2⟩,
             ⟨"Other", .other, .kUNKNOWN, 0⟩,
             ⟨"AttentionType", .chars "cross", .kCHAR, 5⟩]⟩ ⟨-1, []⟩ = some plugin
      ∧ plugin.mLayerName = "dec"
      ∧ plugin.isCrossAtten = true
      ∧ MHAPluginCreator.createPlugin "dec"
        ⟨2, [⟨"AttentionType", .chars "self", .kCHAR, 4⟩,
             ⟨"AttentionType", .chars "cross", .kCHAR, 5⟩]⟩ ⟨-1, []⟩ = some plugin :=
  have h := C28_createPlugin_reads_attention_type_only "dec"
    ⟨4, [⟨"AttentionType", .chars "self", .kCHAR, 4⟩,
         ⟨"ScaleList", .floats [0, 1 / 2], .kFLOAT32, 2⟩,
         ⟨"Other", .other, .kUNKNOWN, 0⟩,
         ⟨"AttentionType", .chars "cross", .kCHAR, 5⟩]⟩ ⟨-1, []⟩ (by decide)
    (by decide) (by decide)
  h.imp (fun plugin hp => ⟨hp.1, hp.2.1, hp.2.2.1.mpr (by decide), hp.2.2.2.2⟩)

/-- Updating the object that was allocated last. -/
theorem modify_last {α : Type} (f : α → α) (xs : List α) (x : α) :
    (xs ++ [x]).modify f xs.length = xs ++ [f x] := by
  induction xs with
  | nil => rfl
  | cons y ys ih => simp [List.modify_succ_cons, ih]

/-- C29: for every plugin object `p` on the heap, `clone` allocates one new object,
at a pointer that held no object before and differs from the pointer to `p`, with
the layer name, the `isCrossAtten` and the plugin namespace of `p` ; `p` and every
other object that existed before are left as they were. -/
theorem C29_clone_copies_name_type_and_namespace (heap : List MHAPlugin) (this : Nat)
    (u : Uninitialized) (p : MHAPlugin) (hthis : heap[this]? = some p) :
    ∃ (heap' : List MHAPlugin) (plugin : Nat) (q : MHAPlugin),
      MHAPlugin.clone heap this u = some (heap', plugin)
      ∧ plugin ≠ this
      ∧ heap[plugin]? = none
      ∧ heap'[plugin]? = some q
      ∧ q.mLayerName = p.mLayerName
      ∧ q.isCrossAtten = p.isCrossAtten
      ∧ q.getPluginNamespace = p.getPluginNamespace
      ∧ heap'[this]? = some p
      ∧ heap'.length = heap.length + 1
      ∧ ∀ i : Nat, i < heap.length → heap'[i]? = heap[i]? := by
  have hlt : this < heap.length := by
    by_contra hge
    rw [List.getElem?_eq_none (by omega)] at hthis
    exact absurd hthis (by simp)
  refine ⟨heap ++ [(MHAPlugin.new p.mLayerName p.isCrossAtten u).setPluginNamespace p.mNamespace],
    heap.length, (MHAPlugin.new p.mLayerName p.isCrossAtten u).setPluginNamespace p.mNamespace,
    ?_, by omega, List.getElem?_eq_none (le_refl _), ?_, rfl, rfl, rfl, ?_, ?_, ?_⟩
  · simp only [MHAPlugin.clone, hthis, modify_last]
  · simp
  · rw [List.getElem?_append_left hlt, hthis]
  · simp
  · intro i hi
    rw [List.getElem?_append_left hi]

/-- C29 (witness): a heap of two plugins, the second one cloned over storage
holding `int8_model = 5` . -/
theorem C29_clone_copies_name_type_and_namespace_witness :
    MHAPlugin.clone [⟨"enc", "a", false, -1, []⟩, ⟨"dec", "b", true, -1, []⟩] 1 ⟨5, [1]⟩
      = some ([⟨"enc", "a", false, -1, []⟩, ⟨"dec", "b", true, -1, []⟩,
          ⟨"dec", "b", true, 5, [1]⟩], 2)
    ∧ ∃ (heap' : List MHAPlugin) (plugin : Nat) (q : MHAPlugin),
      MHAPlugin.clone [⟨"enc", "a", false, -1, []⟩, ⟨"dec", "b", true, -1, []⟩] 1 ⟨5, [1]⟩
        = some (heap', plugin)
      ∧ plugin ≠ 1
      ∧ [(⟨"enc", "a", false, -1, []⟩ : MHAPlugin), ⟨"dec", "b", true, -1, []⟩][plugin]? = none
      ∧ heap'[plugin]? = some q
      ∧ q.mLayerName = "dec"
      ∧ q.isCrossAtten = true
      ∧ q.getPluginNamespace = "b"
      ∧ heap'[1]? = some ⟨"dec", "b", true, -1, []⟩
      ∧ heap'.length = 2 + 1
      ∧ ∀ i : Nat, i < 2 →
          heap'[i]? = [(⟨"enc", "a", false, -1, []⟩ : MHAPlugin), ⟨"dec", "b", true, -1, []⟩][i]? :=
  ⟨by decide,
   C29_clone_copies_name_type_and_namespace
    [⟨"enc", "a", false, -1, []⟩, ⟨"dec", "b", true, -1, []⟩] 1 ⟨5, [1]⟩
    ⟨"dec", "b", true, -1, []⟩ rfl⟩

end fastertransformer
